import Mathlib

/-!
# RedisGears `record.c`: the record value type, its teardown and its wire codec

A shallow embedding of `src/record.c`.  A `Record*` that is exclusively owned by
its parent is embedded as a subterm, so a record is a finite tree.  Functions
that can abort (`assert`) or run into C undefined behaviour return a `Fault`;
functions whose effect on the outside world matters return the state they leave
behind (the writer's bytes, the trace of releases) together with the fault.
-/

namespace RedisGears

/-! ## Machine-level basics -/

/-- One `char` of a buffer. -/
abbrev Byte := Fin 256

/-- An opaque `RedisModuleKey*` (the handle is only passed around). -/
abbrev RedisModuleKey := Nat

/-- An opaque `PyObject*`. -/
abbrev PyObject := Nat

/-- The ways a call can fail to return normally. -/
inductive Fault where
  /-- An `assert(...)` did not hold: the process aborts. -/
  | assertFailed
  /-- C undefined behaviour: a NULL pointer is dereferenced, a read runs past
  the end of the buffer, a conversion is out of range, or a union is read
  through a member that is not the active one. -/
  | undefinedBehaviour
  deriving DecidableEq

/-- The enumerators of `enum RecordType`. -/
inductive RecordType where
  | KEY_HANDLER_RECORD
  | LONG_RECORD
  | DOUBLE_RECORD
  | STRING_RECORD
  | LIST_RECORD
  | KEY_RECORD
  | HASH_SET_RECORD
  | STOP_RECORD
  | PY_RECORD
  deriving DecidableEq

/-- Conversion of an integer to `long` (64 bits, two's complement). -/
def toLong (v : Int) : Int := (v + 9223372036854775808) % 18446744073709551616 - 9223372036854775808

/-- Conversion of an integer to `size_t` (64 bits, unsigned). -/
def toSizeT (v : Int) : Nat := (v % 18446744073709551616).toNat

/-- Conversion of a `long` to `enum RecordType`, an object of the size of an
`int`: the value is reduced modulo 2^32.  The enumerators lie in the lower
half of that range, so comparing the reduced value with them gives the same
answer whether the enumeration is represented signed or unsigned. -/
def toEnum (v : Int) : Int := v % 4294967296

/-- Conversion of a `long` to `bool`: every non-zero value is true. -/
def toBool (v : Int) : Bool := v != 0

/-- The C string in a buffer: the bytes before its first NUL (all of them when
the buffer holds none and is followed by its terminator); what `strlen`
measures and `strdup` copies. -/
def cString (s : List Byte) : List Byte := s.takeWhile (fun b => b != 0)

/-- The C library's `strlen`. -/
def strlen (s : List Byte) : Nat := (cString s).length

/-! ## The `double` payload

A finite `double` is represented by its value `num / 2^scale`, in lowest terms
(`scale = 0` or `num` odd), so that equal values are equal terms; the sign of
zero is not represented. -/

/-- The value of a C `double`. -/
inductive Double where
  | finite (num : Int) (scale : Nat)
  | infinite (negative : Bool)
  | nan
  deriving DecidableEq

/-- The number of halvings that bring a magnitude below 2^53, at most `k`. -/
def excessFrom : Nat → Nat → Nat
  | 0, _ => 0
  | k + 1, a => if a < 9007199254740992 then 0 else excessFrom k (a / 2) + 1

/-- The number of bits by which a magnitude below 2^64 exceeds 53 significant
bits. -/
def excessBits (a : Nat) : Nat := excessFrom 11 a

/-- Round a magnitude below 2^64 to 53 significant bits, ties to even. -/
def roundMagnitude (a : Nat) : Nat :=
  let s := excessBits a
  let q := a / 2 ^ s
  let r := a % 2 ^ s
  let half := 2 ^ s / 2
  if s = 0 then a
  else if half < r then (q + 1) * 2 ^ s
  else if r = half ∧ q % 2 = 1 then (q + 1) * 2 ^ s
  else q * 2 ^ s

/-- The cast `(double)n` of a `long`: the nearest `double`. -/
def longToDouble (n : Int) : Double :=
  if n < 0 then .finite (-(roundMagnitude n.natAbs : Int)) 0
  else .finite (roundMagnitude n.natAbs) 0

/-- The cast `(long)x` of a `double`: truncation toward zero; undefined when
the truncated value is not representable in a `long`. -/
def doubleToLong : Double → Except Fault Int
  | .finite num scale =>
    let t := Int.tdiv num (2 ^ scale)
    if -9223372036854775808 ≤ t ∧ t < 9223372036854775808 then .ok t
    else .error .undefinedBehaviour
  | .infinite _ => .error .undefinedBehaviour
  | .nan => .error .undefinedBehaviour

/-- A finite value that a binary64 `double` can hold exactly: an integer whose
magnitude has at most 53 significant bits, followed by at most 971 zero bits,
or an odd numerator of at most 53 bits over a power of two. -/
def Double.isBinary64 : Double → Bool
  | .finite num 0 =>
    decide (num.natAbs % 2 ^ excessFrom 971 num.natAbs = 0
      ∧ num.natAbs / 2 ^ excessFrom 971 num.natAbs < 2 ^ 53)
  | .finite num (k + 1) => decide (num % 2 = 1 ∧ num.natAbs < 2 ^ 53 ∧ k + 1 ≤ 1074)
  | .infinite _ => true
  | .nan => true

/-- The value has no fractional part. -/
def Double.isIntegral : Double → Bool
  | .finite _ scale => scale == 0
  | _ => false

/-! ## The byte buffer (`utils/buffer.h`, not among the sources) -/

/-- The bytes of a buffer writer, oldest first. -/
abbrev BufferWriter := List Byte

/-- The bytes a buffer reader has not consumed yet. -/
abbrev BufferReader := List Byte

/-- The `k` low-order bytes of `u`, least significant first. -/
def natToBytes : Nat → Nat → List Byte
  | 0, _ => []
  | k + 1, u => Fin.ofNat (u % 256) :: natToBytes k (u / 256)

/-- The number whose little-endian bytes are given. -/
def bytesToNat : List Byte → Nat
  | [] => 0
  | b :: bs => b.val + 256 * bytesToNat bs

/-- The eight bytes of a `long`. -/
def longBytes (val : Int) : List Byte := natToBytes 8 (toSizeT val)

/-- The `long` held by eight bytes. -/
def bytesToLong (bs : List Byte) : Int := toLong (bytesToNat bs)

/-- Modelled from the spec: `writeInt64(n)` of the byte-buffer collaborator,
"fixed-width signed 64-bit integer"; the buffer sources are missing, the eight
bytes are taken in little-endian order. -/
def RediStar_BWWriteLong (bw : BufferWriter) (val : Int) : BufferWriter := bw ++ longBytes val

/-- Modelled from the spec: `writeBytes(ptr,len)`, a "length-prefixed raw byte
span": the length as a `long`, then the bytes. -/
def RediStar_BWWriteBuffer (bw : BufferWriter) (buff : List Byte) : BufferWriter :=
  RediStar_BWWriteLong bw buff.length ++ buff

/-- Modelled from the spec: `writeString(s)`, a "NUL/length-terminated string"
written as a length-prefixed string: the bytes of the C string (up to its first
NUL) and the terminating NUL, as a length-prefixed span.  A NULL pointer has no
string to measure. -/
def RediStar_BWWriteString (bw : BufferWriter) : Option (List Byte) → BufferWriter × Option Fault
  | none => (bw, some .undefinedBehaviour)
  | some s => (RediStar_BWWriteBuffer bw (cString s ++ [0]), none)

/-- Modelled from the spec: `readInt64()`.  The spec does not say what a read
with fewer than eight bytes left does; here it is undefined behaviour (a read
past the end of the buffer), and `Primitives` below leaves it open. -/
def RediStar_BRReadLong (br : BufferReader) : Except Fault (Int × BufferReader) :=
  if 8 ≤ br.length then .ok (bytesToLong (br.take 8), br.drop 8)
  else .error .undefinedBehaviour

/-- Modelled from the spec: `readBytes()->(ptr,len)`, the length-prefixed span
and the reader behind it. -/
def RediStar_BRReadBuffer (br : BufferReader) : Except Fault (List Byte × BufferReader) :=
  match RediStar_BRReadLong br with
  | .error f => .error f
  | .ok (n, br1) =>
    if toSizeT n ≤ br1.length then .ok (br1.take (toSizeT n), br1.drop (toSizeT n))
    else .error .undefinedBehaviour

/-- Modelled from the spec: `readString()->s`, the span written by
`writeString`. -/
def RediStar_BRReadString (br : BufferReader) : Except Fault (List Byte × BufferReader) :=
  RediStar_BRReadBuffer br

/-- The C library's `strdup` on a span handed out by the reader: the copy ends
at the first NUL; a span without a NUL is not a string. -/
def RS_STRDUP (span : List Byte) : Except Fault (List Byte) :=
  if (0 : Byte) ∈ span then .ok (cString span) else .error .undefinedBehaviour

/-! ## Growable arrays (`utils/arr_rm_alloc.h`, not among the sources) -/

/-- Modelled from the spec: `array_new` of the growable-array header, which is
missing; a fresh sequence is empty whatever capacity is asked for (the spec's
"growable sequence"). -/
def array_new {α : Type} (_initSize : Nat) : List α := []

/-- Modelled from the spec: `array_len`, the "length query". -/
def array_len {α : Type} (arr : List α) : Nat := arr.length

/-- Modelled from the spec: `array_append`, "append" at the end. -/
def array_append {α : Type} (arr : List α) (x : α) : List α := arr ++ [x]

/-- Modelled from the spec: `array_pop`, "pop-last (owning transfer out,
shrinking the list by one; popping an empty list is a fault)". -/
def array_pop {α : Type} (arr : List α) : Except Fault (α × List α) :=
  match arr.getLast? with
  | none => .error .assertFailed
  | some x => .ok (x, arr.dropLast)

/-! ## The record type -/

/-- The struct `Record`: the union member selected by the `type` field.  A
`(char*, size_t)` pair describing a byte span is the list of those bytes; a
C-string pointer is `none` when NULL; an owned `Record*` is the record itself
(`none` when NULL).  The elements of a list's array are records:
`RS_ListRecordAdd` stores any pointer, but a NULL element is no value of the
data model ("a List's children ... are never null") and no property below is
about one; the value of a map entry may be NULL, because storing NULL under a
key is a case of its own (`RS_HashSetRecordSet`). -/
inductive Record where
  | keyHandlerRecord (keyHandler : RedisModuleKey)
  | longRecord (num : Int)
  | doubleRecord (num : Double)
  | stringRecord (str : List Byte)
  | listRecord (records : List Record)
  | keyRecord (key : Option (List Byte)) (len : Nat) (record : Option Record)
  | hashSetRecord (d : List (List Byte × Option Record))
  | pyRecord (obj : Option PyObject)

/-- The dictionary of a `HashSetRecord`: entries with pairwise different
keys, in iteration order. -/
abbrev dict := List (List Byte × Option Record)

/-- The field `type` of a record. -/
def RS_RecordGetType : Record → RecordType
  | .keyHandlerRecord _ => .KEY_HANDLER_RECORD
  | .longRecord _ => .LONG_RECORD
  | .doubleRecord _ => .DOUBLE_RECORD
  | .stringRecord _ => .STRING_RECORD
  | .listRecord _ => .LIST_RECORD
  | .keyRecord _ _ _ => .KEY_RECORD
  | .hashSetRecord _ => .HASH_SET_RECORD
  | .pyRecord _ => .PY_RECORD

/-! ## The dictionary (`utils/dict.h`, not among the sources) -/

/-- Modelled from the spec: `dictCreate`; the dictionary sources are missing.
The spec's map is a "string-keyed mapping (keys unique ...)". -/
def dictCreate : dict := []

/-- Modelled from the spec: `dictFind`, the entry stored under a key. -/
def dictFind (d : dict) (key : List Byte) : Option (List Byte × Option Record) :=
  d.find? (fun e => decide (e.1 = key))

/-- Modelled from the spec: `dictAdd`, which inserts a new entry and fails on
a key that already has one (the spec's "duplicate-key" failure); the flag is
`== DICT_OK`. -/
def dictAdd (d : dict) (key : List Byte) (val : Option Record) : dict × Bool :=
  match dictFind d key with
  | some _ => (d, false)
  | none => (d ++ [(key, val)], true)

/-- Modelled from the spec: `dictDelete`, which removes the entry of a key. -/
def dictDelete (d : dict) (key : List Byte) : dict :=
  d.filter (fun e => !decide (e.1 = key))

/-- Modelled from the spec: `dictSize`. -/
def dictSize (d : dict) : Nat := d.length

/-! ## The environment: what the headers and the Python glue fix -/

/-- What `record.c` takes from outside: the values of the enumerators of
`enum RecordType` (distinct non-negative `int`s, as for every C enumeration),
whether it is compiled `WITHPYTHON`, and then the two codec hooks
`RediStarPy_PyObjectSerialize` (the bytes it appends for an object, and
whether it faults) and `RediStarPy_PyObjectDeserialize` (the object it builds
from the reader and the number of bytes it consumes). -/
structure Env where
  tag : RecordType → Int
  tag_injective : ∀ a b, tag a = tag b → a = b
  tag_range : ∀ a, 0 ≤ tag a ∧ tag a < 2147483648
  withPython : Bool
  pySerialize : Option PyObject → List Byte × Option Fault
  pyDeserialize : BufferReader → Except Fault (Option PyObject × Nat)

/-- An environment for examples: the enumerators numbered from 1 in their
order of declaration, Python compiled in, an object written as its address. -/
def stdEnv : Env where
  tag := fun t => match t with
    | .KEY_HANDLER_RECORD => 1
    | .LONG_RECORD => 2
    | .DOUBLE_RECORD => 3
    | .STRING_RECORD => 4
    | .LIST_RECORD => 5
    | .KEY_RECORD => 6
    | .HASH_SET_RECORD => 7
    | .STOP_RECORD => 8
    | .PY_RECORD => 9
  tag_injective := by intro a b; cases a <;> cases b <;> simp
  tag_range := by intro a; cases a <;> simp
  withPython := true
  pySerialize := fun o => match o with
    | none => ([], some .undefinedBehaviour)
    | some p => (longBytes p, none)
  pyDeserialize := fun br => match RediStar_BRReadLong br with
    | .error f => .error f
    | .ok (p, _) => .ok (some (toSizeT p), 8)

/-! ## Releases and reference counting, as a trace -/

/-- One externally visible release or reference-count operation. -/
inductive Event where
  /-- The call `RS_FREE(p)` on a string or key buffer holding these bytes. -/
  | freeBuffer (bytes : List Byte)
  /-- The call `array_free` on a list's array of this length. -/
  | arrayFree (len : Nat)
  /-- The call `dictRelease` on a dictionary with these keys. -/
  | dictRelease (keys : List (List Byte))
  /-- The call `RedisModule_CloseKey`. -/
  | closeKey (keyHandler : RedisModuleKey)
  /-- The macro `Py_DECREF`. -/
  | pyDecref (obj : PyObject)
  /-- The macro `Py_INCREF`. -/
  | pyIncref (obj : PyObject)
  /-- The final `RS_FREE(record)` of a record's own storage. -/
  | freeRecord (record : Record)

mutual
/-- The function `RS_FreeRecord`: the releases it performs, in order, and the
fault that stopped it, if any. -/
def RS_FreeRecord (E : Env) : Record → List Event × Option Fault
  | .stringRecord str => ([.freeBuffer str, .freeRecord (.stringRecord str)], none)
  | .longRecord num => ([.freeRecord (.longRecord num)], none)
  | .doubleRecord num => ([.freeRecord (.doubleRecord num)], none)
  | .listRecord records =>
    match freeRecords E records with
    | (evs, some f) => (evs, some f)
    | (evs, none) =>
      (evs ++ [.arrayFree (array_len records), .freeRecord (.listRecord records)], none)
  | .keyRecord key len none =>
    ((match key with
      | some k => [.freeBuffer k]
      | none => []) ++ [.freeRecord (.keyRecord key len none)], none)
  | .keyRecord key len (some record) =>
    match RS_FreeRecord E record with
    | (evs, some f) =>
      ((match key with
        | some k => [.freeBuffer k]
        | none => []) ++ evs, some f)
    | (evs, none) =>
      ((match key with
        | some k => [.freeBuffer k]
        | none => []) ++ evs ++ [.freeRecord (.keyRecord key len (some record))], none)
  | .keyHandlerRecord keyHandler =>
    ([.closeKey keyHandler, .freeRecord (.keyHandlerRecord keyHandler)], none)
  | .hashSetRecord d =>
    match freeEntries E d with
    | (evs, some f) => (evs, some f)
    | (evs, none) =>
      (evs ++ [.dictRelease (d.map Prod.fst), .freeRecord (.hashSetRecord d)], none)
  | .pyRecord obj =>
    if E.withPython then
      match obj with
      | none => ([], some .undefinedBehaviour)
      | some o => ([.pyDecref o, .freeRecord (.pyRecord obj)], none)
    else ([], some .assertFailed)
/-- The loop of `RS_FreeRecord` over the elements of a list, in index order. -/
def freeRecords (E : Env) : List Record → List Event × Option Fault
  | [] => ([], none)
  | r :: rs =>
    match RS_FreeRecord E r with
    | (evs, some f) => (evs, some f)
    | (evs, none) =>
      match freeRecords E rs with
      | (evs1, f) => (evs ++ evs1, f)
/-- The loop of `RS_FreeRecord` over the entries of a dictionary; the value
of an entry is dereferenced, so a NULL value is undefined behaviour. -/
def freeEntries (E : Env) : List (List Byte × Option Record) → List Event × Option Fault
  | [] => ([], none)
  | (_, none) :: _ => ([], some .undefinedBehaviour)
  | (_, some r) :: es =>
    match RS_FreeRecord E r with
    | (evs, some f) => (evs, some f)
    | (evs, none) =>
      match freeEntries E es with
      | (evs1, f) => (evs ++ evs1, f)
end

/-! ## Constructors, accessors and mutators -/

/-- The function `RS_KeyRecordCreate`. -/
def RS_KeyRecordCreate : Record := .keyRecord none 0 none

/-- The function `RS_KeyRecordSetKey`. -/
def RS_KeyRecordSetKey (r : Record) (key : Option (List Byte)) (len : Nat) :
    Except Fault Record :=
  match r with
  | .keyRecord _ _ record => .ok (.keyRecord key len record)
  | _ => .error .assertFailed

/-- The function `RS_KeyRecordSetVal`: the record after the assignment and the
releases performed (the body is the assertion and the assignment). -/
def RS_KeyRecordSetVal (r : Record) (val : Option Record) :
    Except Fault (Record × List Event) :=
  match r with
  | .keyRecord key len _ => .ok (.keyRecord key len val, [])
  | _ => .error .assertFailed

/-- The function `RS_KeyRecordGetVal`. -/
def RS_KeyRecordGetVal (r : Record) : Except Fault (Option Record) :=
  match r with
  | .keyRecord _ _ record => .ok record
  | _ => .error .assertFailed

/-- The function `RS_KeyRecordGetKey`: the key pointer and the stored length. -/
def RS_KeyRecordGetKey (r : Record) : Except Fault (Option (List Byte) × Nat) :=
  match r with
  | .keyRecord key len _ => .ok (key, len)
  | _ => .error .assertFailed

/-- The function `RS_ListRecordCreate`. -/
def RS_ListRecordCreate (initSize : Nat) : Record := .listRecord (array_new initSize)

/-- The function `RS_ListRecordLen`. -/
def RS_ListRecordLen (r : Record) : Except Fault Nat :=
  match r with
  | .listRecord records => .ok (array_len records)
  | _ => .error .assertFailed

/-- The function `RS_ListRecordAdd`. -/
def RS_ListRecordAdd (r : Record) (element : Record) : Except Fault Record :=
  match r with
  | .listRecord records => .ok (.listRecord (array_append records element))
  | _ => .error .assertFailed

/-- The function `RS_ListRecordGet`. -/
def RS_ListRecordGet (r : Record) (index : Nat) : Except Fault Record :=
  match r with
  | .listRecord records =>
    match records.get? index with
    | some x => .ok x
    | none => .error .assertFailed
  | _ => .error .assertFailed

/-- The function `RS_ListRecordPop`: the popped element and the list left.
The body is `array_pop(r->listRecord.records)` with no assertion on the type:
on another variant the union is read through the wrong member. -/
def RS_ListRecordPop (r : Record) : Except Fault (Record × Record) :=
  match r with
  | .listRecord records =>
    match array_pop records with
    | .ok (x, rest) => .ok (x, .listRecord rest)
    | .error f => .error f
  | _ => .error .undefinedBehaviour

/-- The function `RS_StringRecordCreate`. -/
def RS_StringRecordCreate (val : List Byte) : Record := .stringRecord val

/-- The function `RS_StringRecordGet`: the bytes and their number. -/
def RS_StringRecordGet (r : Record) : Except Fault (List Byte × Nat) :=
  match r with
  | .stringRecord str => .ok (str, str.length)
  | _ => .error .assertFailed

/-- The function `RS_StringRecordSet`. -/
def RS_StringRecordSet (r : Record) (val : List Byte) : Except Fault Record :=
  match r with
  | .stringRecord _ => .ok (.stringRecord val)
  | _ => .error .assertFailed

/-- The function `RS_DoubleRecordCreate`. -/
def RS_DoubleRecordCreate (val : Double) : Record := .doubleRecord val

/-- The function `RS_DoubleRecordGet`. -/
def RS_DoubleRecordGet (r : Record) : Except Fault Double :=
  match r with
  | .doubleRecord num => .ok num
  | _ => .error .assertFailed

/-- The function `RS_DoubleRecordSet`. -/
def RS_DoubleRecordSet (r : Record) (val : Double) : Except Fault Record :=
  match r with
  | .doubleRecord _ => .ok (.doubleRecord val)
  | _ => .error .assertFailed

/-- The function `RS_LongRecordCreate`. -/
def RS_LongRecordCreate (val : Int) : Record := .longRecord val

/-- The function `RS_LongRecordGet`. -/
def RS_LongRecordGet (r : Record) : Except Fault Int :=
  match r with
  | .longRecord num => .ok num
  | _ => .error .assertFailed

/-- The function `RS_LongRecordSet`. -/
def RS_LongRecordSet (r : Record) (val : Int) : Except Fault Record :=
  match r with
  | .longRecord _ => .ok (.longRecord val)
  | _ => .error .assertFailed

/-- The function `RS_HashSetRecordCreate`. -/
def RS_HashSetRecordCreate : Record := .hashSetRecord dictCreate

/-- The function `RS_HashSetRecordGet`: the value pointer of the entry, or 0
(`none`) when `dictFind` finds no entry. -/
def RS_HashSetRecordGet (r : Record) (key : List Byte) : Except Fault (Option Record) :=
  match r with
  | .hashSetRecord d =>
    match dictFind d key with
    | none => .ok none
    | some entry => .ok entry.2
  | _ => .error .assertFailed

/-- The function `RS_HashSetRecordSet`: the map after the call, the returned
flag and the releases performed. -/
def RS_HashSetRecordSet (E : Env) (r : Record) (key : List Byte) (val : Option Record) :
    Except Fault (Record × Bool × List Event) :=
  match r with
  | .hashSetRecord d =>
    match RS_HashSetRecordGet (.hashSetRecord d) key with
    | .error f => .error f
    | .ok (some oldVal) =>
      match RS_FreeRecord E oldVal with
      | (_, some f) => .error f
      | (evs, none) =>
        let added := dictAdd (dictDelete d key) key val
        .ok (.hashSetRecord added.1, added.2, evs)
    | .ok none =>
      let added := dictAdd d key val
      .ok (.hashSetRecord added.1, added.2, [])
  | _ => .error .assertFailed

/-- The function `RS_HashSetRecordGetAllKeys`: the keys in iteration order
(`*len` is the length of the result). -/
def RS_HashSetRecordGetAllKeys (r : Record) : Except Fault (List (List Byte)) :=
  match r with
  | .hashSetRecord d => .ok (d.foldl (fun ret entry => array_append ret entry.1) (array_new (dictSize d)))
  | _ => .error .assertFailed

/-- The function `RS_KeyHandlerRecordCreate`. -/
def RS_KeyHandlerRecordCreate (handler : RedisModuleKey) : Record := .keyHandlerRecord handler

/-- The function `RS_KeyHandlerRecordGet`. -/
def RS_KeyHandlerRecordGet (r : Record) : Except Fault RedisModuleKey :=
  match r with
  | .keyHandlerRecord keyHandler => .ok keyHandler
  | _ => .error .assertFailed

/-- The function `RS_PyObjRecordCreate` (only `WITHPYTHON`). -/
def RS_PyObjRecordCreate : Record := .pyRecord none

/-- The function `RS_PyObjRecordGet` (only `WITHPYTHON`). -/
def RS_PyObjRecordGet (r : Record) : Except Fault (Option PyObject) :=
  match r with
  | .pyRecord obj => .ok obj
  | _ => .error .assertFailed

/-- The function `RS_PyObjRecordSet` (only `WITHPYTHON`): `Py_INCREF(obj)`
dereferences the object, then the pointer is stored. -/
def RS_PyObjRecordSet (r : Record) (obj : Option PyObject) :
    Except Fault (Record × List Event) :=
  match r with
  | .pyRecord _ =>
    match obj with
    | none => .error .undefinedBehaviour
    | some o => .ok (.pyRecord (some o), [.pyIncref o])
  | _ => .error .assertFailed

/-! ## The wire codec -/

mutual
/-- The function `RS_SerializeRecord`: the writer after the call and the fault
that stopped it, if any.  The type is written first, for every variant. -/
def RS_SerializeRecord (E : Env) (bw : BufferWriter) : Record → BufferWriter × Option Fault
  | .stringRecord str =>
    (RediStar_BWWriteBuffer (RediStar_BWWriteLong bw (E.tag .STRING_RECORD)) str, none)
  | .longRecord num =>
    (RediStar_BWWriteLong (RediStar_BWWriteLong bw (E.tag .LONG_RECORD)) num, none)
  | .doubleRecord num =>
    match doubleToLong num with
    | .ok n => (RediStar_BWWriteLong (RediStar_BWWriteLong bw (E.tag .DOUBLE_RECORD)) n, none)
    | .error f => (RediStar_BWWriteLong bw (E.tag .DOUBLE_RECORD), some f)
  | .listRecord records =>
    serializeRecords E
      (RediStar_BWWriteLong (RediStar_BWWriteLong bw (E.tag .LIST_RECORD)) (array_len records)) records
  | .keyRecord key _ none =>
    match RediStar_BWWriteString (RediStar_BWWriteLong bw (E.tag .KEY_RECORD)) key with
    | (bw1, some f) => (bw1, some f)
    | (bw1, none) => (RediStar_BWWriteLong bw1 0, none)
  | .keyRecord key _ (some record) =>
    match RediStar_BWWriteString (RediStar_BWWriteLong bw (E.tag .KEY_RECORD)) key with
    | (bw1, some f) => (bw1, some f)
    | (bw1, none) => RS_SerializeRecord E (RediStar_BWWriteLong bw1 1) record
  | .keyHandlerRecord _ =>
    (RediStar_BWWriteLong bw (E.tag .KEY_HANDLER_RECORD), some .assertFailed)
  | .hashSetRecord _ =>
    (RediStar_BWWriteLong bw (E.tag .HASH_SET_RECORD), some .assertFailed)
  | .pyRecord obj =>
    if E.withPython then
      (RediStar_BWWriteLong bw (E.tag .PY_RECORD) ++ (E.pySerialize obj).1, (E.pySerialize obj).2)
    else (RediStar_BWWriteLong bw (E.tag .PY_RECORD), some .assertFailed)
/-- The loop of `RS_SerializeRecord` over the elements of a list. -/
def serializeRecords (E : Env) (bw : BufferWriter) : List Record → BufferWriter × Option Fault
  | [] => (bw, none)
  | r :: rs =>
    match RS_SerializeRecord E bw r with
    | (bw1, some f) => (bw1, some f)
    | (bw1, none) => serializeRecords E bw1 rs
end

/-- The loop of `RS_DeserializeRecord` that reads `size` children into the
list `r`; `self` stands for the recursive call. -/
def deserializeChildren (self : BufferReader → Except Fault (Record × BufferReader)) :
    Nat → Record → BufferReader → Except Fault (Record × BufferReader)
  | 0, r, br => .ok (r, br)
  | size + 1, r, br =>
    match self br with
    | .error f => .error f
    | .ok (element, br1) =>
      match RS_ListRecordAdd r element with
      | .error f => .error f
      | .ok r1 => deserializeChildren self size r1 br1

/-- The body of `RS_DeserializeRecord`, with `self` for its recursive calls:
the record built and the reader left behind it. -/
def deserializeBody (E : Env) (self : BufferReader → Except Fault (Record × BufferReader))
    (br : BufferReader) : Except Fault (Record × BufferReader) :=
  match RediStar_BRReadLong br with
  | .error f => .error f
  | .ok (t, br1) =>
    if toEnum t = E.tag .STRING_RECORD then
      match RediStar_BRReadBuffer br1 with
      | .error f => .error f
      | .ok (temp, br2) => .ok (RS_StringRecordCreate temp, br2)
    else if toEnum t = E.tag .LONG_RECORD then
      match RediStar_BRReadLong br1 with
      | .error f => .error f
      | .ok (n, br2) => .ok (RS_LongRecordCreate n, br2)
    else if toEnum t = E.tag .DOUBLE_RECORD then
      match RediStar_BRReadLong br1 with
      | .error f => .error f
      | .ok (n, br2) => .ok (RS_DoubleRecordCreate (longToDouble n), br2)
    else if toEnum t = E.tag .LIST_RECORD then
      match RediStar_BRReadLong br1 with
      | .error f => .error f
      | .ok (n, br2) =>
        deserializeChildren self (toSizeT n) (RS_ListRecordCreate (toSizeT n)) br2
    else if toEnum t = E.tag .KEY_RECORD then
      match RediStar_BRReadString br1 with
      | .error f => .error f
      | .ok (span, br2) =>
        match RS_STRDUP span with
        | .error f => .error f
        | .ok key =>
          match RS_KeyRecordSetKey RS_KeyRecordCreate (some key) (strlen key) with
          | .error f => .error f
          | .ok r =>
            match RediStar_BRReadLong br2 with
            | .error f => .error f
            | .ok (isValExists, br3) =>
              if toBool isValExists then
                match self br3 with
                | .error f => .error f
                | .ok (val, br4) =>
                  match RS_KeyRecordSetVal r (some val) with
                  | .error f => .error f
                  | .ok (r1, _) => .ok (r1, br4)
              else
                match RS_KeyRecordSetVal r none with
                | .error f => .error f
                | .ok (r1, _) => .ok (r1, br3)
    else if toEnum t = E.tag .KEY_HANDLER_RECORD then .error .assertFailed
    else if E.withPython = true ∧ toEnum t = E.tag .PY_RECORD then
      match E.pyDeserialize br1 with
      | .error f => .error f
      | .ok (obj, used) => .ok (.pyRecord obj, br1.drop used)
    else .error .assertFailed

/-- The recursion of `RS_DeserializeRecord`, unrolled `depth` times; what is
returned at depth 0 is never reached from `RS_DeserializeRecord` (see
`RS_DeserializeRecord_eq`). -/
def deserializeDepth (E : Env) : Nat → BufferReader → Except Fault (Record × BufferReader)
  | 0 => fun _ => .error .undefinedBehaviour
  | depth + 1 => deserializeBody E (deserializeDepth E depth)

/-- The function `RS_DeserializeRecord`.  Every call consumes the eight bytes
of a type before it recurses, so the recursion is never deeper than the number
of bytes left in the reader. -/
def RS_DeserializeRecord (E : Env) (br : BufferReader) : Except Fault (Record × BufferReader) :=
  deserializeDepth E (br.length + 1) br

mutual
/-- The records of a tree: the record itself and, at any depth, the elements
of lists, the values of keyed records and the values of hash sets. -/
def Record.subrecords : Record → List Record
  | .listRecord records => .listRecord records :: subrecordsOfList records
  | .keyRecord key len none => [.keyRecord key len none]
  | .keyRecord key len (some record) =>
    .keyRecord key len (some record) :: Record.subrecords record
  | .hashSetRecord d => .hashSetRecord d :: subrecordsOfDict d
  | .keyHandlerRecord keyHandler => [.keyHandlerRecord keyHandler]
  | .longRecord num => [.longRecord num]
  | .doubleRecord num => [.doubleRecord num]
  | .stringRecord str => [.stringRecord str]
  | .pyRecord obj => [.pyRecord obj]
/-- The records of the trees of a list. -/
def subrecordsOfList : List Record → List Record
  | [] => []
  | r :: rs => Record.subrecords r ++ subrecordsOfList rs
/-- The records of the values of a dictionary. -/
def subrecordsOfDict : List (List Byte × Option Record) → List Record
  | [] => []
  | (_, none) :: es => subrecordsOfDict es
  | (_, some r) :: es => Record.subrecords r ++ subrecordsOfDict es
end

/-- The record is of the given variant. -/
def Record.isOfType (t : RecordType) (r : Record) : Bool := decide (RS_RecordGetType r = t)

/-- An ExternalHandle occurs in the tree, at any depth. -/
def Record.hasKeyHandler (r : Record) : Bool :=
  r.subrecords.any (Record.isOfType .KEY_HANDLER_RECORD)

/-- A StringMap occurs in the tree, at any depth. -/
def Record.hasHashSet (r : Record) : Bool :=
  r.subrecords.any (Record.isOfType .HASH_SET_RECORD)

/-- The fields of one record hold values of their C types: a `long` is a
64-bit two's complement number, a `double` is a binary64 value, a `size_t`
length is below 2^64, and a key buffer with its terminating NUL has a size. -/
def Record.fieldsInRange : Record → Bool
  | .longRecord num => decide (-9223372036854775808 ≤ num ∧ num < 9223372036854775808)
  | .doubleRecord num => num.isBinary64
  | .stringRecord str => decide (str.length < 18446744073709551616)
  | .listRecord records => decide (records.length < 18446744073709551616)
  | .keyRecord none len _ => decide (len < 18446744073709551616)
  | .keyRecord (some k) len _ =>
    decide (len < 18446744073709551616) && decide (k.length + 1 < 18446744073709551616)
  | _ => true

/-- Every record of the tree holds values of its C types. -/
def Record.wellTyped (r : Record) : Bool := r.subrecords.all Record.fieldsInRange

/-- One record of the class of the nested round-trip example: an Integer, a
Bytes, a List, or a KeyedValue whose key is set, has no NUL byte and whose
stored length is the key's string length. -/
def Record.isPlainNode : Record → Bool
  | .longRecord _ => true
  | .stringRecord _ => true
  | .listRecord _ => true
  | .keyRecord (some k) len _ => decide ((0 : Byte) ∉ k) && decide (len = strlen k)
  | _ => false

/-- The tree is built only from Integer, Bytes, List and KeyedValue records
with a set, NUL-free key whose stored length is its string length. -/
def Record.plain (r : Record) : Bool := r.subrecords.all Record.isPlainNode

/-- One record that the codec can carry unchanged: not an ExternalHandle and
not a StringMap; a Float only when it is integer-valued and within the range
of `long`; a KeyedValue only when its key is set, has no NUL byte and its
stored length is the key's string length; a ForeignObject only when Python
is compiled in and the hooks write the object without fault and read it back
from what they wrote. -/
def Record.isTransmissibleNode (E : Env) : Record → Prop
  | .keyHandlerRecord _ => False
  | .hashSetRecord _ => False
  | .longRecord _ => True
  | .stringRecord _ => True
  | .listRecord _ => True
  | .doubleRecord num => num.isIntegral = true ∧ ∃ n, doubleToLong num = .ok n
  | .keyRecord key len _ => ∃ k, key = some k ∧ (0 : Byte) ∉ k ∧ len = strlen k
  | .pyRecord obj =>
    E.withPython = true ∧ (E.pySerialize obj).2 = none ∧
      ∀ rest, E.pyDeserialize ((E.pySerialize obj).1 ++ rest)
        = .ok (obj, (E.pySerialize obj).1.length)

/-- Every record of the tree is one the codec can carry unchanged. -/
def Record.Transmissible (E : Env) (r : Record) : Prop :=
  ∀ x ∈ r.subrecords, Record.isTransmissibleNode E x

/-- The bytes `RS_SerializeRecord` writes for a record into an empty writer. -/
def encode (E : Env) (r : Record) : List Byte := (RS_SerializeRecord E [] r).1

/-- The value of the nested round-trip example: the KeyedValue "k" holding
the list of Integer 1, Bytes "hi" and the KeyedValue "inner" without value. -/
def nestedExample : Record :=
  .keyRecord (some [107]) 1 (some (.listRecord [.longRecord 1, .stringRecord [104, 105],
    .keyRecord (some [105, 110, 110, 101, 114]) 5 none]))

/-- A value with a Float, a ForeignObject, a KeyedValue and a Bytes holding a
zero byte. -/
def mixedExample : Record :=
  .listRecord [.doubleRecord (.finite 5 0), .pyRecord (some 7),
    .keyRecord (some [107]) 1 (some (.longRecord (-3))), .stringRecord [0, 255]]

/-- The calls `RS_ListRecordAdd(r, e)` for the elements of a sequence, in
order: the list after the last call. -/
def listAddAll (r : Record) : List Record → Except Fault Record
  | [] => .ok r
  | e :: es =>
    match RS_ListRecordAdd r e with
    | .error f => .error f
    | .ok r1 => listAddAll r1 es

/-- The call `RS_ListRecordPop(r)` made `n` times: the values returned, in the
order of the calls, and the list after the last call. -/
def listPopN : Nat → Record → Except Fault (List Record × Record)
  | 0, r => .ok ([], r)
  | n + 1, r =>
    match RS_ListRecordPop r with
    | .error f => .error f
    | .ok (x, r1) =>
      match listPopN n r1 with
      | .error f => .error f
      | .ok (xs, r2) => .ok (x :: xs, r2)

/-- The type has a case of its own in the switch of `RS_DeserializeRecord`
that builds a record: Bytes, Integer, Float, List, KeyedValue, and
ForeignObject when Python is compiled in. -/
def isDecodableType (E : Env) (t : Int) : Bool :=
  decide (t = E.tag .STRING_RECORD) || decide (t = E.tag .LONG_RECORD)
    || decide (t = E.tag .DOUBLE_RECORD) || decide (t = E.tag .LIST_RECORD)
    || decide (t = E.tag .KEY_RECORD) || (E.withPython && decide (t = E.tag .PY_RECORD))

/-- From the first reader, `RS_DeserializeRecord` returns a record `k` times
in a row and leaves the second reader. -/
inductive ReadsRecords (E : Env) : Nat → BufferReader → BufferReader → Prop where
  | done (br : BufferReader) : ReadsRecords E 0 br br
  | next {k : Nat} {br br1 br2 : BufferReader} {r : Record} :
    RS_DeserializeRecord E br = .ok (r, br1) → ReadsRecords E k br1 br2 →
      ReadsRecords E (k + 1) br br2

/-- The stream has a type that is not decodable at the position where a record
starts: at its head, or where a child of a list starts (after children that
are read successfully, and before the announced count is reached), or where
the value of a keyed record starts, at any depth.  The type is what the
`long` of the stream becomes in the `enum RecordType` variable. -/
inductive HasBadType (E : Env) : BufferReader → Prop where
  | here {br br1 : BufferReader} {t : Int} :
    RediStar_BRReadLong br = .ok (t, br1) → isDecodableType E (toEnum t) = false → HasBadType E br
  | inList {br br1 br2 br3 : BufferReader} {t n : Int} {k : Nat} :
    RediStar_BRReadLong br = .ok (t, br1) → toEnum t = E.tag .LIST_RECORD →
      RediStar_BRReadLong br1 = .ok (n, br2) → ReadsRecords E k br2 br3 → k < toSizeT n →
      HasBadType E br3 → HasBadType E br
  | inKey {br br1 br2 br3 : BufferReader} {t flag : Int} {span key : List Byte} :
    RediStar_BRReadLong br = .ok (t, br1) → toEnum t = E.tag .KEY_RECORD →
      RediStar_BRReadString br1 = .ok (span, br2) → RS_STRDUP span = .ok key →
      RediStar_BRReadLong br2 = .ok (flag, br3) → toBool flag = true →
      HasBadType E br3 → HasBadType E br

/-- A stream for a List of two children: the Integer 7, then a KeyedValue "k"
whose value starts with the type of a StringMap. -/
def badTypeExample : BufferReader :=
  longBytes 5 ++ (longBytes 2 ++ ((longBytes 2 ++ longBytes 7)
    ++ (longBytes 6 ++ (longBytes 2 ++ ([107, 0] ++ (longBytes 1 ++ longBytes 7))))))

/-- The map states reached from `RS_HashSetRecordCreate` by calls of
`RS_HashSetRecordSet` that pass a value (not NULL) and return. -/
inductive ReachableBySet (E : Env) : Record → Prop where
  | create : ReachableBySet E RS_HashSetRecordCreate
  | set {m m1 : Record} {key : List Byte} {val : Record} {ok : Bool} {evs : List Event} :
    ReachableBySet E m → RS_HashSetRecordSet E m key (some val) = .ok (m1, ok, evs) →
      ReachableBySet E m1

/-- The stored key length of a KeyedValue is the string length of its stored
key (and the key is set); every other record passes. -/
def Record.keyLengthDerived : Record → Bool
  | .keyRecord (some k) len _ => decide (len = strlen k)
  | .keyRecord none _ _ => false
  | _ => true

/-- The call `RS_DeserializeRecord(br)` made `n` times on the same reader: the
records returned, in order, and the reader left. -/
def deserializeMany (E : Env) : Nat → BufferReader → Except Fault (List Record × BufferReader)
  | 0, br => .ok ([], br)
  | n + 1, br =>
    match RS_DeserializeRecord E br with
    | .error f => .error f
    | .ok (r, br1) =>
      match deserializeMany E n br1 with
      | .error f => .error f
      | .ok (rs, br2) => .ok (r :: rs, br2)

/-- The loop of `RS_DeserializeRecord` over the children of a list, with the
releases and reference-count operations performed on the way (those of the
recursive calls; the loop has none of its own). -/
def deserializeChildrenTraced
    (self : BufferReader → List Event × Except Fault (Record × BufferReader)) :
    Nat → Record → BufferReader → List Event × Except Fault (Record × BufferReader)
  | 0, r, br => ([], .ok (r, br))
  | size + 1, r, br =>
    match self br with
    | (evs, .error f) => (evs, .error f)
    | (evs, .ok (element, br1)) =>
      match RS_ListRecordAdd r element with
      | .error f => (evs, .error f)
      | .ok r1 =>
        match deserializeChildrenTraced self size r1 br1 with
        | (evs1, res) => (evs ++ evs1, res)

/-- The body of `RS_DeserializeRecord` once more, this time with the trace of
the releases and reference-count operations it performs up to its return or
its fault: those of `RS_KeyRecordSetVal` and of the recursive calls.  The body
calls neither `RS_FreeRecord` nor `Py_INCREF`: in the `PY_RECORD` case the
object returned by the hook is assigned to the field as it is. -/
def deserializeBodyTraced (E : Env)
    (self : BufferReader → List Event × Except Fault (Record × BufferReader))
    (br : BufferReader) : List Event × Except Fault (Record × BufferReader) :=
  match RediStar_BRReadLong br with
  | .error f => ([], .error f)
  | .ok (t, br1) =>
    if toEnum t = E.tag .STRING_RECORD then
      match RediStar_BRReadBuffer br1 with
      | .error f => ([], .error f)
      | .ok (temp, br2) => ([], .ok (RS_StringRecordCreate temp, br2))
    else if toEnum t = E.tag .LONG_RECORD then
      match RediStar_BRReadLong br1 with
      | .error f => ([], .error f)
      | .ok (n, br2) => ([], .ok (RS_LongRecordCreate n, br2))
    else if toEnum t = E.tag .DOUBLE_RECORD then
      match RediStar_BRReadLong br1 with
      | .error f => ([], .error f)
      | .ok (n, br2) => ([], .ok (RS_DoubleRecordCreate (longToDouble n), br2))
    else if toEnum t = E.tag .LIST_RECORD then
      match RediStar_BRReadLong br1 with
      | .error f => ([], .error f)
      | .ok (n, br2) =>
        deserializeChildrenTraced self (toSizeT n) (RS_ListRecordCreate (toSizeT n)) br2
    else if toEnum t = E.tag .KEY_RECORD then
      match RediStar_BRReadString br1 with
      | .error f => ([], .error f)
      | .ok (span, br2) =>
        match RS_STRDUP span with
        | .error f => ([], .error f)
        | .ok key =>
          match RS_KeyRecordSetKey RS_KeyRecordCreate (some key) (strlen key) with
          | .error f => ([], .error f)
          | .ok r =>
            match RediStar_BRReadLong br2 with
            | .error f => ([], .error f)
            | .ok (isValExists, br3) =>
              if toBool isValExists then
                match self br3 with
                | (evs, .error f) => (evs, .error f)
                | (evs, .ok (val, br4)) =>
                  match RS_KeyRecordSetVal r (some val) with
                  | .error f => (evs, .error f)
                  | .ok (r1, evs1) => (evs ++ evs1, .ok (r1, br4))
              else
                match RS_KeyRecordSetVal r none with
                | .error f => ([], .error f)
                | .ok (r1, evs1) => (evs1, .ok (r1, br3))
    else if toEnum t = E.tag .KEY_HANDLER_RECORD then ([], .error .assertFailed)
    else if E.withPython = true ∧ toEnum t = E.tag .PY_RECORD then
      match E.pyDeserialize br1 with
      | .error f => ([], .error f)
      | .ok (obj, used) => ([], .ok (.pyRecord obj, br1.drop used))
    else ([], .error .assertFailed)

/-- The recursion of the traced body, unrolled `depth` times. -/
def deserializeDepthTraced (E : Env) :
    Nat → BufferReader → List Event × Except Fault (Record × BufferReader)
  | 0 => fun _ => ([], .error .undefinedBehaviour)
  | depth + 1 => deserializeBodyTraced E (deserializeDepthTraced E depth)

/-- The function `RS_DeserializeRecord` with the trace of the releases and
reference-count operations it performs. -/
def RS_DeserializeRecordTraced (E : Env) (br : BufferReader) :
    List Event × Except Fault (Record × BufferReader) :=
  deserializeDepthTraced E (br.length + 1) br

/-- The change that one operation makes to the reference count of an object. -/
def Event.countChange : Event → PyObject → Int
  | .pyIncref p, obj => if p = obj then 1 else 0
  | .pyDecref p, obj => if p = obj then -1 else 0
  | _, _ => 0

/-- The reference counts after a trace of operations, from the counts before
it. -/
def countsAfter (counts : PyObject → Int) (evs : List Event) : PyObject → Int :=
  fun obj => counts obj + (evs.map (fun e => e.countChange obj)).sum

mutual
/-- The records of a tree in the order of teardown that the spec describes:
every record after all the records inside it, the children of a list in
index order, the values of a map in iteration order. -/
def Record.postorder : Record → List Record
  | .listRecord records => postorderOfList records ++ [.listRecord records]
  | .keyRecord key len none => [.keyRecord key len none]
  | .keyRecord key len (some record) =>
    Record.postorder record ++ [.keyRecord key len (some record)]
  | .hashSetRecord d => postorderOfDict d ++ [.hashSetRecord d]
  | .keyHandlerRecord keyHandler => [.keyHandlerRecord keyHandler]
  | .longRecord num => [.longRecord num]
  | .doubleRecord num => [.doubleRecord num]
  | .stringRecord str => [.stringRecord str]
  | .pyRecord obj => [.pyRecord obj]
/-- The teardown order of the trees of a list, one tree after the other. -/
def postorderOfList : List Record → List Record
  | [] => []
  | r :: rs => Record.postorder r ++ postorderOfList rs
/-- The teardown order of the values of a dictionary, one after the other. -/
def postorderOfDict : List (List Byte × Option Record) → List Record
  | [] => []
  | (_, none) :: es => postorderOfDict es
  | (_, some r) :: es => Record.postorder r ++ postorderOfDict es
end

/-- The operation releases a record's own storage, closes a key handle or
drops a reference to a foreign object (and not a buffer, an array or a
dictionary). -/
def Event.isNodeRelease : Event → Bool
  | .closeKey _ => true
  | .pyDecref _ => true
  | .freeRecord _ => true
  | _ => false

/-- What the teardown of one record owes, apart from its buffers: one
close of the handle for an ExternalHandle, one release of the object for a
ForeignObject, then the release of the record's own storage. -/
def Record.nodeReleases : Record → List Event
  | .keyHandlerRecord keyHandler =>
    [.closeKey keyHandler, .freeRecord (.keyHandlerRecord keyHandler)]
  | .pyRecord (some obj) => [.pyDecref obj, .freeRecord (.pyRecord (some obj))]
  | r => [.freeRecord r]

/-- One record that `RS_FreeRecord` can tear down: a ForeignObject only when
Python is compiled in and the record holds an object, a StringMap only when
none of its entries holds NULL. -/
def Record.isReleasableNode (E : Env) : Record → Bool
  | .pyRecord obj => E.withPython && obj.isSome
  | .hashSetRecord d => d.all (fun e => e.2.isSome)
  | _ => true

/-- Every record of the tree is one that `RS_FreeRecord` can tear down. -/
def Record.releasable (E : Env) (r : Record) : Bool :=
  r.subrecords.all (Record.isReleasableNode E)

/-- A ForeignObject occurs in the tree, at any depth. -/
def Record.hasForeignObject (r : Record) : Bool :=
  r.subrecords.any (Record.isOfType .PY_RECORD)

/-- The malformed streams of the two kinds: the type of a list and a count,
followed by the encodings of fewer children than the count announces (a
negative count is, as a `size_t`, larger than any number of children); and a
stream cut short, that is a strict part, from its start, of the bytes that
`RS_DeserializeRecord` consumes when it returns a value without
ForeignObject. -/
inductive Malformed (E : Env) : BufferReader → Prop where
  | count (cnt : Int) (cs : List Record) :
    (∀ c ∈ cs, c.wellTyped = true ∧ Record.Transmissible E c) → cs.length < toSizeT cnt →
      Malformed E (longBytes (E.tag .LIST_RECORD)
        ++ (longBytes cnt ++ (cs.map (encode E)).flatten))
  | truncated (s : BufferReader) (v : Record) (r : BufferReader) (n : Nat) :
    RS_DeserializeRecord E s = .ok (v, r) → v.hasForeignObject = false →
      n < s.length - r.length → Malformed E (s.take n)

/-- A stream for a list that announces two children and holds one, the
Integer 7. -/
def shortListExample : BufferReader :=
  longBytes 5 ++ (longBytes 2 ++ (longBytes 2 ++ longBytes 7))

/-- The stored length that the decoder derives for a key: the string length
of the key when the key is set. -/
def Record.derivedLength : Option (List Byte) → Nat → Nat
  | some k, _ => strlen k
  | none, len => len

mutual
/-- The value with the keys as the spec words them for the decoder: in every
KeyedValue of the tree (inside lists and keyed records) the key is cut at its
first NUL byte and the stored length is the number of bytes before it; nothing
else changes. -/
def Record.withDerivedKeys : Record → Record
  | .listRecord records => .listRecord (withDerivedKeysOfList records)
  | .keyRecord key len none =>
    .keyRecord (key.map cString) (Record.derivedLength key len) none
  | .keyRecord key len (some record) =>
    .keyRecord (key.map cString) (Record.derivedLength key len)
      (some (Record.withDerivedKeys record))
  | .hashSetRecord d => .hashSetRecord d
  | .keyHandlerRecord keyHandler => .keyHandlerRecord keyHandler
  | .longRecord num => .longRecord num
  | .doubleRecord num => .doubleRecord num
  | .stringRecord str => .stringRecord str
  | .pyRecord obj => .pyRecord obj
/-- The values of a list with their keys derived. -/
def withDerivedKeysOfList : List Record → List Record
  | [] => []
  | r :: rs => Record.withDerivedKeys r :: withDerivedKeysOfList rs
end

/-- One record that the codec carries up to its key: a KeyedValue whose key is
set and fits a buffer with its terminating NUL, with any bytes in the key and
any stored length; every other record as for `Record.isTransmissibleNode`,
with fields in the range of their C types. -/
def Record.isEncodableNode (E : Env) : Record → Prop
  | .keyRecord key _ _ => ∃ k, key = some k ∧ k.length + 1 < 18446744073709551616
  | x => x.fieldsInRange = true ∧ Record.isTransmissibleNode E x

/-- Every record of the tree is one the codec carries up to its key. -/
def Record.Encodable (E : Env) (r : Record) : Prop :=
  ∀ x ∈ r.subrecords, Record.isEncodableNode E x

/-- A KeyedValue whose key holds a NUL byte, with a stored length that counts
the whole key, holding a list with another such KeyedValue. -/
def nulKeyExample : Record :=
  .keyRecord (some [97, 0, 98]) 3
    (some (.listRecord [.longRecord 7, .keyRecord (some [0, 99]) 2 none]))

/-- What `RS_DeserializeRecord` meets in the byte-buffer reader and in the
array allocator where neither the sources nor the spec say what they do: the
outcome of `RediStar_BRReadLong` when fewer than eight bytes are left
(`shortLong`), the outcome of `RediStar_BRReadBuffer` when the announced
length exceeds the bytes left (`shortSpan`), each either a fault that ends the
call or a value and a reader, returned like any other; and whether `array_new`
for an announced capacity ends the call (`arrayNew`, the fault of a failed
allocation). -/
structure Primitives where
  shortLong : BufferReader → Except Fault (Int × BufferReader)
  shortSpan : Nat → BufferReader → Except Fault (List Byte × BufferReader)
  arrayNew : Nat → Option Fault

/-- The function `RediStar_BRReadLong` with the given outcome of a short read;
with eight bytes left it is the read of the spec. -/
def Primitives.readLong (P : Primitives) (br : BufferReader) : Except Fault (Int × BufferReader) :=
  if 8 ≤ br.length then .ok (bytesToLong (br.take 8), br.drop 8)
  else P.shortLong br

/-- The function `RediStar_BRReadBuffer` with the given outcomes of short
reads; with the length and the span in the buffer it is the read of the
spec. -/
def Primitives.readBuffer (P : Primitives) (br : BufferReader) :
    Except Fault (List Byte × BufferReader) :=
  match P.readLong br with
  | .error f => .error f
  | .ok (n, br1) =>
    if toSizeT n ≤ br1.length then .ok (br1.take (toSizeT n), br1.drop (toSizeT n))
    else P.shortSpan (toSizeT n) br1

/-- The function `RediStar_BRReadString` with the given outcomes of short
reads. -/
def Primitives.readString (P : Primitives) (br : BufferReader) :
    Except Fault (List Byte × BufferReader) :=
  P.readBuffer br

/-- The choices made for the reader and the allocator elsewhere in this
development: a short read is undefined behaviour, and `array_new` succeeds for
every capacity. -/
def specPrimitives : Primitives where
  shortLong := fun _ => .error .undefinedBehaviour
  shortSpan := fun _ _ => .error .undefinedBehaviour
  arrayNew := fun _ => none

/-- A reader that ends the call with the fault `f` on every short read, with
any behaviour of the allocator. -/
def Primitives.faulting (f : Fault) (arrayNew : Nat → Option Fault) : Primitives where
  shortLong := fun _ => .error f
  shortSpan := fun _ _ => .error f
  arrayNew := arrayNew

/-- A reader that reports nothing on a short read: it returns zero (the empty
span) and stays at the end of the buffer; `array_new` succeeds. -/
def zeroFillPrimitives : Primitives where
  shortLong := fun _ => .ok (0, [])
  shortSpan := fun _ _ => .ok ([], [])
  arrayNew := fun _ => none

/-- The body of `RS_DeserializeRecord`, with `self` for its recursive calls
and with the trace of the releases and reference-count operations it performs,
for any behaviour of the reader on short reads and of `array_new`.  The result
of no read is tested and no allocation is checked: a value that a read
returns is used as it is, and a fault ends the call where it arises. -/
def deserializeBodyWith (P : Primitives) (E : Env)
    (self : BufferReader → List Event × Except Fault (Record × BufferReader))
    (br : BufferReader) : List Event × Except Fault (Record × BufferReader) :=
  match P.readLong br with
  | .error f => ([], .error f)
  | .ok (t, br1) =>
    if toEnum t = E.tag .STRING_RECORD then
      match P.readBuffer br1 with
      | .error f => ([], .error f)
      | .ok (temp, br2) => ([], .ok (RS_StringRecordCreate temp, br2))
    else if toEnum t = E.tag .LONG_RECORD then
      match P.readLong br1 with
      | .error f => ([], .error f)
      | .ok (n, br2) => ([], .ok (RS_LongRecordCreate n, br2))
    else if toEnum t = E.tag .DOUBLE_RECORD then
      match P.readLong br1 with
      | .error f => ([], .error f)
      | .ok (n, br2) => ([], .ok (RS_DoubleRecordCreate (longToDouble n), br2))
    else if toEnum t = E.tag .LIST_RECORD then
      match P.readLong br1 with
      | .error f => ([], .error f)
      | .ok (n, br2) =>
        match P.arrayNew (toSizeT n) with
        | some f => ([], .error f)
        | none =>
          deserializeChildrenTraced self (toSizeT n) (RS_ListRecordCreate (toSizeT n)) br2
    else if toEnum t = E.tag .KEY_RECORD then
      match P.readString br1 with
      | .error f => ([], .error f)
      | .ok (span, br2) =>
        match RS_STRDUP span with
        | .error f => ([], .error f)
        | .ok key =>
          match RS_KeyRecordSetKey RS_KeyRecordCreate (some key) (strlen key) with
          | .error f => ([], .error f)
          | .ok r =>
            match P.readLong br2 with
            | .error f => ([], .error f)
            | .ok (isValExists, br3) =>
              if toBool isValExists then
                match self br3 with
                | (evs, .error f) => (evs, .error f)
                | (evs, .ok (val, br4)) =>
                  match RS_KeyRecordSetVal r (some val) with
                  | .error f => (evs, .error f)
                  | .ok (r1, evs1) => (evs ++ evs1, .ok (r1, br4))
              else
                match RS_KeyRecordSetVal r none with
                | .error f => ([], .error f)
                | .ok (r1, evs1) => (evs1, .ok (r1, br3))
    else if toEnum t = E.tag .KEY_HANDLER_RECORD then ([], .error .assertFailed)
    else if E.withPython = true ∧ toEnum t = E.tag .PY_RECORD then
      match E.pyDeserialize br1 with
      | .error f => ([], .error f)
      | .ok (obj, used) => ([], .ok (.pyRecord obj, br1.drop used))
    else ([], .error .assertFailed)

/-- The recursion of `deserializeBodyWith`, with calls nested at most `depth`
deep (a reader that returns from a short read without consuming anything
allows a recursion without end; the bound is where the stack gives out). -/
def deserializeDepthWith (P : Primitives) (E : Env) :
    Nat → BufferReader → List Event × Except Fault (Record × BufferReader)
  | 0 => fun _ => ([], .error .undefinedBehaviour)
  | depth + 1 => deserializeBodyWith P E (deserializeDepthWith P E depth)

/-- A stream for a list that announces one child, the type of an Integer and
nothing behind it: the encoding of a list holding one Integer, cut before the
payload. -/
def cutIntegerExample : BufferReader :=
  longBytes 5 ++ (longBytes 1 ++ longBytes 2)

/-! # Properties -/

/-! ## Induction over record trees -/

mutual
theorem Record.induct {P : Record → Prop}
    (hHandler : ∀ h, P (.keyHandlerRecord h))
    (hLong : ∀ n, P (.longRecord n))
    (hDouble : ∀ x, P (.doubleRecord x))
    (hString : ∀ s, P (.stringRecord s))
    (hList : ∀ rs, (∀ r ∈ rs, P r) → P (.listRecord rs))
    (hKeyNone : ∀ key len, P (.keyRecord key len none))
    (hKeySome : ∀ key len r, P r → P (.keyRecord key len (some r)))
    (hHash : ∀ d : dict, (∀ e ∈ d, ∀ r, e.2 = some r → P r) → P (.hashSetRecord d))
    (hPy : ∀ o, P (.pyRecord o)) : ∀ r, P r
  | .keyHandlerRecord h => hHandler h
  | .longRecord n => hLong n
  | .doubleRecord x => hDouble x
  | .stringRecord s => hString s
  | .listRecord rs =>
    hList rs (Record.induct_list hHandler hLong hDouble hString hList hKeyNone hKeySome hHash hPy rs)
  | .keyRecord key len none => hKeyNone key len
  | .keyRecord key len (some r) =>
    hKeySome key len r
      (Record.induct hHandler hLong hDouble hString hList hKeyNone hKeySome hHash hPy r)
  | .hashSetRecord d =>
    hHash d (Record.induct_dict hHandler hLong hDouble hString hList hKeyNone hKeySome hHash hPy d)
  | .pyRecord o => hPy o
theorem Record.induct_list {P : Record → Prop}
    (hHandler : ∀ h, P (.keyHandlerRecord h))
    (hLong : ∀ n, P (.longRecord n))
    (hDouble : ∀ x, P (.doubleRecord x))
    (hString : ∀ s, P (.stringRecord s))
    (hList : ∀ rs, (∀ r ∈ rs, P r) → P (.listRecord rs))
    (hKeyNone : ∀ key len, P (.keyRecord key len none))
    (hKeySome : ∀ key len r, P r → P (.keyRecord key len (some r)))
    (hHash : ∀ d : dict, (∀ e ∈ d, ∀ r, e.2 = some r → P r) → P (.hashSetRecord d))
    (hPy : ∀ o, P (.pyRecord o)) : ∀ rs : List Record, ∀ r ∈ rs, P r
  | [] => fun _ h => by cases h
  | x :: xs => fun r h => by
    rcases List.mem_cons.mp h with h1 | h1
    · rw [h1]
      exact Record.induct hHandler hLong hDouble hString hList hKeyNone hKeySome hHash hPy x
    · exact Record.induct_list hHandler hLong hDouble hString hList hKeyNone hKeySome hHash hPy
        xs r h1
theorem Record.induct_dict {P : Record → Prop}
    (hHandler : ∀ h, P (.keyHandlerRecord h))
    (hLong : ∀ n, P (.longRecord n))
    (hDouble : ∀ x, P (.doubleRecord x))
    (hString : ∀ s, P (.stringRecord s))
    (hList : ∀ rs, (∀ r ∈ rs, P r) → P (.listRecord rs))
    (hKeyNone : ∀ key len, P (.keyRecord key len none))
    (hKeySome : ∀ key len r, P r → P (.keyRecord key len (some r)))
    (hHash : ∀ d : dict, (∀ e ∈ d, ∀ r, e.2 = some r → P r) → P (.hashSetRecord d))
    (hPy : ∀ o, P (.pyRecord o)) :
    ∀ d : List (List Byte × Option Record), ∀ e ∈ d, ∀ r, e.2 = some r → P r
  | [] => fun _ h => by cases h
  | (_, none) :: es => fun e h r hr => by
    rcases List.mem_cons.mp h with h1 | h1
    · rw [h1] at hr
      cases hr
    · exact Record.induct_dict hHandler hLong hDouble hString hList hKeyNone hKeySome hHash hPy
        es e h1 r hr
  | (_, some x) :: es => fun e h r hr => by
    rcases List.mem_cons.mp h with h1 | h1
    · rw [h1] at hr
      cases hr
      exact Record.induct hHandler hLong hDouble hString hList hKeyNone hKeySome hHash hPy x
    · exact Record.induct_dict hHandler hLong hDouble hString hList hKeyNone hKeySome hHash hPy
        es e h1 r hr
end

/-! ## The integer encoding -/

theorem natToBytes_length (k u : Nat) : (natToBytes k u).length = k := by
  induction k generalizing u with
  | zero => rfl
  | succ k ih => simp [natToBytes, ih]

theorem bytesToNat_natToBytes (k u : Nat) : bytesToNat (natToBytes k u) = u % 256 ^ k := by
  induction k generalizing u with
  | zero => simp [natToBytes, bytesToNat, Nat.mod_one]
  | succ k ih =>
    simp only [natToBytes, bytesToNat, ih]
    have h1 : (Fin.ofNat (u % 256) : Fin 256).val = u % 256 := by
      simp [Fin.ofNat]
    rw [h1, pow_succ, Nat.mul_comm (256 ^ k) 256, Nat.mod_mul]

theorem longBytes_length (v : Int) : (longBytes v).length = 8 := natToBytes_length 8 _

theorem toSizeT_lt (v : Int) : toSizeT v < 18446744073709551616 := by
  unfold toSizeT
  omega

theorem bytesToLong_longBytes (v : Int) : bytesToLong (longBytes v) = toLong v := by
  unfold bytesToLong longBytes
  rw [bytesToNat_natToBytes]
  have h := toSizeT_lt v
  have h2 : (256 : Nat) ^ 8 = 18446744073709551616 := by norm_num
  rw [h2, Nat.mod_eq_of_lt h]
  unfold toLong toSizeT
  omega

theorem toLong_of_range (v : Int) (h1 : -9223372036854775808 ≤ v)
    (h2 : v < 9223372036854775808) : toLong v = v := by
  unfold toLong
  omega

theorem toSizeT_toLong_natCast (n : Nat) (h : n < 18446744073709551616) :
    toSizeT (toLong (n : Int)) = n := by
  unfold toLong toSizeT
  omega

theorem toEnum_toLong_tag (E : Env) (t : RecordType) : toEnum (toLong (E.tag t)) = E.tag t := by
  have h := E.tag_range t
  unfold toEnum toLong
  omega

theorem RediStar_BRReadLong_append (v : Int) (rest : List Byte) :
    RediStar_BRReadLong (longBytes v ++ rest) = .ok (toLong v, rest) := by
  unfold RediStar_BRReadLong
  have hl := longBytes_length v
  have h1 : 8 ≤ (longBytes v ++ rest).length := by simp [hl]
  rw [if_pos h1]
  have h2 : (longBytes v ++ rest).take 8 = longBytes v := by
    rw [List.take_append_of_le_length (by omega)]
    exact List.take_of_length_le (by omega)
  have h3 : (longBytes v ++ rest).drop 8 = rest := by
    rw [← hl]
    exact List.drop_left _ _
  rw [h2, h3, bytesToLong_longBytes]

theorem RediStar_BRReadBuffer_append (buff rest : List Byte) (h : buff.length < 18446744073709551616) :
    RediStar_BRReadBuffer (longBytes (buff.length : Int) ++ (buff ++ rest)) = .ok (buff, rest) := by
  unfold RediStar_BRReadBuffer
  rw [RediStar_BRReadLong_append]
  simp only [toSizeT_toLong_natCast _ h]
  have h1 : buff.length ≤ (buff ++ rest).length := by simp
  rw [if_pos h1]
  simp

/-! ## The serializer appends -/

theorem RediStar_BWWriteLong_eq (bw : BufferWriter) (v : Int) : RediStar_BWWriteLong bw v = bw ++ longBytes v := rfl

theorem RediStar_BWWriteBuffer_eq (bw : BufferWriter) (buff : List Byte) :
    RediStar_BWWriteBuffer bw buff = bw ++ (longBytes (buff.length : Int) ++ buff) := by
  simp [RediStar_BWWriteBuffer, RediStar_BWWriteLong]

theorem serializeRecords_append (E : Env) (rs : List Record)
    (ih : ∀ r ∈ rs, ∀ bw, RS_SerializeRecord E bw r
      = (bw ++ (RS_SerializeRecord E [] r).1, (RS_SerializeRecord E [] r).2)) :
    ∀ bw, serializeRecords E bw rs
      = (bw ++ (serializeRecords E [] rs).1, (serializeRecords E [] rs).2) := by
  induction rs with
  | nil => intro bw; simp [serializeRecords]
  | cons r rs ihs =>
    intro bw
    have hr := ih r (List.mem_cons_self _ _)
    have hrs := ihs (fun x hx => ih x (List.mem_cons_of_mem _ hx))
    rw [serializeRecords, hr bw]
    conv_rhs => rw [serializeRecords]
    generalize RS_SerializeRecord E [] r = p
    obtain ⟨b1, f1⟩ := p
    cases f1 with
    | some f => simp
    | none =>
      simp only []
      rw [hrs (bw ++ b1), hrs b1]
      simp

theorem RS_SerializeRecord_append (E : Env) (r : Record) :
    ∀ bw, RS_SerializeRecord E bw r
      = (bw ++ (RS_SerializeRecord E [] r).1, (RS_SerializeRecord E [] r).2) := by
  induction r using Record.induct with
  | hHandler h => intro bw; simp [RS_SerializeRecord, RediStar_BWWriteLong_eq]
  | hLong n => intro bw; simp [RS_SerializeRecord, RediStar_BWWriteLong_eq]
  | hDouble x =>
    intro bw
    simp only [RS_SerializeRecord, RediStar_BWWriteLong_eq]
    cases doubleToLong x <;> simp
  | hString s => intro bw; simp [RS_SerializeRecord, RediStar_BWWriteLong_eq, RediStar_BWWriteBuffer_eq]
  | hList rs ih =>
    intro bw
    simp only [RS_SerializeRecord, RediStar_BWWriteLong_eq]
    rw [serializeRecords_append E rs ih, serializeRecords_append E rs ih (([] : List Byte) ++ _ ++ _)]
    simp
  | hKeyNone key len =>
    intro bw
    cases key <;> simp [RS_SerializeRecord, RediStar_BWWriteLong_eq, RediStar_BWWriteBuffer_eq, RediStar_BWWriteString]
  | hKeySome key len r ih =>
    intro bw
    cases key with
    | none => simp [RS_SerializeRecord, RediStar_BWWriteLong_eq, RediStar_BWWriteString]
    | some k =>
      simp only [RS_SerializeRecord, RediStar_BWWriteLong_eq, RediStar_BWWriteBuffer_eq, RediStar_BWWriteString]
      rw [ih, ih (([] : List Byte) ++ _ ++ _ ++ _)]
      simp
  | hHash d _ => intro bw; simp [RS_SerializeRecord, RediStar_BWWriteLong_eq]
  | hPy o =>
    intro bw
    simp only [RS_SerializeRecord, RediStar_BWWriteLong_eq]
    split <;> simp

/-! ## Membership in a tree -/

theorem Record.self_mem_subrecords (r : Record) : r ∈ r.subrecords := by
  induction r using Record.induct <;> simp [Record.subrecords]

theorem mem_subrecordsOfList {rs : List Record} {r x : Record} (hr : r ∈ rs)
    (hx : x ∈ r.subrecords) : x ∈ subrecordsOfList rs := by
  induction rs with
  | nil => cases hr
  | cons y ys ih =>
    rw [subrecordsOfList]
    rcases List.mem_cons.mp hr with h | h
    · subst h
      exact List.mem_append_left _ hx
    · exact List.mem_append_right _ (ih h)

theorem Record.mem_subrecords_list {rs : List Record} {r x : Record} (hr : r ∈ rs)
    (hx : x ∈ r.subrecords) : x ∈ (Record.listRecord rs).subrecords := by
  rw [Record.subrecords]
  exact List.mem_cons_of_mem _ (mem_subrecordsOfList hr hx)

theorem Record.mem_subrecords_key {key : Option (List Byte)} {len : Nat} {r x : Record}
    (hx : x ∈ r.subrecords) : x ∈ (Record.keyRecord key len (some r)).subrecords := by
  rw [Record.subrecords]
  exact List.mem_cons_of_mem _ hx

theorem Record.wellTyped_iff (r : Record) :
    r.wellTyped = true ↔ ∀ x ∈ r.subrecords, x.fieldsInRange = true := by
  simp [Record.wellTyped, List.all_eq_true]

theorem Record.plain_iff (r : Record) :
    r.plain = true ↔ ∀ x ∈ r.subrecords, x.isPlainNode = true := by
  simp [Record.plain, List.all_eq_true]

/-! ## Dispatch on the type read from the stream -/

theorem Env.tag_eq_iff (E : Env) (a b : RecordType) : E.tag a = E.tag b ↔ a = b :=
  ⟨E.tag_injective a b, fun h => by rw [h]⟩

theorem deserializeBody_string (E : Env) (self) (rest : List Byte) :
    deserializeBody E self (longBytes (E.tag .STRING_RECORD) ++ rest)
      = match RediStar_BRReadBuffer rest with
        | .error f => .error f
        | .ok (temp, br2) => .ok (RS_StringRecordCreate temp, br2) := by
  simp [deserializeBody, RediStar_BRReadLong_append, toEnum_toLong_tag]

theorem deserializeBody_long (E : Env) (self) (rest : List Byte) :
    deserializeBody E self (longBytes (E.tag .LONG_RECORD) ++ rest)
      = match RediStar_BRReadLong rest with
        | .error f => .error f
        | .ok (n, br2) => .ok (RS_LongRecordCreate n, br2) := by
  simp [deserializeBody, RediStar_BRReadLong_append, toEnum_toLong_tag, Env.tag_eq_iff]

theorem deserializeBody_double (E : Env) (self) (rest : List Byte) :
    deserializeBody E self (longBytes (E.tag .DOUBLE_RECORD) ++ rest)
      = match RediStar_BRReadLong rest with
        | .error f => .error f
        | .ok (n, br2) => .ok (RS_DoubleRecordCreate (longToDouble n), br2) := by
  simp [deserializeBody, RediStar_BRReadLong_append, toEnum_toLong_tag, Env.tag_eq_iff]

theorem deserializeBody_list (E : Env) (self) (rest : List Byte) :
    deserializeBody E self (longBytes (E.tag .LIST_RECORD) ++ rest)
      = match RediStar_BRReadLong rest with
        | .error f => .error f
        | .ok (n, br2) =>
          deserializeChildren self (toSizeT n) (RS_ListRecordCreate (toSizeT n)) br2 := by
  simp [deserializeBody, RediStar_BRReadLong_append, toEnum_toLong_tag, Env.tag_eq_iff]

theorem cString_append_nul (key rest : List Byte) (hk : (0 : Byte) ∉ key) :
    cString (key ++ (0 : Byte) :: rest) = key := by
  unfold cString
  rw [List.takeWhile_append_of_pos]
  · simp
  · intro b hb
    simp only [bne_iff_ne, ne_eq, decide_not, Bool.not_eq_eq_eq_not, Bool.not_true,
      decide_eq_false_iff_not]
    intro h0
    exact hk (h0 ▸ hb)

theorem cString_of_nul_free (key : List Byte) (hk : (0 : Byte) ∉ key) : cString key = key := by
  have h := cString_append_nul key [] hk
  unfold cString at h ⊢
  rw [List.takeWhile_eq_self_iff]
  intro b hb
  simp only [bne_iff_ne, ne_eq, decide_not, Bool.not_eq_eq_eq_not, Bool.not_true,
    decide_eq_false_iff_not]
  intro h0
  exact hk (h0 ▸ hb)

theorem strlen_of_nul_free (key : List Byte) (hk : (0 : Byte) ∉ key) :
    strlen key = key.length := by
  unfold strlen
  rw [cString_of_nul_free key hk]

theorem deserializeBody_key (E : Env) (self) (key rest : List Byte) (hk : (0 : Byte) ∉ key)
    (hlen : key.length + 1 < 18446744073709551616) (flag : Int) :
    deserializeBody E self (longBytes (E.tag .KEY_RECORD)
        ++ (longBytes ((key ++ [0]).length : Int) ++ ((key ++ [0]) ++ (longBytes flag ++ rest))))
      = if toBool (toLong flag) then
          match self rest with
          | .error f => .error f
          | .ok (val, br4) => .ok (.keyRecord (some key) key.length (some val), br4)
        else .ok (.keyRecord (some key) key.length none, rest) := by
  have hb : RediStar_BRReadBuffer (longBytes ((key ++ [0]).length : Int)
      ++ ((key ++ [0]) ++ (longBytes flag ++ rest))) = .ok (key ++ [0], longBytes flag ++ rest) :=
    RediStar_BRReadBuffer_append _ _ (by simpa using hlen)
  have hc : cString (key ++ [0]) = key := cString_append_nul key [] hk
  have hs : strlen key = key.length := strlen_of_nul_free key hk
  have hmem : (0 : Byte) ∈ key ++ [0] := by simp
  unfold deserializeBody
  rw [RediStar_BRReadLong_append]
  simp only [toEnum_toLong_tag, Env.tag_eq_iff, reduceCtorEq, if_false, if_true, RediStar_BRReadString, hb,
    RS_STRDUP, if_pos hmem, hc, hs, RS_KeyRecordSetKey, RS_KeyRecordCreate, RediStar_BRReadLong_append,
    RS_KeyRecordSetVal]

/-! ## The casts between `double` and `long` -/

theorem excessFrom_spec (k a : Nat) (h : a < 2 ^ (53 + k)) :
    a < 2 ^ (53 + excessFrom k a) ∧ (excessFrom k a = 0 ∨ 2 ^ (52 + excessFrom k a) ≤ a) := by
  induction k generalizing a with
  | zero => simpa [excessFrom] using h
  | succ k ih =>
    rw [excessFrom]
    split
    · rename_i h1
      refine ⟨by simpa using h1, Or.inl rfl⟩
    · rename_i h1
      have h2 : a / 2 < 2 ^ (53 + k) := by
        rw [Nat.div_lt_iff_lt_mul (by norm_num)]
        calc a < 2 ^ (53 + (k + 1)) := h
          _ = 2 ^ (53 + k) * 2 := by rw [← Nat.add_assoc, pow_succ]
      obtain ⟨h3, h4⟩ := ih (a / 2) h2
      have e1 : 2 ^ (53 + (excessFrom k (a / 2) + 1)) = 2 ^ (53 + excessFrom k (a / 2)) * 2 := by
        rw [← Nat.add_assoc, pow_succ]
      have e2 : 2 ^ (52 + (excessFrom k (a / 2) + 1)) = 2 ^ (52 + excessFrom k (a / 2)) * 2 := by
        rw [← Nat.add_assoc, pow_succ]
      refine ⟨?_, Or.inr ?_⟩
      · rw [e1]
        omega
      · rw [e2]
        rcases h4 with h4 | h4
        · rw [h4]
          norm_num
          omega
        · omega

theorem excessFrom_le (k a : Nat) : excessFrom k a ≤ k := by
  induction k generalizing a with
  | zero => simp [excessFrom]
  | succ k ih =>
    rw [excessFrom]
    split
    · omega
    · have := ih (a / 2)
      omega

theorem roundMagnitude_exact (a : Nat) (ha : a < 18446744073709551616)
    (hx : ∃ e, e < 1024 ∧ a % 2 ^ e = 0 ∧ a / 2 ^ e < 2 ^ 53) : roundMagnitude a = a := by
  obtain ⟨e, _, he1, he2⟩ := hx
  have hspec := excessFrom_spec 11 a (by norm_num; omega)
  unfold roundMagnitude
  simp only
  by_cases hs : excessBits a = 0
  · rw [if_pos hs]
  · rw [if_neg hs]
    have hs1 : 2 ^ (52 + excessBits a) ≤ a := by
      rcases hspec.2 with h | h
      · exact absurd h hs
      · exact h
    have hle : excessBits a ≤ e := by
      by_contra hcon
      have hcon1 : e + 1 ≤ excessBits a := by omega
      have h1 : a < 2 ^ 53 * 2 ^ e := by
        exact Nat.lt_mul_of_div_lt he2 (Nat.pos_pow_of_pos e (by norm_num))
      have h2 : 2 ^ 53 * 2 ^ e ≤ 2 ^ (52 + excessBits a) := by
        rw [← pow_add]
        exact Nat.pow_le_pow_right (by norm_num) (by omega)
      omega
    have hdvd : 2 ^ excessBits a ∣ a :=
      Nat.dvd_trans (Nat.pow_dvd_pow 2 hle) (Nat.dvd_of_mod_eq_zero he1)
    have hr : a % 2 ^ excessBits a = 0 := Nat.mod_eq_zero_of_dvd hdvd
    have hhalf : 0 < 2 ^ excessBits a / 2 := by
      obtain ⟨s, hs2⟩ := Nat.exists_eq_succ_of_ne_zero hs
      rw [hs2, Nat.succ_eq_add_one, pow_succ, Nat.mul_div_cancel _ (by norm_num)]
      exact Nat.pos_pow_of_pos s (by norm_num)
    rw [hr, if_neg (by omega), if_neg (by omega)]
    exact Nat.div_mul_cancel hdvd

theorem longToDouble_doubleToLong (x : Double) (n : Int) (hi : x.isIntegral = true)
    (hb : x.isBinary64 = true) (hn : doubleToLong x = .ok n) : longToDouble (toLong n) = x := by
  cases x with
  | infinite b => simp [doubleToLong] at hn
  | nan => simp [doubleToLong] at hn
  | finite num scale =>
    have hsc : scale = 0 := by simpa [Double.isIntegral] using hi
    subst hsc
    simp only [doubleToLong, pow_zero, Int.tdiv_one] at hn
    split at hn
    · rename_i hr
      have hnum : num = n := by simpa using hn
      subst hnum
      rw [toLong_of_range num hr.1 hr.2]
      have hb1 : num.natAbs % 2 ^ excessFrom 971 num.natAbs = 0
          ∧ num.natAbs / 2 ^ excessFrom 971 num.natAbs < 2 ^ 53 := by
        simpa [Double.isBinary64] using hb
      have hx : ∃ e, e < 1024 ∧ num.natAbs % 2 ^ e = 0 ∧ num.natAbs / 2 ^ e < 2 ^ 53 :=
        ⟨excessFrom 971 num.natAbs, by have := excessFrom_le 971 num.natAbs; omega, hb1.1, hb1.2⟩
      have hm := roundMagnitude_exact num.natAbs (by omega) hx
      unfold longToDouble
      rw [hm]
      split
      · rename_i hneg
        have h1 : -(num.natAbs : Int) = num := by omega
        rw [h1]
      · rename_i hneg
        have h1 : (num.natAbs : Int) = num := by omega
        rw [h1]
    · simp at hn

/-! ## The bytes written for each variant -/

theorem serializeRecords_eq (E : Env) (rs : List Record) (bw : BufferWriter) :
    serializeRecords E bw rs
      = (bw ++ (serializeRecords E [] rs).1, (serializeRecords E [] rs).2) :=
  serializeRecords_append E rs (fun r _ => RS_SerializeRecord_append E r) bw

theorem serializeRecords_cons (E : Env) (r : Record) (rs : List Record)
    (h : (RS_SerializeRecord E [] r).2 = none) :
    serializeRecords E [] (r :: rs)
      = (encode E r ++ (serializeRecords E [] rs).1, (serializeRecords E [] rs).2) := by
  rw [serializeRecords]
  have h1 : RS_SerializeRecord E [] r = (encode E r, none) := by
    rw [← h]
    rfl
  rw [h1]
  simp only
  rw [serializeRecords_eq]

theorem serialize_list_eq (E : Env) (rs : List Record) :
    RS_SerializeRecord E [] (.listRecord rs)
      = (longBytes (E.tag .LIST_RECORD) ++ (longBytes (rs.length : Int)
          ++ (serializeRecords E [] rs).1), (serializeRecords E [] rs).2) := by
  rw [RS_SerializeRecord, serializeRecords_eq]
  simp [RediStar_BWWriteLong_eq, array_len]

theorem serialize_key_none_eq (E : Env) (k : List Byte) (len : Nat) :
    RS_SerializeRecord E [] (.keyRecord (some k) len none)
      = (longBytes (E.tag .KEY_RECORD) ++ (longBytes ((cString k ++ [0]).length : Int)
          ++ ((cString k ++ [0]) ++ (longBytes 0 ++ []))), none) := by
  simp [RS_SerializeRecord, RediStar_BWWriteLong_eq, RediStar_BWWriteString, RediStar_BWWriteBuffer_eq]

theorem serialize_key_some_eq (E : Env) (k : List Byte) (len : Nat) (r : Record) :
    RS_SerializeRecord E [] (.keyRecord (some k) len (some r))
      = (longBytes (E.tag .KEY_RECORD) ++ (longBytes ((cString k ++ [0]).length : Int)
          ++ ((cString k ++ [0]) ++ (longBytes 1 ++ encode E r))),
        (RS_SerializeRecord E [] r).2) := by
  rw [RS_SerializeRecord]
  simp only [RediStar_BWWriteString]
  rw [RS_SerializeRecord_append]
  simp [RediStar_BWWriteLong_eq, RediStar_BWWriteBuffer_eq, encode]

theorem encode_le_serializeRecords (E : Env) (rs : List Record)
    (h : ∀ r ∈ rs, (RS_SerializeRecord E [] r).2 = none) :
    ∀ r ∈ rs, (encode E r).length ≤ (serializeRecords E [] rs).1.length := by
  induction rs with
  | nil => intro r hr; cases hr
  | cons x xs ih =>
    intro r hr
    rw [serializeRecords_cons E x xs (h x (List.mem_cons_self _ _))]
    simp only [List.length_append]
    rcases List.mem_cons.mp hr with h1 | h1
    · subst h1
      omega
    · have := ih (fun y hy => h y (List.mem_cons_of_mem _ hy)) r h1
      omega

/-! ## Reading back what was written -/

theorem deserializeChildren_roundtrip (E : Env)
    (self : BufferReader → Except Fault (Record × BufferReader)) (rs : List Record)
    (h : ∀ r ∈ rs, (RS_SerializeRecord E [] r).2 = none
      ∧ ∀ rest, self (encode E r ++ rest) = .ok (r, rest)) :
    (serializeRecords E [] rs).2 = none ∧ ∀ acc rest,
      deserializeChildren self rs.length (.listRecord acc) ((serializeRecords E [] rs).1 ++ rest)
        = .ok (.listRecord (acc ++ rs), rest) := by
  induction rs with
  | nil =>
    refine ⟨rfl, ?_⟩
    intro acc rest
    simp [serializeRecords, deserializeChildren]
  | cons x xs ih =>
    obtain ⟨hx1, hx2⟩ := h x (List.mem_cons_self _ _)
    obtain ⟨ih1, ih2⟩ := ih (fun y hy => h y (List.mem_cons_of_mem _ hy))
    rw [serializeRecords_cons E x xs hx1]
    refine ⟨ih1, ?_⟩
    intro acc rest
    simp only [List.length_cons, deserializeChildren, List.append_assoc]
    rw [hx2]
    simp only [RS_ListRecordAdd, array_append]
    rw [ih2]
    simp

theorem roundtrip_at_depth (E : Env) (r : Record) :
    r.wellTyped = true → Record.Transmissible E r →
      (RS_SerializeRecord E [] r).2 = none ∧ ∀ depth rest, (encode E r).length < depth →
        deserializeDepth E depth (encode E r ++ rest) = .ok (r, rest) := by
  induction r using Record.induct with
  | hHandler h =>
    intro _ ht
    exact absurd (ht _ (Record.self_mem_subrecords _)) (by simp [Record.isTransmissibleNode])
  | hHash d _ =>
    intro _ ht
    exact absurd (ht _ (Record.self_mem_subrecords _)) (by simp [Record.isTransmissibleNode])
  | hLong n =>
    intro hw _
    have hr := (Record.wellTyped_iff _).mp hw _ (Record.self_mem_subrecords _)
    simp only [Record.fieldsInRange, decide_eq_true_eq] at hr
    refine ⟨by simp [RS_SerializeRecord], ?_⟩
    intro depth rest hd
    obtain ⟨d, rfl⟩ := Nat.exists_eq_succ_of_ne_zero (by omega : depth ≠ 0)
    have he : encode E (.longRecord n) = longBytes (E.tag .LONG_RECORD) ++ longBytes n := by
      simp [encode, RS_SerializeRecord, RediStar_BWWriteLong_eq]
    rw [he, deserializeDepth, List.append_assoc, deserializeBody_long, RediStar_BRReadLong_append]
    simp only [toLong_of_range n hr.1 hr.2]
    rfl
  | hDouble x =>
    intro hw ht
    have hr := (Record.wellTyped_iff _).mp hw _ (Record.self_mem_subrecords _)
    simp only [Record.fieldsInRange] at hr
    obtain ⟨hi, n, hn⟩ := ht _ (Record.self_mem_subrecords _)
    have hs : RS_SerializeRecord E [] (.doubleRecord x)
        = (longBytes (E.tag .DOUBLE_RECORD) ++ longBytes n, none) := by
      simp [RS_SerializeRecord, hn, RediStar_BWWriteLong_eq]
    refine ⟨by rw [hs], ?_⟩
    intro depth rest hd
    obtain ⟨d, rfl⟩ := Nat.exists_eq_succ_of_ne_zero (by omega : depth ≠ 0)
    have he : encode E (.doubleRecord x) = longBytes (E.tag .DOUBLE_RECORD) ++ longBytes n := by
      rw [encode, hs]
    rw [he, deserializeDepth, List.append_assoc, deserializeBody_double, RediStar_BRReadLong_append]
    simp only [longToDouble_doubleToLong x n hi hr hn]
    rfl
  | hString s =>
    intro hw _
    have hr := (Record.wellTyped_iff _).mp hw _ (Record.self_mem_subrecords _)
    simp only [Record.fieldsInRange, decide_eq_true_eq] at hr
    refine ⟨by simp [RS_SerializeRecord], ?_⟩
    intro depth rest hd
    obtain ⟨d, rfl⟩ := Nat.exists_eq_succ_of_ne_zero (by omega : depth ≠ 0)
    have he : encode E (.stringRecord s)
        = longBytes (E.tag .STRING_RECORD) ++ (longBytes (s.length : Int) ++ s) := by
      simp [encode, RS_SerializeRecord, RediStar_BWWriteLong_eq, RediStar_BWWriteBuffer_eq]
    rw [he, deserializeDepth]
    simp only [List.append_assoc]
    rw [deserializeBody_string, RediStar_BRReadBuffer_append s rest hr]
    rfl
  | hList rs ih =>
    intro hw ht
    have hr := (Record.wellTyped_iff _).mp hw _ (Record.self_mem_subrecords _)
    simp only [Record.fieldsInRange, decide_eq_true_eq] at hr
    have hch : ∀ r ∈ rs, (RS_SerializeRecord E [] r).2 = none ∧ ∀ depth rest,
        (encode E r).length < depth →
          deserializeDepth E depth (encode E r ++ rest) = .ok (r, rest) := by
      intro r hr1
      apply ih r hr1
      · rw [Record.wellTyped_iff] at hw ⊢
        exact fun x hx => hw x (Record.mem_subrecords_list hr1 hx)
      · exact fun x hx => ht x (Record.mem_subrecords_list hr1 hx)
    have hlen := encode_le_serializeRecords E rs (fun r hr1 => (hch r hr1).1)
    have he : encode E (.listRecord rs) = longBytes (E.tag .LIST_RECORD)
        ++ (longBytes (rs.length : Int) ++ (serializeRecords E [] rs).1) := by
      rw [encode, serialize_list_eq]
    have hsnd : (RS_SerializeRecord E [] (.listRecord rs)).2 = (serializeRecords E [] rs).2 := by
      rw [serialize_list_eq]
    suffices hmain : ∀ depth rest, (encode E (.listRecord rs)).length < depth →
        (serializeRecords E [] rs).2 = none ∧
          deserializeDepth E depth (encode E (.listRecord rs) ++ rest)
            = .ok (.listRecord rs, rest) by
      refine ⟨?_, fun depth rest hd => (hmain depth rest hd).2⟩
      rw [hsnd]
      exact (hmain _ [] (Nat.lt_succ_self _)).1
    intro depth rest hd
    obtain ⟨d, rfl⟩ := Nat.exists_eq_succ_of_ne_zero (by omega : depth ≠ 0)
    rw [he] at hd ⊢
    simp only [List.length_append, longBytes_length] at hd
    obtain ⟨h1, h2⟩ := deserializeChildren_roundtrip E (deserializeDepth E d) rs
      (fun r hr1 => ⟨(hch r hr1).1, fun rest1 =>
        (hch r hr1).2 d rest1 (by have := hlen r hr1; omega)⟩)
    refine ⟨h1, ?_⟩
    rw [deserializeDepth]
    simp only [List.append_assoc]
    rw [deserializeBody_list, RediStar_BRReadLong_append]
    simp only [toSizeT_toLong_natCast _ hr, RS_ListRecordCreate, array_new]
    rw [h2]
    simp
  | hKeyNone key len =>
    intro hw ht
    have hr := (Record.wellTyped_iff _).mp hw _ (Record.self_mem_subrecords _)
    obtain ⟨k, hk, hnul, hl⟩ := ht _ (Record.self_mem_subrecords _)
    subst hk
    simp only [Record.fieldsInRange, Bool.and_eq_true, decide_eq_true_eq] at hr
    rw [strlen_of_nul_free k hnul] at hl
    subst hl
    have hs := serialize_key_none_eq E k k.length
    rw [cString_of_nul_free k hnul] at hs
    refine ⟨by rw [hs], ?_⟩
    intro depth rest hd
    obtain ⟨d, rfl⟩ := Nat.exists_eq_succ_of_ne_zero (by omega : depth ≠ 0)
    rw [encode, hs, deserializeDepth]
    simp only [List.append_assoc, List.append_nil]
    have := deserializeBody_key E (deserializeDepth E d) k rest hnul hr.2 0
    simp only [List.append_assoc] at this
    rw [this]
    rfl
  | hKeySome key len r ih =>
    intro hw ht
    have hr := (Record.wellTyped_iff _).mp hw _ (Record.self_mem_subrecords _)
    obtain ⟨k, hk, hnul, hl⟩ := ht _ (Record.self_mem_subrecords _)
    subst hk
    simp only [Record.fieldsInRange, Bool.and_eq_true, decide_eq_true_eq] at hr
    rw [strlen_of_nul_free k hnul] at hl
    subst hl
    have hs := serialize_key_some_eq E k k.length r
    rw [cString_of_nul_free k hnul] at hs
    obtain ⟨ih1, ih2⟩ := ih
      (by
        rw [Record.wellTyped_iff] at hw ⊢
        exact fun x hx => hw x (Record.mem_subrecords_key hx))
      (fun x hx => ht x (Record.mem_subrecords_key hx))
    refine ⟨by rw [hs]; exact ih1, ?_⟩
    intro depth rest hd
    obtain ⟨d, rfl⟩ := Nat.exists_eq_succ_of_ne_zero (by omega : depth ≠ 0)
    rw [encode, hs] at hd
    simp only [List.length_append, longBytes_length] at hd
    rw [encode, hs, deserializeDepth]
    simp only [List.append_assoc]
    have := deserializeBody_key E (deserializeDepth E d) k (encode E r ++ rest) hnul hr.2 1
    simp only [List.append_assoc] at this
    rw [this, ih2 d rest (by omega)]
    rfl
  | hPy o =>
    intro _ ht
    obtain ⟨hpy, hser, hde⟩ := ht _ (Record.self_mem_subrecords _)
    have hs : RS_SerializeRecord E [] (.pyRecord o)
        = (longBytes (E.tag .PY_RECORD) ++ (E.pySerialize o).1, none) := by
      simp [RS_SerializeRecord, hpy, hser, RediStar_BWWriteLong_eq]
    refine ⟨by rw [hs], ?_⟩
    intro depth rest hd
    obtain ⟨d, rfl⟩ := Nat.exists_eq_succ_of_ne_zero (by omega : depth ≠ 0)
    rw [encode, hs, deserializeDepth]
    simp only [List.append_assoc]
    unfold deserializeBody
    rw [RediStar_BRReadLong_append]
    simp [toEnum_toLong_tag, Env.tag_eq_iff, hpy, hde]

theorem plain_transmissible (E : Env) (v : Record) (hp : v.plain = true) :
    Record.Transmissible E v := by
  intro x hx
  have h := (Record.plain_iff v).mp hp x hx
  cases x with
  | keyRecord key len c =>
    cases key with
    | none => simp [Record.isPlainNode] at h
    | some k =>
      simp only [Record.isPlainNode, Bool.and_eq_true, decide_eq_true_eq] at h
      exact ⟨k, rfl, h.1, h.2⟩
  | longRecord n => trivial
  | stringRecord s => trivial
  | listRecord rs => trivial
  | keyHandlerRecord h1 => simp [Record.isPlainNode] at h
  | doubleRecord x => simp [Record.isPlainNode] at h
  | hashSetRecord d => simp [Record.isPlainNode] at h
  | pyRecord o => simp [Record.isPlainNode] at h

theorem serializeRecords_length_congr (E E1 : Env) (rs : List Record)
    (h : ∀ r ∈ rs, (RS_SerializeRecord E [] r).2 = none ∧ (RS_SerializeRecord E1 [] r).2 = none
      ∧ (encode E r).length = (encode E1 r).length) :
    (serializeRecords E [] rs).1.length = (serializeRecords E1 [] rs).1.length := by
  induction rs with
  | nil => rfl
  | cons x xs ih =>
    obtain ⟨h1, h2, h3⟩ := h x (List.mem_cons_self _ _)
    rw [serializeRecords_cons E x xs h1, serializeRecords_cons E1 x xs h2]
    simp only [List.length_append]
    rw [h3, ih (fun y hy => h y (List.mem_cons_of_mem _ hy))]

theorem serializeRecords_ok (E : Env) (rs : List Record)
    (h : ∀ r ∈ rs, (RS_SerializeRecord E [] r).2 = none) :
    (serializeRecords E [] rs).2 = none := by
  induction rs with
  | nil => rfl
  | cons x xs ih =>
    rw [serializeRecords_cons E x xs (h x (List.mem_cons_self _ _))]
    exact ih (fun y hy => h y (List.mem_cons_of_mem _ hy))

theorem plain_encode_length (E E1 : Env) (v : Record) :
    v.plain = true → (RS_SerializeRecord E [] v).2 = none ∧ (RS_SerializeRecord E1 [] v).2 = none
      ∧ (encode E v).length = (encode E1 v).length := by
  induction v using Record.induct with
  | hHandler h => intro hp; simp [Record.plain, Record.subrecords, Record.isPlainNode] at hp
  | hDouble x => intro hp; simp [Record.plain, Record.subrecords, Record.isPlainNode] at hp
  | hHash d _ => intro hp; simp [Record.plain, Record.subrecords, Record.isPlainNode] at hp
  | hPy o => intro hp; simp [Record.plain, Record.subrecords, Record.isPlainNode] at hp
  | hLong n =>
    intro _
    simp [encode, RS_SerializeRecord, RediStar_BWWriteLong_eq, longBytes_length]
  | hString s =>
    intro _
    simp [encode, RS_SerializeRecord, RediStar_BWWriteLong_eq, RediStar_BWWriteBuffer_eq, longBytes_length]
  | hList rs ih =>
    intro hp
    have hch : ∀ r ∈ rs, (RS_SerializeRecord E [] r).2 = none
        ∧ (RS_SerializeRecord E1 [] r).2 = none ∧ (encode E r).length = (encode E1 r).length := by
      intro r hr
      apply ih r hr
      rw [Record.plain_iff] at hp ⊢
      exact fun x hx => hp x (Record.mem_subrecords_list hr hx)
    have h1 := serializeRecords_ok E rs (fun r hr => (hch r hr).1)
    have h2 := serializeRecords_ok E1 rs (fun r hr => (hch r hr).2.1)
    have h3 := serializeRecords_length_congr E E1 rs hch
    rw [encode, encode, serialize_list_eq, serialize_list_eq]
    refine ⟨h1, h2, ?_⟩
    simp only [List.length_append, longBytes_length, h3]
  | hKeyNone key len =>
    intro hp
    cases key with
    | none => simp [Record.plain, Record.subrecords, Record.isPlainNode] at hp
    | some k =>
      rw [encode, encode, serialize_key_none_eq, serialize_key_none_eq]
      simp [longBytes_length]
  | hKeySome key len r ih =>
    intro hp
    cases key with
    | none => simp [Record.plain, Record.subrecords, Record.isPlainNode] at hp
    | some k =>
      obtain ⟨h1, h2, h3⟩ := ih (by
        rw [Record.plain_iff] at hp ⊢
        exact fun x hx => hp x (Record.mem_subrecords_key hx))
      rw [encode, encode, serialize_key_some_eq, serialize_key_some_eq]
      refine ⟨h1, h2, ?_⟩
      simp only [List.length_append, longBytes_length, h3]

/-! ## C1, C2: the round trip -/

/-- C1, counterexample: four values without any ExternalHandle that do not
come back.  The Float 3/2 is written as the integer 1 and read back as the
Float 1; serializing a StringMap aborts on the assertion of the default case;
a KeyedValue whose key was never set cannot be written; and the key "a\0b"
with stored length 3 comes back as the key "a" with stored length 1. -/
theorem roundtrip_counterexample :
    (Record.doubleRecord (.finite 3 1)).hasKeyHandler = false
    ∧ RS_DeserializeRecord stdEnv (RS_SerializeRecord stdEnv [] (.doubleRecord (.finite 3 1))).1
        = .ok (.doubleRecord (.finite 1 0), [])
    ∧ Record.doubleRecord (.finite 1 0) ≠ .doubleRecord (.finite 3 1)
    ∧ (Record.hashSetRecord []).hasKeyHandler = false
    ∧ (RS_SerializeRecord stdEnv [] (.hashSetRecord [])).2 = some .assertFailed
    ∧ (Record.keyRecord none 0 none).hasKeyHandler = false
    ∧ (RS_SerializeRecord stdEnv [] (.keyRecord none 0 none)).2 = some .undefinedBehaviour
    ∧ (Record.keyRecord (some [97, 0, 98]) 3 none).hasKeyHandler = false
    ∧ RS_DeserializeRecord stdEnv
        (RS_SerializeRecord stdEnv [] (.keyRecord (some [97, 0, 98]) 3 none)).1
        = .ok (.keyRecord (some [97]) 1 none, [])
    ∧ Record.keyRecord (some [97]) 1 none ≠ .keyRecord (some [97, 0, 98]) 3 none :=
  ⟨rfl, rfl, by simp, rfl, rfl, rfl, rfl, rfl, rfl, by simp⟩

/-- C1, amended: for every well-typed value in which no ExternalHandle and no
StringMap occurs, every Float is integer-valued and within the range of
`long`, every KeyedValue has a set, NUL-free key whose stored length is its
string length, and every ForeignObject is one the hooks write and read back:
`RS_SerializeRecord` completes, appending the same bytes to any writer, and
`RS_DeserializeRecord` on those bytes returns the value itself, with nothing
left in the reader. -/
theorem roundtrip_transmissible (E : Env) (v : Record) (hw : v.wellTyped = true)
    (ht : Record.Transmissible E v) :
    (∀ bw, RS_SerializeRecord E bw v = (bw ++ encode E v, none))
    ∧ RS_DeserializeRecord E (encode E v) = .ok (v, []) := by
  obtain ⟨h1, h2⟩ := roundtrip_at_depth E v hw ht
  constructor
  · intro bw
    rw [RS_SerializeRecord_append, h1]
    rfl
  · have := h2 ((encode E v).length + 1) [] (Nat.lt_succ_self _)
    rw [List.append_nil] at this
    exact this

/-- C2: for every well-typed value built only from Integer, Bytes, List and
KeyedValue records with a set, NUL-free key whose stored length is its string
length, `RS_SerializeRecord` completes, `RS_DeserializeRecord` on the bytes it
wrote returns the value itself, and the number of bytes written is the same
for every writer state and every environment. -/
theorem roundtrip_plain (E : Env) (v : Record) (hp : v.plain = true) (hw : v.wellTyped = true) :
    (∀ bw, (RS_SerializeRecord E bw v).2 = none)
    ∧ RS_DeserializeRecord E (RS_SerializeRecord E [] v).1 = .ok (v, [])
    ∧ ∀ (E1 : Env) (bw bw1 : BufferWriter),
        (RS_SerializeRecord E bw v).1.length - bw.length
          = (RS_SerializeRecord E1 bw1 v).1.length - bw1.length := by
  obtain ⟨h1, h2⟩ := roundtrip_at_depth E v hw (plain_transmissible E v hp)
  refine ⟨?_, ?_, ?_⟩
  · intro bw
    rw [RS_SerializeRecord_append, h1]
  · have := h2 ((encode E v).length + 1) [] (Nat.lt_succ_self _)
    rw [List.append_nil] at this
    exact this
  · intro E1 bw bw1
    have h3 := (plain_encode_length E E1 v hp).2.2
    rw [RS_SerializeRecord_append E v bw, RS_SerializeRecord_append E1 v bw1]
    simp only [List.length_append, encode] at h3 ⊢
    omega

/-- The amended C1 at a list holding the Float 5, a ForeignObject, a
KeyedValue with the Integer -3 and a Bytes with a zero byte. -/
theorem roundtrip_transmissible_witness :
    mixedExample.wellTyped = true ∧ Record.Transmissible stdEnv mixedExample
    ∧ RS_DeserializeRecord stdEnv (encode stdEnv mixedExample) = .ok (mixedExample, []) := by
  have ht : Record.Transmissible stdEnv mixedExample := by
    intro x hx
    simp only [mixedExample, Record.subrecords, subrecordsOfList, List.mem_cons, List.mem_append,
      List.append_nil, List.mem_singleton, List.not_mem_nil, or_false] at hx
    rcases hx with rfl | rfl | rfl | (rfl | rfl) | rfl
    · trivial
    · exact ⟨rfl, 5, rfl⟩
    · refine ⟨rfl, rfl, ?_⟩
      intro rest
      show (match RediStar_BRReadLong (longBytes 7 ++ rest) with
        | Except.error f => Except.error f
        | Except.ok (p, _) => Except.ok (some (toSizeT p), 8))
          = (Except.ok (some 7, 8) : Except Fault (Option PyObject × Nat))
      rw [RediStar_BRReadLong_append]
      rfl
    · exact ⟨[107], rfl, by decide, rfl⟩
    · trivial
    · trivial
  exact ⟨by decide, ht, (roundtrip_transmissible stdEnv mixedExample (by decide) ht).2⟩

/-- C2 at the nested example of the spec, whose encoding has 106 bytes. -/
theorem roundtrip_plain_witness :
    nestedExample.plain = true ∧ nestedExample.wellTyped = true
    ∧ RS_DeserializeRecord stdEnv (RS_SerializeRecord stdEnv [] nestedExample).1
        = .ok (nestedExample, [])
    ∧ (∀ bw, (RS_SerializeRecord stdEnv bw nestedExample).1.length - bw.length = 106) := by
  have h := roundtrip_plain stdEnv nestedExample (by decide) (by decide)
  refine ⟨by decide, by decide, h.2.1, ?_⟩
  intro bw
  rw [h.2.2 stdEnv bw []]
  rfl

/-! ## The recursion of the deserializer is well founded -/

theorem RediStar_BRReadLong_length {br br1 : BufferReader} {v : Int} (h : RediStar_BRReadLong br = .ok (v, br1)) :
    br1.length + 8 = br.length := by
  unfold RediStar_BRReadLong at h
  split at h
  · simp only [Except.ok.injEq, Prod.mk.injEq] at h
    rw [← h.2, List.length_drop]
    omega
  · cases h

theorem RediStar_BRReadBuffer_length {br br2 : BufferReader} {s : List Byte}
    (h : RediStar_BRReadBuffer br = .ok (s, br2)) : br2.length + 8 ≤ br.length := by
  unfold RediStar_BRReadBuffer at h
  split at h
  · cases h
  · rename_i n br1 h1
    have := RediStar_BRReadLong_length h1
    split at h
    · simp only [Except.ok.injEq, Prod.mk.injEq] at h
      rw [← h.2, List.length_drop]
      omega
    · cases h

theorem deserializeChildren_length
    {self : BufferReader → Except Fault (Record × BufferReader)} {bound : Nat}
    (hself : ∀ b r b1, b.length ≤ bound → self b = .ok (r, b1) → b1.length ≤ b.length) :
    ∀ (n : Nat) (acc : Record) (br : BufferReader) (r : Record) (br1 : BufferReader),
      br.length ≤ bound → deserializeChildren self n acc br = .ok (r, br1) →
        br1.length ≤ br.length := by
  intro n
  induction n with
  | zero =>
    intro acc br r br1 _ h
    simp only [deserializeChildren, Except.ok.injEq, Prod.mk.injEq] at h
    rw [h.2]
  | succ n ih =>
    intro acc br r br1 hb h
    rw [deserializeChildren] at h
    split at h
    · cases h
    · rename_i element br2 h1
      have h2 := hself _ _ _ hb h1
      split at h
      · cases h
      · have := ih _ _ _ _ (by omega) h
        omega

theorem deserializeChildren_congr
    {self1 self2 : BufferReader → Except Fault (Record × BufferReader)} {bound : Nat}
    (hself : ∀ b r b1, b.length ≤ bound → self1 b = .ok (r, b1) → b1.length ≤ b.length)
    (heq : ∀ b, b.length ≤ bound → self1 b = self2 b) :
    ∀ (n : Nat) (acc : Record) (br : BufferReader), br.length ≤ bound →
      deserializeChildren self1 n acc br = deserializeChildren self2 n acc br := by
  intro n
  induction n with
  | zero => intro acc br _; rfl
  | succ n ih =>
    intro acc br hb
    rw [deserializeChildren, deserializeChildren, ← heq br hb]
    cases h1 : self1 br with
    | error f => rfl
    | ok p =>
      obtain ⟨element, br2⟩ := p
      have h2 := hself _ _ _ hb h1
      simp only
      cases RS_ListRecordAdd acc element with
      | error f => rfl
      | ok r1 => exact ih r1 br2 (by omega)

theorem deserializeBody_length (E : Env)
    {self : BufferReader → Except Fault (Record × BufferReader)} {br br1 : BufferReader}
    {r : Record}
    (hself : ∀ b r b1, b.length + 8 ≤ br.length → self b = .ok (r, b1) → b1.length ≤ b.length)
    (h : deserializeBody E self br = .ok (r, br1)) : br1.length + 8 ≤ br.length := by
  unfold deserializeBody at h
  split at h
  · cases h
  · rename_i t b1 ht
    have hl := RediStar_BRReadLong_length ht
    have hself1 : ∀ b r b2, b.length ≤ b1.length - 8 → self b = .ok (r, b2) →
        b2.length ≤ b.length := fun b r b2 hb => hself b r b2 (by omega)
    split at h
    · split at h
      · cases h
      · rename_i temp b2 h2
        have := RediStar_BRReadBuffer_length h2
        simp only [Except.ok.injEq, Prod.mk.injEq] at h
        rw [← h.2]
        omega
    · split at h
      · split at h
        · cases h
        · rename_i n b2 h2
          have := RediStar_BRReadLong_length h2
          simp only [Except.ok.injEq, Prod.mk.injEq] at h
          rw [← h.2]
          omega
      · split at h
        · split at h
          · cases h
          · rename_i n b2 h2
            have := RediStar_BRReadLong_length h2
            simp only [Except.ok.injEq, Prod.mk.injEq] at h
            rw [← h.2]
            omega
        · split at h
          · split at h
            · cases h
            · rename_i n b2 h2
              have h3 := RediStar_BRReadLong_length h2
              have := deserializeChildren_length hself1 _ _ _ _ _ (by omega) h
              omega
          · split at h
            · unfold RediStar_BRReadString at h
              split at h
              · cases h
              · rename_i span b2 h2
                have h3 := RediStar_BRReadBuffer_length h2
                split at h
                · cases h
                · split at h
                  · cases h
                  · split at h
                    · cases h
                    · rename_i flag b3 h4
                      have h5 := RediStar_BRReadLong_length h4
                      split at h
                      · split at h
                        · cases h
                        · rename_i val b4 h6
                          have h7 := hself1 _ _ _ (by omega) h6
                          split at h
                          · cases h
                          · simp only [Except.ok.injEq, Prod.mk.injEq] at h
                            rw [← h.2]
                            omega
                      · split at h
                        · cases h
                        · simp only [Except.ok.injEq, Prod.mk.injEq] at h
                          rw [← h.2]
                          omega
            · split at h
              · cases h
              · split at h
                · split at h
                  · cases h
                  · simp only [Except.ok.injEq, Prod.mk.injEq] at h
                    rw [← h.2, List.length_drop]
                    omega
                · cases h

theorem deserializeBody_congr (E : Env)
    {self1 self2 : BufferReader → Except Fault (Record × BufferReader)} {br : BufferReader}
    (hself : ∀ b r b1, b.length + 8 ≤ br.length → self1 b = .ok (r, b1) → b1.length ≤ b.length)
    (heq : ∀ b, b.length + 8 ≤ br.length → self1 b = self2 b) :
    deserializeBody E self1 br = deserializeBody E self2 br := by
  unfold deserializeBody
  cases ht : RediStar_BRReadLong br with
  | error f => rfl
  | ok p =>
    obtain ⟨t, b1⟩ := p
    have hl := RediStar_BRReadLong_length ht
    simp only
    by_cases c1 : toEnum t = E.tag .STRING_RECORD
    · rw [if_pos c1, if_pos c1]
    rw [if_neg c1, if_neg c1]
    by_cases c2 : toEnum t = E.tag .LONG_RECORD
    · rw [if_pos c2, if_pos c2]
    rw [if_neg c2, if_neg c2]
    by_cases c3 : toEnum t = E.tag .DOUBLE_RECORD
    · rw [if_pos c3, if_pos c3]
    rw [if_neg c3, if_neg c3]
    by_cases c4 : toEnum t = E.tag .LIST_RECORD
    · rw [if_pos c4, if_pos c4]
      cases h2 : RediStar_BRReadLong b1 with
      | error f => rfl
      | ok p =>
        obtain ⟨n, b2⟩ := p
        have h3 := RediStar_BRReadLong_length h2
        exact @deserializeChildren_congr self1 self2 b2.length
          (fun b r b3 hb => hself b r b3 (by omega)) (fun b hb => heq b (by omega)) _ _ _
          (Nat.le_refl _)
    rw [if_neg c4, if_neg c4]
    by_cases c5 : toEnum t = E.tag .KEY_RECORD
    · rw [if_pos c5, if_pos c5]
      cases h2 : RediStar_BRReadString b1 with
      | error f => rfl
      | ok p =>
        obtain ⟨span, b2⟩ := p
        have h3 := RediStar_BRReadBuffer_length h2
        simp only
        cases RS_STRDUP span with
        | error f => rfl
        | ok key =>
          simp only
          cases RS_KeyRecordSetKey RS_KeyRecordCreate (some key) (strlen key) with
          | error f => rfl
          | ok r =>
            simp only
            cases h4 : RediStar_BRReadLong b2 with
            | error f => rfl
            | ok p =>
              obtain ⟨flag, b3⟩ := p
              have h5 := RediStar_BRReadLong_length h4
              simp only
              rw [heq b3 (by omega)]
    rw [if_neg c5, if_neg c5]

theorem deserializeDepth_length (E : Env) :
    ∀ (n : Nat) (br : BufferReader) (r : Record) (br1 : BufferReader),
      deserializeDepth E n br = .ok (r, br1) → br1.length + 8 ≤ br.length := by
  intro n
  induction n with
  | zero => intro br r br1 h; cases h
  | succ n ih =>
    intro br r br1 h
    rw [deserializeDepth] at h
    exact deserializeBody_length E
      (fun b r1 b1 _ hb => by have := ih b r1 b1 hb; omega) h

theorem deserializeDepth_enough (E : Env) :
    ∀ (n m : Nat) (br : BufferReader), br.length < n → br.length < m →
      deserializeDepth E n br = deserializeDepth E m br := by
  intro n
  induction n with
  | zero => intro m br h; omega
  | succ n ih =>
    intro m br hn hm
    obtain ⟨m1, rfl⟩ := Nat.exists_eq_succ_of_ne_zero (by omega : m ≠ 0)
    rw [deserializeDepth, deserializeDepth]
    exact deserializeBody_congr E
      (fun b r1 b1 _ hb => by have := deserializeDepth_length E n b r1 b1 hb; omega)
      (fun b hb => ih m1 b (by omega) (by omega))

/-- The function `RS_DeserializeRecord` satisfies the recursion of the source:
it is its body applied to itself, so the bound on the depth of the recursion
is never what stops it. -/
theorem RS_DeserializeRecord_eq (E : Env) (br : BufferReader) :
    RS_DeserializeRecord E br = deserializeBody E (RS_DeserializeRecord E) br := by
  unfold RS_DeserializeRecord
  rw [deserializeDepth]
  exact deserializeBody_congr E
    (fun b r1 b1 _ hb => by have := deserializeDepth_length E _ b r1 b1 hb; omega)
    (fun b hb => deserializeDepth_enough E _ _ b (by omega) (Nat.lt_succ_self _))

theorem RS_DeserializeRecord_depth (E : Env) (n : Nat) (br : BufferReader) (h : br.length < n) :
    deserializeDepth E n br = RS_DeserializeRecord E br :=
  deserializeDepth_enough E _ _ br h (Nat.lt_succ_self _)

/-! ## C3: serializing an ExternalHandle -/

/-- C3, counterexample: serializing an ExternalHandle into an empty writer
reports the fault, but the writer then holds the eight bytes of the type. -/
theorem serialize_keyHandler_counterexample :
    RS_SerializeRecord stdEnv [] (.keyHandlerRecord 0)
      = ([1, 0, 0, 0, 0, 0, 0, 0], some .assertFailed)
    ∧ (RS_SerializeRecord stdEnv [] (.keyHandlerRecord 0)).1 ≠ [] :=
  ⟨rfl, by simp [RS_SerializeRecord, RediStar_BWWriteLong, longBytes, natToBytes]⟩

/-- C3, amended: for every ExternalHandle value and every writer state,
`RS_SerializeRecord` reports a fault (the assertion of the case) after it has
written the type: the writer holds its former contents followed by exactly the
eight bytes of the `KEY_HANDLER_RECORD` type, and nothing else. -/
theorem serialize_keyHandler (E : Env) (bw : BufferWriter) (h : RedisModuleKey) :
    RS_SerializeRecord E bw (.keyHandlerRecord h)
      = (bw ++ longBytes (E.tag .KEY_HANDLER_RECORD), some .assertFailed)
    ∧ (RS_SerializeRecord E bw (.keyHandlerRecord h)).1.length = bw.length + 8 := by
  simp [RS_SerializeRecord, RediStar_BWWriteLong_eq, longBytes_length]

/-! ## C5: append and pop -/

theorem listAddAll_eq (acc es : List Record) :
    listAddAll (.listRecord acc) es = .ok (.listRecord (acc ++ es)) := by
  induction es generalizing acc with
  | nil => simp [listAddAll]
  | cons e es ih =>
    rw [listAddAll]
    simp only [RS_ListRecordAdd, array_append]
    rw [ih]
    simp

theorem RS_ListRecordPop_append (xs : List Record) (x : Record) :
    RS_ListRecordPop (.listRecord (xs ++ [x])) = .ok (x, .listRecord xs) := by
  simp [RS_ListRecordPop, array_pop]

theorem listPopN_eq (xs : List Record) :
    listPopN xs.length (.listRecord xs) = .ok (xs.reverse, .listRecord []) := by
  induction xs using List.reverseRecOn with
  | nil => rfl
  | append_singleton xs x ih =>
    rw [List.length_append, List.length_singleton, listPopN, RS_ListRecordPop_append]
    simp only
    rw [ih]
    simp

/-- C5: for every capacity and every sequence of values, appending the values
to a fresh list with `RS_ListRecordAdd` and then calling `RS_ListRecordPop`
as many times returns the values in reverse order and leaves a list whose
`RS_ListRecordLen` is 0; one more `RS_ListRecordPop` is a fault. -/
theorem list_add_pop (initSize : Nat) (es : List Record) :
    ∃ l l0, listAddAll (RS_ListRecordCreate initSize) es = .ok l
      ∧ listPopN es.length l = .ok (es.reverse, l0)
      ∧ RS_ListRecordLen l0 = .ok 0
      ∧ RS_ListRecordPop l0 = .error .assertFailed := by
  refine ⟨.listRecord es, .listRecord [], ?_, listPopN_eq es, rfl, rfl⟩
  have := listAddAll_eq [] es
  simpa [RS_ListRecordCreate, array_new] using this

/-! ## C6: setting the value of a KeyedValue -/

/-- C6, counterexample: a KeyedValue holds the Integer 1; setting the Integer
2 as its value performs no release at all, whereas destroying the Integer 1
is the release of its record. -/
theorem keyRecordSetVal_counterexample :
    RS_KeyRecordSetVal (.keyRecord (some [107]) 1 (some (.longRecord 1))) (some (.longRecord 2))
      = .ok (.keyRecord (some [107]) 1 (some (.longRecord 2)), [])
    ∧ RS_FreeRecord stdEnv (.longRecord 1) = ([.freeRecord (.longRecord 1)], none) :=
  ⟨rfl, rfl⟩

/-- C6, amended: for every KeyedValue holding a child `c` (or none),
`RS_KeyRecordSetVal(r, c1)` installs `c1` and performs no release: the former
child is not destroyed by the call; after the call `RS_KeyRecordGetVal`
returns `c1`, and the key and its stored length are unchanged. -/
theorem keyRecordSetVal_installs (key : Option (List Byte)) (len : Nat) (c c1 : Option Record) :
    RS_KeyRecordSetVal (.keyRecord key len c) c1 = .ok (.keyRecord key len c1, [])
    ∧ RS_KeyRecordGetVal (.keyRecord key len c1) = .ok c1
    ∧ RS_KeyRecordGetKey (.keyRecord key len c1) = .ok (key, len) :=
  ⟨rfl, rfl, rfl⟩

/-! ## C7: the assertion on the type -/

/-- The accessors and mutators that assert the type: on a record of another
variant each of them stops on its assertion. -/
theorem accessors_assert_type (E : Env) (r : Record) :
    (RS_RecordGetType r ≠ .KEY_RECORD →
      (∀ key len, RS_KeyRecordSetKey r key len = .error .assertFailed)
      ∧ (∀ val, RS_KeyRecordSetVal r val = .error .assertFailed)
      ∧ RS_KeyRecordGetVal r = .error .assertFailed
      ∧ RS_KeyRecordGetKey r = .error .assertFailed)
    ∧ (RS_RecordGetType r ≠ .LIST_RECORD →
      RS_ListRecordLen r = .error .assertFailed
      ∧ (∀ e, RS_ListRecordAdd r e = .error .assertFailed)
      ∧ (∀ i, RS_ListRecordGet r i = .error .assertFailed))
    ∧ (RS_RecordGetType r ≠ .STRING_RECORD →
      RS_StringRecordGet r = .error .assertFailed
      ∧ (∀ val, RS_StringRecordSet r val = .error .assertFailed))
    ∧ (RS_RecordGetType r ≠ .DOUBLE_RECORD →
      RS_DoubleRecordGet r = .error .assertFailed
      ∧ (∀ val, RS_DoubleRecordSet r val = .error .assertFailed))
    ∧ (RS_RecordGetType r ≠ .LONG_RECORD →
      RS_LongRecordGet r = .error .assertFailed
      ∧ (∀ val, RS_LongRecordSet r val = .error .assertFailed))
    ∧ (RS_RecordGetType r ≠ .HASH_SET_RECORD →
      (∀ key val, RS_HashSetRecordSet E r key val = .error .assertFailed)
      ∧ (∀ key, RS_HashSetRecordGet r key = .error .assertFailed)
      ∧ RS_HashSetRecordGetAllKeys r = .error .assertFailed)
    ∧ (RS_RecordGetType r ≠ .KEY_HANDLER_RECORD →
      RS_KeyHandlerRecordGet r = .error .assertFailed)
    ∧ (RS_RecordGetType r ≠ .PY_RECORD →
      RS_PyObjRecordGet r = .error .assertFailed
      ∧ (∀ obj, RS_PyObjRecordSet r obj = .error .assertFailed)) := by
  cases r <;>
    simp [RS_RecordGetType, RS_KeyRecordSetKey, RS_KeyRecordSetVal, RS_KeyRecordGetVal,
      RS_KeyRecordGetKey, RS_ListRecordLen, RS_ListRecordAdd, RS_ListRecordGet,
      RS_StringRecordGet, RS_StringRecordSet, RS_DoubleRecordGet, RS_DoubleRecordSet,
      RS_LongRecordGet, RS_LongRecordSet, RS_HashSetRecordSet, RS_HashSetRecordGet,
      RS_HashSetRecordGetAllKeys, RS_KeyHandlerRecordGet, RS_PyObjRecordGet, RS_PyObjRecordSet]

/-- C7, the failing input: `RS_ListRecordPop` has no assertion on the type.
Applied to an Integer it does not stop on an assertion as `RS_ListRecordLen`
does: it reads the payload through the list member of the union. -/
theorem listRecordPop_no_type_assertion :
    RS_ListRecordPop (.longRecord 5) = .error .undefinedBehaviour
    ∧ RS_ListRecordPop (.longRecord 5) ≠ .error .assertFailed
    ∧ RS_ListRecordLen (.longRecord 5) = .error .assertFailed :=
  ⟨rfl, by simp [RS_ListRecordPop], rfl⟩

/-! ## C9: serializing a StringMap -/

theorem mem_subrecordsOfList_iff (rs : List Record) (x : Record) :
    x ∈ subrecordsOfList rs ↔ ∃ r ∈ rs, x ∈ r.subrecords := by
  induction rs with
  | nil => simp [subrecordsOfList]
  | cons y ys ih => simp [subrecordsOfList, ih]

theorem serializeRecords_fault (E : Env) (rs : List Record)
    (h : ∃ r ∈ rs, ∀ bw, (RS_SerializeRecord E bw r).2 ≠ none) :
    ∀ bw, (serializeRecords E bw rs).2 ≠ none := by
  induction rs with
  | nil =>
    obtain ⟨r, hr, _⟩ := h
    cases hr
  | cons x xs ih =>
    intro bw
    rw [serializeRecords]
    obtain ⟨r, hr, hf⟩ := h
    cases hx : RS_SerializeRecord E bw x with
    | mk bw1 f =>
      cases f with
      | some f1 => simp
      | none =>
        simp only
        rcases List.mem_cons.mp hr with h1 | h1
        · subst h1
          have := hf bw
          rw [hx] at this
          exact absurd rfl this
        · exact ih ⟨r, h1, hf⟩ bw1

theorem hasHashSet_faults (E : Env) (r : Record) :
    r.hasHashSet = true → ∀ bw, (RS_SerializeRecord E bw r).2 ≠ none := by
  induction r using Record.induct with
  | hHandler h => intro _ bw; simp [RS_SerializeRecord]
  | hLong n => intro h; simp [Record.hasHashSet, Record.subrecords, Record.isOfType,
      RS_RecordGetType] at h
  | hDouble x => intro h; simp [Record.hasHashSet, Record.subrecords, Record.isOfType,
      RS_RecordGetType] at h
  | hString s => intro h; simp [Record.hasHashSet, Record.subrecords, Record.isOfType,
      RS_RecordGetType] at h
  | hPy o => intro h; simp [Record.hasHashSet, Record.subrecords, Record.isOfType,
      RS_RecordGetType] at h
  | hHash d _ => intro _ bw; simp [RS_SerializeRecord]
  | hKeyNone key len => intro h; simp [Record.hasHashSet, Record.subrecords, Record.isOfType,
      RS_RecordGetType] at h
  | hKeySome key len r ih =>
    intro h bw
    have hc : r.hasHashSet = true := by
      simpa [Record.hasHashSet, Record.subrecords, Record.isOfType, RS_RecordGetType] using h
    cases key with
    | none => simp [RS_SerializeRecord, RediStar_BWWriteString]
    | some k =>
      rw [RS_SerializeRecord]
      simp only [RediStar_BWWriteString]
      exact ih hc _
  | hList rs ih =>
    intro h bw
    have hc : ∃ r ∈ rs, r.hasHashSet = true := by
      simp only [Record.hasHashSet, Record.subrecords, List.any_cons, Record.isOfType,
        RS_RecordGetType, Bool.or_eq_true, List.any_eq_true, decide_eq_true_eq] at h
      rcases h with h | ⟨x, hx, hx1⟩
      · simp at h
      · obtain ⟨r, hr, hxr⟩ := (mem_subrecordsOfList_iff rs x).mp hx
        refine ⟨r, hr, ?_⟩
        simp only [Record.hasHashSet, List.any_eq_true, Record.isOfType, decide_eq_true_eq]
        exact ⟨x, hxr, hx1⟩
    obtain ⟨r, hr, hr1⟩ := hc
    rw [RS_SerializeRecord]
    exact serializeRecords_fault E rs ⟨r, hr, ih r hr hr1⟩ _

/-- C9: for every writer and every value in which a StringMap occurs at any
depth (the StringMap itself, or a List or KeyedValue around it),
`RS_SerializeRecord` ends in a fault; on a StringMap itself it is the assertion
of the default case, after the type has been written. -/
theorem serialize_hashSet_fault (E : Env) (bw : BufferWriter) (r : Record)
    (h : r.hasHashSet = true) :
    (∃ f, (RS_SerializeRecord E bw r).2 = some f)
    ∧ ∀ d, r = .hashSetRecord d →
        RS_SerializeRecord E bw r
          = (bw ++ longBytes (E.tag .HASH_SET_RECORD), some .assertFailed) := by
  constructor
  · have := hasHashSet_faults E r h bw
    cases hf : (RS_SerializeRecord E bw r).2 with
    | none => exact absurd hf this
    | some f => exact ⟨f, rfl⟩
  · intro d hd
    subst hd
    simp [RS_SerializeRecord, RediStar_BWWriteLong_eq]

/-- C9 at a List whose second element is a KeyedValue holding an empty
StringMap. -/
theorem serialize_hashSet_fault_witness :
    (Record.listRecord [.longRecord 1,
        .keyRecord (some [107]) 1 (some (.hashSetRecord []))]).hasHashSet = true
    ∧ ∃ f, (RS_SerializeRecord stdEnv [] (.listRecord [.longRecord 1,
        .keyRecord (some [107]) 1 (some (.hashSetRecord []))])).2 = some f :=
  ⟨by decide, (serialize_hashSet_fault stdEnv [] _ (by decide)).1⟩

/-! ## C8: types without a decoding case -/

theorem deserializeChildren_fault (E : Env) {k : Nat} {br2 br3 : BufferReader} {f : Fault}
    (hreads : ReadsRecords E k br2 br3) (hbad : RS_DeserializeRecord E br3 = .error f) :
    ∀ (n : Nat) (acc : List Record), k < n →
      deserializeChildren (RS_DeserializeRecord E) n (.listRecord acc) br2 = .error f := by
  induction hreads with
  | done br =>
    intro n acc hn
    obtain ⟨m, rfl⟩ := Nat.exists_eq_succ_of_ne_zero (by omega : n ≠ 0)
    rw [deserializeChildren, hbad]
  | next hr _ ih =>
    intro n acc hn
    obtain ⟨m, rfl⟩ := Nat.exists_eq_succ_of_ne_zero (by omega : n ≠ 0)
    rw [deserializeChildren, hr]
    simp only [RS_ListRecordAdd]
    exact ih hbad m _ (by omega)

/-- The types of ExternalHandle, StringMap and the stop record are not
decodable, nor is the type of ForeignObject when Python is not compiled in. -/
theorem undecodable_types (E : Env) :
    isDecodableType E (E.tag .KEY_HANDLER_RECORD) = false
    ∧ isDecodableType E (E.tag .HASH_SET_RECORD) = false
    ∧ isDecodableType E (E.tag .STOP_RECORD) = false
    ∧ (E.withPython = false → isDecodableType E (E.tag .PY_RECORD) = false) := by
  refine ⟨?_, ?_, ?_, ?_⟩ <;> simp [isDecodableType, Env.tag_eq_iff]

/-- C8, counterexample: the leading integer of the stream is 2^32 + 2, which
is the value of no enumerator; stored in the `enum RecordType` variable it is
2, the type of an Integer, and `RS_DeserializeRecord` returns the Integer 7. -/
theorem deserialize_type_counterexample :
    (∀ t, stdEnv.tag t ≠ 4294967298)
    ∧ RediStar_BRReadLong (longBytes 4294967298 ++ longBytes 7) = .ok (4294967298, longBytes 7)
    ∧ RS_DeserializeRecord stdEnv (longBytes 4294967298 ++ longBytes 7)
        = .ok (.longRecord 7, []) :=
  ⟨by intro t; cases t <;> decide, rfl, rfl⟩

/-- C8, amended: whenever the type at the head of the stream, or at the place
where a list child or the value of a keyed record starts at any depth, is
not a decodable type once the `long` read is stored in the `enum RecordType`
variable (reduced modulo 2^32), `RS_DeserializeRecord` stops on an assertion
and returns no value.  The types of ExternalHandle, StringMap and the stop
record, and every integer that is no enumerator modulo 2^32, are such types. -/
theorem deserialize_bad_type (E : Env) (br : BufferReader) (h : HasBadType E br) :
    RS_DeserializeRecord E br = .error .assertFailed := by
  induction h with
  | here ht hdec =>
    simp only [isDecodableType, Bool.or_eq_false_iff, decide_eq_false_iff_not,
      Bool.and_eq_false_imp, Bool.and_eq_false_eq_eq_false_or_eq_false] at hdec
    obtain ⟨⟨⟨⟨⟨h1, h2⟩, h3⟩, h4⟩, h5⟩, h6⟩ := hdec
    rw [RS_DeserializeRecord_eq]
    unfold deserializeBody
    rw [ht]
    simp only [if_neg h1, if_neg h2, if_neg h3, if_neg h4, if_neg h5]
    split
    · rfl
    · split
      · rename_i hpy
        exact absurd hpy.2 (h6 hpy.1)
      · rfl
  | inList ht hty hn hreads hk _ ih =>
    rw [RS_DeserializeRecord_eq]
    unfold deserializeBody
    rw [ht]
    simp only [hty, Env.tag_eq_iff, reduceCtorEq, if_false, if_true, hn, RS_ListRecordCreate,
      array_new]
    exact deserializeChildren_fault E hreads ih _ _ hk
  | inKey ht hty hs hdup hflag htrue _ ih =>
    rw [RS_DeserializeRecord_eq]
    unfold deserializeBody
    rw [ht]
    simp only [hty, Env.tag_eq_iff, reduceCtorEq, if_false, if_true, hs, hdup,
      RS_KeyRecordSetKey, RS_KeyRecordCreate, hflag, htrue, ih]

/-- The amended C8 at a stream in which the type of a StringMap stands where
the value of a KeyedValue starts, inside a List. -/
theorem deserialize_bad_type_witness :
    HasBadType stdEnv badTypeExample
    ∧ RS_DeserializeRecord stdEnv badTypeExample = .error .assertFailed := by
  have h3 : HasBadType stdEnv (longBytes 7) :=
    @HasBadType.here stdEnv (longBytes 7) [] 7 rfl rfl
  have h2 : HasBadType stdEnv
      (longBytes 6 ++ (longBytes 2 ++ ([107, 0] ++ (longBytes 1 ++ longBytes 7)))) :=
    @HasBadType.inKey stdEnv _ _ _ (longBytes 7) 6 1 [107, 0] [107] rfl rfl rfl rfl rfl rfl h3
  have h1 : HasBadType stdEnv badTypeExample :=
    @HasBadType.inList stdEnv badTypeExample _ _
      (longBytes 6 ++ (longBytes 2 ++ ([107, 0] ++ (longBytes 1 ++ longBytes 7)))) 5 2 1
      rfl rfl rfl (@ReadsRecords.next stdEnv 0 _ _ _ (.longRecord 7) rfl (ReadsRecords.done _))
      (by decide) h2
  exact ⟨h1, deserialize_bad_type stdEnv _ h1⟩

/-! ## C4, C10: setting a key of a StringMap -/

theorem dictFind_eq_none_iff (d : dict) (k : List Byte) :
    dictFind d k = none ↔ ∀ e ∈ d, e.1 ≠ k := by
  simp [dictFind, List.find?_eq_none]

theorem dictFind_key {d : dict} {k : List Byte} {e : List Byte × Option Record}
    (h : dictFind d k = some e) : e.1 = k ∧ e ∈ d := by
  unfold dictFind at h
  have h1 := List.find?_some h
  have h2 := List.mem_of_find?_eq_some h
  exact ⟨by simpa using h1, h2⟩

theorem dictFind_dictDelete (d : dict) (k : List Byte) : dictFind (dictDelete d k) k = none := by
  rw [dictFind_eq_none_iff]
  intro e he
  simpa [dictDelete] using (List.mem_filter.mp he).2

theorem dictDelete_eq_self {d : dict} {k : List Byte} (h : dictFind d k = none) :
    dictDelete d k = d := by
  rw [dictFind_eq_none_iff] at h
  unfold dictDelete
  rw [List.filter_eq_self]
  intro e he
  simpa using h e he

theorem dictFind_append_new {d : dict} {k : List Byte} (v : Option Record)
    (h : dictFind d k = none) : dictFind (d ++ [(k, v)]) k = some (k, v) := by
  unfold dictFind at h ⊢
  rw [List.find?_append, h]
  simp

theorem dictAdd_new {d : dict} {k : List Byte} (v : Option Record) (h : dictFind d k = none) :
    dictAdd d k v = (d ++ [(k, v)], true) := by
  simp [dictAdd, h]

theorem filter_key_after_set (d : dict) (k : List Byte) (v : Option Record) :
    (dictDelete d k ++ [(k, v)]).filter (fun e => decide (e.1 = k)) = [(k, v)] := by
  rw [List.filter_append]
  have h1 : (dictDelete d k).filter (fun e => decide (e.1 = k)) = [] := by
    rw [List.filter_eq_nil_iff]
    intro e he
    have := (dictFind_eq_none_iff _ k).mp (dictFind_dictDelete d k) e he
    simpa using this
  rw [h1]
  simp

theorem hashSetRecordSet_absent (E : Env) {d : dict} {k : List Byte} (v : Option Record)
    (h : dictFind d k = none) :
    RS_HashSetRecordSet E (.hashSetRecord d) k v
      = .ok (.hashSetRecord (dictDelete d k ++ [(k, v)]), true, []) := by
  simp [RS_HashSetRecordSet, RS_HashSetRecordGet, h, dictAdd_new v h, dictDelete_eq_self h]

theorem hashSetRecordSet_present (E : Env) {d : dict} {k k1 : List Byte} {old : Record}
    (v : Option Record) (h : dictFind d k = some (k1, some old)) :
    RS_HashSetRecordSet E (.hashSetRecord d) k v
      = match RS_FreeRecord E old with
        | (_, some f) => .error f
        | (evs, none) => .ok (.hashSetRecord (dictDelete d k ++ [(k, v)]), true, evs) := by
  simp only [RS_HashSetRecordSet, RS_HashSetRecordGet, h, dictAdd_new v (dictFind_dictDelete d k)]

theorem hashSetRecordGetAllKeys_eq (d : dict) :
    RS_HashSetRecordGetAllKeys (.hashSetRecord d) = .ok (d.map Prod.fst) := by
  have h : ∀ (acc : List (List Byte)) (d : dict),
      d.foldl (fun ret entry => array_append ret entry.1) acc = acc ++ d.map Prod.fst := by
    intro acc d
    induction d generalizing acc with
    | nil => simp
    | cons e es ih =>
      rw [List.foldl_cons, ih]
      simp [array_append]
  simp [RS_HashSetRecordGetAllKeys, h, array_new]

theorem count_keys_eq (d : dict) (k : List Byte) :
    (d.map Prod.fst).count k = (d.filter (fun e => decide (e.1 = k))).length := by
  induction d with
  | nil => rfl
  | cons e es ih =>
    rw [List.map_cons, List.count_cons, List.filter_cons, ih]
    by_cases h : e.1 = k
    · simp [h]
    · have h1 : ¬ (e.1 == k) = true := by simpa using h
      simp [h, h1]

theorem hashSetRecordSet_returned (E : Env) {d : dict} {k : List Byte} {v : Option Record}
    {m1 : Record} {b1 : Bool} {t1 : List Event}
    (hk : ∀ e, dictFind d k = some e → e.2 ≠ none)
    (h1 : RS_HashSetRecordSet E (.hashSetRecord d) k v = .ok (m1, b1, t1)) :
    m1 = .hashSetRecord (dictDelete d k ++ [(k, v)]) ∧ b1 = true
    ∧ ((RS_HashSetRecordGet (.hashSetRecord d) k = .ok none ∧ t1 = [])
      ∨ ∃ old, RS_HashSetRecordGet (.hashSetRecord d) k = .ok (some old)
          ∧ RS_FreeRecord E old = (t1, none)) := by
  cases hfind : dictFind d k with
  | none =>
    rw [hashSetRecordSet_absent E v hfind] at h1
    simp only [Except.ok.injEq, Prod.mk.injEq] at h1
    refine ⟨h1.1.symm, h1.2.1.symm, Or.inl ⟨?_, h1.2.2.symm⟩⟩
    simp [RS_HashSetRecordGet, hfind]
  | some e =>
    obtain ⟨k1, o⟩ := e
    cases o with
    | none => exact absurd rfl (hk _ hfind)
    | some old =>
      rw [hashSetRecordSet_present E v hfind] at h1
      cases hfree : RS_FreeRecord E old with
      | mk evs f =>
        rw [hfree] at h1
        cases f with
        | some f1 => cases h1
        | none =>
          simp only [Except.ok.injEq, Prod.mk.injEq] at h1
          refine ⟨h1.1.symm, h1.2.1.symm, Or.inr ⟨old, ?_, ?_⟩⟩
          · simp [RS_HashSetRecordGet, hfind]
          · rw [← h1.2.2]
            exact hfree

theorem hashSetRecordSet_returns (E : Env) {d : dict} {k : List Byte} (v : Option Record)
    (hk : ∀ e, dictFind d k = some e → e.2 ≠ none)
    (hfree : ∀ old, RS_HashSetRecordGet (.hashSetRecord d) k = .ok (some old) →
      (RS_FreeRecord E old).2 = none) :
    ∃ t1, RS_HashSetRecordSet E (.hashSetRecord d) k v
      = .ok (.hashSetRecord (dictDelete d k ++ [(k, v)]), true, t1) := by
  cases hfind : dictFind d k with
  | none => exact ⟨[], hashSetRecordSet_absent E v hfind⟩
  | some e =>
    obtain ⟨k1, o⟩ := e
    cases o with
    | none => exact absurd rfl (hk _ hfind)
    | some old =>
      have h2 := hfree old (by simp [RS_HashSetRecordGet, hfind])
      rw [hashSetRecordSet_present E v hfind]
      cases hf : RS_FreeRecord E old with
      | mk evs f =>
        rw [hf] at h2
        simp only at h2
        subst h2
        exact ⟨evs, rfl⟩

theorem hashSetRecordGet_after_set (d : dict) (k : List Byte) (v : Option Record) :
    RS_HashSetRecordGet (.hashSetRecord (dictDelete d k ++ [(k, v)])) k = .ok v := by
  simp only [RS_HashSetRecordGet, dictFind_append_new v (dictFind_dictDelete d k)]

/-- C4, counterexample: in a map whose entry for "a" holds NULL, neither
`RS_HashSetRecordSet("a", Integer 1)` nor `RS_HashSetRecordSet("a", Integer 2)`
replaces the entry: both return failure, nothing is destroyed, and
`RS_HashSetRecordGet("a")` still returns 0. -/
theorem hashSet_overwrite_counterexample :
    RS_HashSetRecordSet stdEnv (.hashSetRecord [([97], none)]) [97] (some (.longRecord 1))
      = .ok (.hashSetRecord [([97], none)], false, [])
    ∧ RS_HashSetRecordSet stdEnv (.hashSetRecord [([97], none)]) [97] (some (.longRecord 2))
      = .ok (.hashSetRecord [([97], none)], false, [])
    ∧ RS_HashSetRecordGet (.hashSetRecord [([97], none)]) [97] = .ok none :=
  ⟨rfl, rfl, rfl⟩

/-- C4, amended: for every StringMap in which the key `k` has no entry holding
NULL, and values `v1`, `v2` such that the teardown of `v1` completes: when
`RS_HashSetRecordSet(m,k,v1)` has returned, it returned success having
released nothing but the value formerly stored under `k`, and the following
`RS_HashSetRecordSet(m,k,v2)` returns success, its releases being exactly
those of one `RS_FreeRecord(v1)`; the map then has exactly one entry for `k`,
which holds `v2`, `RS_HashSetRecordGet(m,k)` returns `v2` and the keys of
`RS_HashSetRecordGetAllKeys` contain `k` exactly once. -/
theorem hashSet_overwrite (E : Env) (d : dict) (k : List Byte) (v1 v2 : Record)
    (m1 : Record) (b1 : Bool) (t1 : List Event)
    (hk : ∀ e, dictFind d k = some e → e.2 ≠ none)
    (h1 : RS_HashSetRecordSet E (.hashSetRecord d) k (some v1) = .ok (m1, b1, t1))
    (hf : (RS_FreeRecord E v1).2 = none) :
    b1 = true
    ∧ ((RS_HashSetRecordGet (.hashSetRecord d) k = .ok none ∧ t1 = [])
      ∨ ∃ old, RS_HashSetRecordGet (.hashSetRecord d) k = .ok (some old)
          ∧ RS_FreeRecord E old = (t1, none))
    ∧ ∃ d2, RS_HashSetRecordSet E m1 k (some v2)
        = .ok (.hashSetRecord d2, true, (RS_FreeRecord E v1).1)
      ∧ d2.filter (fun e => decide (e.1 = k)) = [(k, some v2)]
      ∧ RS_HashSetRecordGet (.hashSetRecord d2) k = .ok (some v2)
      ∧ ∃ keys, RS_HashSetRecordGetAllKeys (.hashSetRecord d2) = .ok keys
          ∧ keys.count k = 1 := by
  obtain ⟨hm1, hb1, ht1⟩ := hashSetRecordSet_returned E hk h1
  refine ⟨hb1, ht1, dictDelete (dictDelete d k ++ [(k, some v1)]) k ++ [(k, some v2)], ?_,
    filter_key_after_set _ k _, hashSetRecordGet_after_set _ k _, _,
    hashSetRecordGetAllKeys_eq _, ?_⟩
  · rw [hm1, hashSetRecordSet_present E (some v2)
      (dictFind_append_new (some v1) (dictFind_dictDelete d k))]
    cases hfree : RS_FreeRecord E v1 with
    | mk evs f =>
      rw [hfree] at hf
      simp only at hf
      subst hf
      rfl
  · rw [count_keys_eq, filter_key_after_set]
    rfl

/-- The amended C4 at the example of the spec: "a" is set to the Integer 1,
then to the Integer 2, in a fresh map. -/
theorem hashSet_overwrite_witness :
    (∀ e, dictFind [] [97] = some e → e.2 ≠ none)
    ∧ RS_HashSetRecordSet stdEnv (.hashSetRecord []) [97] (some (.longRecord 1))
        = .ok (.hashSetRecord [([97], some (.longRecord 1))], true, [])
    ∧ (RS_FreeRecord stdEnv (.longRecord 1)).2 = none
    ∧ ∃ d2, RS_HashSetRecordSet stdEnv (.hashSetRecord [([97], some (.longRecord 1))]) [97]
          (some (.longRecord 2))
        = .ok (.hashSetRecord d2, true, [.freeRecord (.longRecord 1)])
      ∧ d2.filter (fun e => decide (e.1 = [97])) = [([97], some (.longRecord 2))]
      ∧ RS_HashSetRecordGet (.hashSetRecord d2) [97] = .ok (some (.longRecord 2))
      ∧ ∃ keys, RS_HashSetRecordGetAllKeys (.hashSetRecord d2) = .ok keys
          ∧ keys.count [97] = 1 :=
  ⟨(fun e h => by cases h), rfl, rfl,
    (hashSet_overwrite stdEnv [] [97] (.longRecord 1) (.longRecord 2) _ _ _
      (fun e h => by cases h) rfl rfl).2.2⟩

theorem reachableBySet_noNull (E : Env) (m : Record) (h : ReachableBySet E m) :
    ∃ d, m = .hashSetRecord d ∧ ∀ e ∈ d, e.2 ≠ none := by
  induction h with
  | create => exact ⟨[], rfl, by intro e he; cases he⟩
  | set _ hset ih =>
    obtain ⟨d, hd, hnn⟩ := ih
    subst hd
    obtain ⟨hm1, _, _⟩ := hashSetRecordSet_returned E
      (fun e he => hnn e (dictFind_key he).2) hset
    refine ⟨_, hm1, ?_⟩
    intro e he
    rcases List.mem_append.mp he with h1 | h1
    · exact hnn e (List.mem_filter.mp h1).1
    · rw [List.mem_singleton.mp h1]
      simp

/-- C10, counterexample: on a fresh map `RS_HashSetRecordSet("a", NULL)`
returns success; in the state it leaves, `RS_HashSetRecordSet("a", Integer 1)`
returns failure: the entry is not seen by the test on the old value, it is
not removed, and the insert fails on the existing key. -/
theorem hashSetRecordSet_counterexample :
    RS_HashSetRecordSet stdEnv RS_HashSetRecordCreate [97] none
      = .ok (.hashSetRecord [([97], none)], true, [])
    ∧ RS_HashSetRecordSet stdEnv (.hashSetRecord [([97], none)]) [97] (some (.longRecord 1))
      = .ok (.hashSetRecord [([97], none)], false, []) :=
  ⟨rfl, rfl⟩

/-- C10, amended: for every StringMap state reached from
`RS_HashSetRecordCreate` by calls of `RS_HashSetRecordSet` whose value is not
NULL, every key and every value (NULL or not), a call of
`RS_HashSetRecordSet` that returns returns success, whether or not the key was
present; and it does return, with success, when the teardown of the value
stored under the key, if there is one, completes. -/
theorem hashSetRecordSet_succeeds (E : Env) (m : Record) (h : ReachableBySet E m)
    (k : List Byte) (v : Option Record) :
    (∀ m1 b evs, RS_HashSetRecordSet E m k v = .ok (m1, b, evs) → b = true)
    ∧ ((∀ old, RS_HashSetRecordGet m k = .ok (some old) → (RS_FreeRecord E old).2 = none) →
        ∃ m1 evs, RS_HashSetRecordSet E m k v = .ok (m1, true, evs)) := by
  obtain ⟨d, hd, hnn⟩ := reachableBySet_noNull E m h
  subst hd
  have hk : ∀ e, dictFind d k = some e → e.2 ≠ none := fun e he => hnn e (dictFind_key he).2
  constructor
  · intro m1 b evs hset
    exact (hashSetRecordSet_returned E hk hset).2.1
  · intro hfree
    obtain ⟨t1, ht1⟩ := hashSetRecordSet_returns E v hk hfree
    exact ⟨_, t1, ht1⟩

/-- The amended C10 at the state reached by setting "a" to the Integer 1 in
a fresh map, for a second set of the same key. -/
theorem hashSetRecordSet_succeeds_witness :
    ReachableBySet stdEnv (.hashSetRecord [([97], some (.longRecord 1))])
    ∧ ∃ m1 evs, RS_HashSetRecordSet stdEnv (.hashSetRecord [([97], some (.longRecord 1))]) [97]
        (some (.longRecord 2)) = .ok (m1, true, evs) := by
  have h : ReachableBySet stdEnv (.hashSetRecord [([97], some (.longRecord 1))]) :=
    @ReachableBySet.set stdEnv RS_HashSetRecordCreate _ [97] (.longRecord 1) true []
      ReachableBySet.create rfl
  refine ⟨h, (hashSetRecordSet_succeeds stdEnv _ h [97] (some (.longRecord 2))).2 ?_⟩
  intro old hold
  have : old = .longRecord 1 := by
    have h2 : RS_HashSetRecordGet (.hashSetRecord [([97], some (.longRecord 1))]) [97]
        = .ok (some (.longRecord 1)) := rfl
    rw [h2] at hold
    simp only [Except.ok.injEq, Option.some.injEq] at hold
    exact hold.symm
  rw [this]
  rfl

/-! ## C11, C20: reading a StringMap, and NULL values -/

theorem dictFind_after_set_other (d : dict) (k k1 : List Byte) (v : Option Record)
    (hne : k ≠ k1) : dictFind (dictDelete d k ++ [(k, v)]) k1 = dictFind d k1 := by
  unfold dictFind dictDelete
  rw [List.find?_append]
  have h1 : List.find? (fun e => decide (e.1 = k1)) [(k, v)] = none := by
    simp [hne]
  rw [h1, Option.or_none]
  induction d with
  | nil => rfl
  | cons e es ih =>
    rw [List.filter_cons, List.find?_cons]
    by_cases hk : e.1 = k
    · have hk1 : decide (e.1 = k1) = false := by
        simpa using fun h => hne (hk.symm.trans h)
      have hq : (!decide (e.1 = k)) = false := by simp [hk]
      rw [hq, hk1]
      simpa using ih
    · have hq : (!decide (e.1 = k)) = true := by simp [hk]
      rw [hq, if_pos rfl, List.find?_cons, ih]

theorem hashSetRecordGet_none_iff (d : dict) (k0 : List Byte) (hnn : ∀ e ∈ d, e.2 ≠ none) :
    RS_HashSetRecordGet (.hashSetRecord d) k0 = .ok none ↔ dictFind d k0 = none := by
  cases hfind : dictFind d k0 with
  | none => simp [RS_HashSetRecordGet, hfind]
  | some e =>
    have := hnn e (dictFind_key hfind).2
    simp [RS_HashSetRecordGet, hfind, this]

/-- C11, counterexample: the entry of "a" holds NULL.  `RS_HashSetRecordGet`
returns 0 for "a" although "a" has an entry, and after
`RS_HashSetRecordSet("a", Integer 1)`, which returns failure, it still returns
0 and not the Integer 1. -/
theorem hashSet_get_counterexample :
    dictFind [([97], none)] [97] = some ([97], none)
    ∧ RS_HashSetRecordGet (.hashSetRecord [([97], none)]) [97] = .ok none
    ∧ ∃ m1, RS_HashSetRecordSet stdEnv (.hashSetRecord [([97], none)]) [97]
          (some (.longRecord 1)) = .ok (m1, false, [])
        ∧ RS_HashSetRecordGet m1 [97] = .ok none :=
  ⟨rfl, rfl, _, rfl, rfl⟩

/-- C11, amended: for every StringMap none of whose entries holds NULL, keys
`k`, `k1` that differ and every value `v`: when `RS_HashSetRecordSet(m,k,v)`
has returned, `RS_HashSetRecordGet(m,k)` returns `v` and
`RS_HashSetRecordGet(m,k1)` returns exactly what it returned before the set;
and in such a map `RS_HashSetRecordGet` returns 0 exactly for the keys that
have no entry.  (`RS_HashSetRecordGet` only looks the key up: it has no effect
on the map.) -/
theorem hashSet_get_frame (E : Env) (d : dict) (k k1 : List Byte) (v : Record)
    (m1 : Record) (b : Bool) (t1 : List Event)
    (hnn : ∀ e ∈ d, e.2 ≠ none) (hne : k ≠ k1)
    (h1 : RS_HashSetRecordSet E (.hashSetRecord d) k (some v) = .ok (m1, b, t1)) :
    RS_HashSetRecordGet m1 k = .ok (some v)
    ∧ RS_HashSetRecordGet m1 k1 = RS_HashSetRecordGet (.hashSetRecord d) k1
    ∧ ∀ k0, RS_HashSetRecordGet (.hashSetRecord d) k0 = .ok none ↔ dictFind d k0 = none := by
  obtain ⟨hm1, _, _⟩ := hashSetRecordSet_returned E
    (fun e he => hnn e (dictFind_key he).2) h1
  subst hm1
  refine ⟨hashSetRecordGet_after_set d k (some v), ?_,
    fun k0 => hashSetRecordGet_none_iff d k0 hnn⟩
  simp only [RS_HashSetRecordGet, dictFind_after_set_other d k k1 (some v) hne]

/-- The amended C11 at the map holding the Integer 1 under "a", for a set of
"b" to the Integer 2. -/
theorem hashSet_get_frame_witness :
    (∀ e ∈ ([([97], some (.longRecord 1))] : dict), e.2 ≠ none) ∧ ([98] : List Byte) ≠ [97]
    ∧ RS_HashSetRecordSet stdEnv (.hashSetRecord [([97], some (.longRecord 1))]) [98]
        (some (.longRecord 2))
        = .ok (.hashSetRecord [([97], some (.longRecord 1)), ([98], some (.longRecord 2))],
            true, [])
    ∧ RS_HashSetRecordGet
        (.hashSetRecord [([97], some (.longRecord 1)), ([98], some (.longRecord 2))]) [97]
        = RS_HashSetRecordGet (.hashSetRecord [([97], some (.longRecord 1))]) [97] := by
  have hnn : ∀ e ∈ ([([97], some (.longRecord 1))] : dict), e.2 ≠ none := by
    intro e he
    rw [List.mem_singleton.mp he]
    simp
  exact ⟨hnn, by decide, rfl,
    (hashSet_get_frame stdEnv [([97], some (.longRecord 1))] [98] [97] (.longRecord 2) _ _ _
      hnn (by decide) rfl).2.1⟩

/-- C20: for every StringMap without an entry for `k`,
`RS_HashSetRecordSet(m,k,NULL)` is not rejected: it returns success and adds
an entry holding NULL.  Afterwards `RS_HashSetRecordGet(m,k)` returns 0, the
absent result, although the keys of `RS_HashSetRecordGetAllKeys` contain `k`,
and `RS_HashSetRecordSet(m,k,v)` with a value `v` returns failure, releases
nothing and leaves the map as it is, the entry of `k` still holding NULL. -/
theorem hashSet_null_value (E : Env) (d : dict) (k : List Byte) (v : Record)
    (h : dictFind d k = none) :
    RS_HashSetRecordSet E (.hashSetRecord d) k none
      = .ok (.hashSetRecord (d ++ [(k, none)]), true, [])
    ∧ RS_HashSetRecordGet (.hashSetRecord (d ++ [(k, none)])) k = .ok none
    ∧ (∃ keys, RS_HashSetRecordGetAllKeys (.hashSetRecord (d ++ [(k, none)])) = .ok keys
        ∧ k ∈ keys)
    ∧ RS_HashSetRecordSet E (.hashSetRecord (d ++ [(k, none)])) k (some v)
      = .ok (.hashSetRecord (d ++ [(k, none)]), false, [])
    ∧ dictFind (d ++ [(k, none)]) k = some (k, none) := by
  have hf := dictFind_append_new none h
  refine ⟨?_, ?_, ⟨_, hashSetRecordGetAllKeys_eq _, by simp⟩, ?_, hf⟩
  · rw [hashSetRecordSet_absent E none h, dictDelete_eq_self h]
  · simp [RS_HashSetRecordGet, hf]
  · simp [RS_HashSetRecordSet, RS_HashSetRecordGet, hf, dictAdd]

/-- C20 at a fresh map and the key "a". -/
theorem hashSet_null_value_witness :
    dictFind [] [97] = none
    ∧ RS_HashSetRecordSet stdEnv (.hashSetRecord []) [97] none
      = .ok (.hashSetRecord [([97], none)], true, [])
    ∧ RS_HashSetRecordSet stdEnv (.hashSetRecord [([97], none)]) [97] (some (.longRecord 1))
      = .ok (.hashSetRecord [([97], none)], false, []) :=
  ⟨rfl, (hashSet_null_value stdEnv [] [97] (.longRecord 1) rfl).1,
    (hashSet_null_value stdEnv [] [97] (.longRecord 1) rfl).2.2.2.1⟩

/-! ## C12: length and indexed access of a list -/

/-- C12: for every capacity and every sequence of values appended to a fresh
list with `RS_ListRecordAdd`: `RS_ListRecordLen` returns their number,
`RS_ListRecordGet(i)` returns the `i`-th of them for every index below that
number and stops on its assertion for every other index; one more
`RS_ListRecordAdd` makes the length one more and leaves what
`RS_ListRecordGet` returns at the earlier indices unchanged. -/
theorem list_add_get (initSize : Nat) (es : List Record) :
    ∃ l, listAddAll (RS_ListRecordCreate initSize) es = .ok l
      ∧ RS_ListRecordLen l = .ok es.length
      ∧ (∀ i (h : i < es.length), RS_ListRecordGet l i = .ok (es.get ⟨i, h⟩))
      ∧ (∀ i, es.length ≤ i → RS_ListRecordGet l i = .error .assertFailed)
      ∧ ∀ e, ∃ l1, RS_ListRecordAdd l e = .ok l1
          ∧ RS_ListRecordLen l1 = .ok (es.length + 1)
          ∧ ∀ i, i < es.length → RS_ListRecordGet l1 i = RS_ListRecordGet l i := by
  refine ⟨.listRecord es, ?_, rfl, ?_, ?_, ?_⟩
  · have := listAddAll_eq [] es
    simpa [RS_ListRecordCreate, array_new] using this
  · intro i h
    simp [RS_ListRecordGet, List.getElem?_eq_getElem h]
  · intro i h
    simp [RS_ListRecordGet, List.getElem?_eq_none h]
  · intro e
    refine ⟨.listRecord (es ++ [e]), rfl, by simp [RS_ListRecordLen, array_len], ?_⟩
    intro i h
    simp [RS_ListRecordGet, List.getElem?_append_left h]

/-! ## C16: the Float payload on the wire -/

theorem roundMagnitude_small (a : Nat) (h : a < 9007199254740992) : roundMagnitude a = a := by
  have h0 : excessBits a = 0 := by
    unfold excessBits
    rw [excessFrom, if_pos h]
  unfold roundMagnitude
  simp only [h0, if_true]

theorem longToDouble_exact (n : Int) (h1 : -9223372036854775808 ≤ n)
    (h2 : n < 9223372036854775808) (hm : roundMagnitude n.natAbs = n.natAbs) :
    longToDouble (toLong n) = .finite n 0 := by
  rw [toLong_of_range n h1 h2]
  unfold longToDouble
  rw [hm]
  split
  · rename_i hneg
    have h3 : -(n.natAbs : Int) = n := by omega
    rw [h3]
  · rename_i hneg
    have h3 : (n.natAbs : Int) = n := by omega
    rw [h3]

theorem truncation_exact (num : Int) (scale : Nat)
    (hb : (Double.finite num scale).isBinary64 = true)
    (hmag : num.natAbs < 9223372036854775808 * 2 ^ scale) :
    (Int.tdiv num (2 ^ scale)).natAbs < 9223372036854775808
    ∧ roundMagnitude (Int.tdiv num (2 ^ scale)).natAbs = (Int.tdiv num (2 ^ scale)).natAbs := by
  have hpos : 0 < 2 ^ scale := Nat.pos_pow_of_pos scale (by norm_num)
  have habs : (Int.tdiv num (2 ^ scale)).natAbs = num.natAbs / 2 ^ scale := by
    rw [Int.natAbs_tdiv]
    have : ((2 : Int) ^ scale).natAbs = 2 ^ scale := by
      rw [Int.natAbs_pow]
      rfl
    rw [this]
    rfl
  have hlt : num.natAbs / 2 ^ scale < 9223372036854775808 := by
    rw [Nat.div_lt_iff_lt_mul hpos]
    exact hmag
  refine ⟨by rw [habs]; exact hlt, ?_⟩
  rw [habs]
  cases scale with
  | zero =>
    simp only [pow_zero, Nat.div_one] at hlt ⊢
    have hb1 : num.natAbs % 2 ^ excessFrom 971 num.natAbs = 0
        ∧ num.natAbs / 2 ^ excessFrom 971 num.natAbs < 2 ^ 53 := by
      simpa [Double.isBinary64] using hb
    exact roundMagnitude_exact num.natAbs (by omega)
      ⟨excessFrom 971 num.natAbs, by have := excessFrom_le 971 num.natAbs; omega, hb1.1, hb1.2⟩
  | succ k =>
    have hb1 : num.natAbs < 2 ^ 53 := by
      have := hb
      simp only [Double.isBinary64, decide_eq_true_eq] at this
      exact this.2.1
    apply roundMagnitude_small
    have hle : num.natAbs / 2 ^ (k + 1) ≤ num.natAbs := Nat.div_le_self _ _
    have h53 : (2 : Nat) ^ 53 = 9007199254740992 := by norm_num
    omega

/-- C16: for every Float value `num / 2^scale` that a binary64 `double` holds
and whose magnitude is below 2^63, `RS_SerializeRecord` writes the Float type
followed by the `long` obtained by truncating the value toward zero, and
`RS_DeserializeRecord` of those bytes returns a Float (not an Integer) whose
value is that truncation; the value read back is the value written exactly
when the value written is integer-valued.  (The sign of a zero is not part
of the value.) -/
theorem float_codec (E : Env) (bw : BufferWriter) (num : Int) (scale : Nat)
    (hb : (Double.finite num scale).isBinary64 = true)
    (hmag : num.natAbs < 9223372036854775808 * 2 ^ scale) :
    RS_SerializeRecord E bw (.doubleRecord (.finite num scale))
      = (bw ++ (longBytes (E.tag .DOUBLE_RECORD) ++ longBytes (Int.tdiv num (2 ^ scale))), none)
    ∧ RS_DeserializeRecord E (longBytes (E.tag .DOUBLE_RECORD)
          ++ longBytes (Int.tdiv num (2 ^ scale)))
      = .ok (.doubleRecord (.finite (Int.tdiv num (2 ^ scale)) 0), [])
    ∧ RS_RecordGetType (.doubleRecord (.finite (Int.tdiv num (2 ^ scale)) 0)) = .DOUBLE_RECORD
    ∧ (Record.doubleRecord (.finite (Int.tdiv num (2 ^ scale)) 0)
          = .doubleRecord (.finite num scale)
        ↔ (Double.finite num scale).isIntegral = true) := by
  obtain ⟨hr, hm⟩ := truncation_exact num scale hb hmag
  have h1 : -9223372036854775808 ≤ Int.tdiv num (2 ^ scale) := by omega
  have h2 : Int.tdiv num (2 ^ scale) < 9223372036854775808 := by omega
  refine ⟨?_, ?_, rfl, ?_⟩
  · simp [RS_SerializeRecord, doubleToLong, h1, h2, RediStar_BWWriteLong_eq]
  · unfold RS_DeserializeRecord
    rw [deserializeDepth]
    have := deserializeBody_double E
      (deserializeDepth E (longBytes (E.tag .DOUBLE_RECORD)
        ++ longBytes (Int.tdiv num (2 ^ scale))).length)
      (longBytes (Int.tdiv num (2 ^ scale)) ++ [])
    rw [List.append_nil] at this
    rw [this]
    have hread := RediStar_BRReadLong_append (Int.tdiv num (2 ^ scale)) []
    rw [List.append_nil] at hread
    rw [hread]
    simp only [longToDouble_exact _ h1 h2 hm]
    rfl
  · constructor
    · intro h
      simp only [Record.doubleRecord.injEq, Double.finite.injEq] at h
      simp [Double.isIntegral, ← h.2]
    · intro h
      have hs : scale = 0 := by simpa [Double.isIntegral] using h
      subst hs
      simp

/-- C16 at the Float 3/2, written as the integer 1 and read back as the Float
1, and at the Float -7/4, read back as the Float -1. -/
theorem float_codec_witness :
    (Double.finite 3 1).isBinary64 = true
    ∧ (3 : Int).natAbs < 9223372036854775808 * 2 ^ 1
    ∧ RS_DeserializeRecord stdEnv (longBytes (stdEnv.tag .DOUBLE_RECORD)
          ++ longBytes (Int.tdiv 3 (2 ^ 1)))
      = .ok (.doubleRecord (.finite (Int.tdiv 3 (2 ^ 1)) 0), [])
    ∧ Int.tdiv 3 (2 ^ 1) = 1 ∧ Int.tdiv (-7) (2 ^ 2) = -1 :=
  ⟨by decide, by decide, (float_codec stdEnv [] 3 1 (by decide) (by decide)).2.1,
    by decide, by decide⟩

/-! ## C15: the layout of KeyedValue and List on the wire -/

theorem serializeRecords_flatten (E : Env) (rs : List Record)
    (h : ∀ r ∈ rs, (RS_SerializeRecord E [] r).2 = none) :
    serializeRecords E [] rs = ((rs.map (encode E)).flatten, none) := by
  induction rs with
  | nil => rfl
  | cons x xs ih =>
    rw [serializeRecords_cons E x xs (h x (List.mem_cons_self _ _)),
      ih (fun y hy => h y (List.mem_cons_of_mem _ hy))]
    simp

/-- C15, counterexample: the key is the three bytes "a", NUL, "b" with stored
length 3.  What is written for the key is the length 2 and the two bytes "a",
NUL: the byte "b" is not in the writer, and 26 bytes are written in all. -/
theorem serialize_layout_counterexample :
    RS_SerializeRecord stdEnv [] (.keyRecord (some [97, 0, 98]) 3 none)
      = (longBytes 6 ++ (longBytes 2 ++ ([97, 0] ++ longBytes 0)), none)
    ∧ (98 : Byte) ∉ (RS_SerializeRecord stdEnv [] (.keyRecord (some [97, 0, 98]) 3 none)).1
    ∧ (RS_SerializeRecord stdEnv [] (.keyRecord (some [97, 0, 98]) 3 none)).1.length = 26 :=
  ⟨rfl, by decide, rfl⟩

/-- C15, amended: for every KeyedValue whose key is set, with key bytes `k`,
any stored length and optional child `c`, `RS_SerializeRecord` writes exactly:
the KeyedValue type as an integer, then the key as a length-prefixed C string
(the number of bytes of `k` before its first NUL plus one, those bytes, and a
terminating NUL; the stored length is not used), then the integer 1 followed
by everything the serialization of `c` writes if `c` is present, or the
integer 0 and nothing else if `c` is absent.  For every List whose children
are all serialized without fault it writes the List type, the number of
children, then the encodings of the children concatenated in index order. -/
theorem serialize_layout (E : Env) (bw : BufferWriter) :
    (∀ k len, RS_SerializeRecord E bw (.keyRecord (some k) len none)
      = (bw ++ (longBytes (E.tag .KEY_RECORD) ++ (longBytes ((strlen k + 1 : Nat) : Int)
          ++ (cString k ++ [0] ++ longBytes 0))), none))
    ∧ (∀ k len c, RS_SerializeRecord E bw (.keyRecord (some k) len (some c))
      = (bw ++ (longBytes (E.tag .KEY_RECORD) ++ (longBytes ((strlen k + 1 : Nat) : Int)
          ++ (cString k ++ [0] ++ (longBytes 1 ++ encode E c)))),
        (RS_SerializeRecord E [] c).2))
    ∧ ∀ rs, (∀ r ∈ rs, (RS_SerializeRecord E [] r).2 = none) →
        RS_SerializeRecord E bw (.listRecord rs)
          = (bw ++ (longBytes (E.tag .LIST_RECORD) ++ (longBytes (rs.length : Int)
              ++ (rs.map (encode E)).flatten)), none) := by
  refine ⟨?_, ?_, ?_⟩
  · intro k len
    rw [RS_SerializeRecord_append, serialize_key_none_eq]
    simp [strlen]
  · intro k len c
    rw [RS_SerializeRecord_append, serialize_key_some_eq]
    simp [strlen]
  · intro rs h
    rw [RS_SerializeRecord_append, serialize_list_eq, serializeRecords_flatten E rs h]

/-- The amended C15 at the list of the Integer 1 and the Bytes "hi". -/
theorem serialize_layout_witness :
    (∀ r ∈ [Record.longRecord 1, .stringRecord [104, 105]],
      (RS_SerializeRecord stdEnv [] r).2 = none)
    ∧ RS_SerializeRecord stdEnv [] (.listRecord [.longRecord 1, .stringRecord [104, 105]])
      = (longBytes 5 ++ (longBytes 2 ++ ((longBytes 2 ++ longBytes 1)
          ++ (longBytes 4 ++ (longBytes 2 ++ [104, 105])))), none) := by
  have h : ∀ r ∈ [Record.longRecord 1, .stringRecord [104, 105]],
      (RS_SerializeRecord stdEnv [] r).2 = none := by
    intro r hr
    simp only [List.mem_cons, List.mem_singleton, List.not_mem_nil, or_false] at hr
    rcases hr with rfl | rfl <;> rfl
  refine ⟨h, ?_⟩
  rw [(serialize_layout stdEnv []).2.2 _ h]
  rfl

/-! ## C18: the key length of a deserialized KeyedValue -/

theorem keyLengthDerived_list (rs : List Record)
    (h : ∀ r ∈ rs, ∀ x ∈ r.subrecords, x.keyLengthDerived = true) :
    ∀ x ∈ (Record.listRecord rs).subrecords, x.keyLengthDerived = true := by
  intro x hx
  rw [Record.subrecords, List.mem_cons] at hx
  rcases hx with hx | hx
  · rw [hx]
    rfl
  · obtain ⟨r, hr, hxr⟩ := (mem_subrecordsOfList_iff rs x).mp hx
    exact h r hr x hxr

theorem keyLengthDerived_children
    {self : BufferReader → Except Fault (Record × BufferReader)}
    (hself : ∀ b r b1, self b = .ok (r, b1) → ∀ x ∈ r.subrecords, x.keyLengthDerived = true) :
    ∀ (n : Nat) (acc : List Record) (br : BufferReader) (r : Record) (br1 : BufferReader),
      (∀ a ∈ acc, ∀ x ∈ a.subrecords, x.keyLengthDerived = true) →
      deserializeChildren self n (.listRecord acc) br = .ok (r, br1) →
        ∀ x ∈ r.subrecords, x.keyLengthDerived = true := by
  intro n
  induction n with
  | zero =>
    intro acc br r br1 hacc h
    simp only [deserializeChildren, Except.ok.injEq, Prod.mk.injEq] at h
    rw [← h.1]
    exact keyLengthDerived_list acc hacc
  | succ n ih =>
    intro acc br r br1 hacc h
    rw [deserializeChildren] at h
    split at h
    · cases h
    · rename_i element br2 h1
      simp only [RS_ListRecordAdd, array_append] at h
      refine ih (acc ++ [element]) br2 r br1 ?_ h
      intro a ha
      rcases List.mem_append.mp ha with ha | ha
      · exact hacc a ha
      · rw [List.mem_singleton.mp ha]
        exact hself _ _ _ h1

theorem keyLengthDerived_body (E : Env)
    {self : BufferReader → Except Fault (Record × BufferReader)} {br br1 : BufferReader}
    {r : Record}
    (hself : ∀ b r b1, self b = .ok (r, b1) → ∀ x ∈ r.subrecords, x.keyLengthDerived = true)
    (h : deserializeBody E self br = .ok (r, br1)) :
    ∀ x ∈ r.subrecords, x.keyLengthDerived = true := by
  unfold deserializeBody at h
  split at h
  · cases h
  · split at h
    · split at h
      · cases h
      · simp only [Except.ok.injEq, Prod.mk.injEq] at h
        rw [← h.1]
        intro x hx
        simp only [RS_StringRecordCreate, Record.subrecords, List.mem_singleton] at hx
        rw [hx]
        rfl
    · split at h
      · split at h
        · cases h
        · simp only [Except.ok.injEq, Prod.mk.injEq] at h
          rw [← h.1]
          intro x hx
          simp only [RS_LongRecordCreate, Record.subrecords, List.mem_singleton] at hx
          rw [hx]
          rfl
      · split at h
        · split at h
          · cases h
          · simp only [Except.ok.injEq, Prod.mk.injEq] at h
            rw [← h.1]
            intro x hx
            simp only [RS_DoubleRecordCreate, Record.subrecords, List.mem_singleton] at hx
            rw [hx]
            rfl
        · split at h
          · split at h
            · cases h
            · exact keyLengthDerived_children hself _ _ _ _ _
                (by intro a ha; cases ha) h
          · split at h
            · split at h
              · cases h
              · split at h
                · cases h
                · rename_i key hdup
                  simp only [RS_KeyRecordSetKey, RS_KeyRecordCreate] at h
                  split at h
                  · cases h
                  · split at h
                    · split at h
                      · cases h
                      · rename_i val br4 hval
                        simp only [RS_KeyRecordSetVal, Except.ok.injEq, Prod.mk.injEq] at h
                        rw [← h.1]
                        intro x hx
                        rw [Record.subrecords, List.mem_cons] at hx
                        rcases hx with hx | hx
                        · rw [hx]
                          simp [Record.keyLengthDerived]
                        · exact hself _ _ _ hval x hx
                    · simp only [RS_KeyRecordSetVal, Except.ok.injEq, Prod.mk.injEq] at h
                      rw [← h.1]
                      intro x hx
                      simp only [Record.subrecords, List.mem_singleton] at hx
                      rw [hx]
                      simp [Record.keyLengthDerived]
            · split at h
              · cases h
              · split at h
                · split at h
                  · cases h
                  · simp only [Except.ok.injEq, Prod.mk.injEq] at h
                    rw [← h.1]
                    intro x hx
                    simp only [Record.subrecords, List.mem_singleton] at hx
                    rw [hx]
                    rfl
                · cases h

theorem keyLengthDerived_depth (E : Env) :
    ∀ (n : Nat) (br : BufferReader) (r : Record) (br1 : BufferReader),
      deserializeDepth E n br = .ok (r, br1) →
        ∀ x ∈ r.subrecords, x.keyLengthDerived = true := by
  intro n
  induction n with
  | zero => intro br r br1 h; cases h
  | succ n ih =>
    intro br r br1 h
    rw [deserializeDepth] at h
    exact keyLengthDerived_body E (fun b r1 b1 hb => ih b r1 b1 hb) h

theorem cString_nul_free (s : List Byte) : (0 : Byte) ∉ cString s := by
  intro h
  have := List.mem_takeWhile_imp h
  simp at this

theorem cString_length_le (s : List Byte) : (cString s).length ≤ s.length :=
  (List.takeWhile_sublist _).length_le

theorem deserialize_key_encoding (E : Env) (k : List Byte) (len : Nat) (c : Option Record)
    (rest : List Byte) (hk : k.length + 1 < 18446744073709551616)
    (hc : ∀ r, c = some r → r.wellTyped = true ∧ Record.Transmissible E r) :
    RS_DeserializeRecord E (encode E (.keyRecord (some k) len c) ++ rest)
      = .ok (.keyRecord (some (cString k)) (strlen k) c, rest) := by
  have hnul := cString_nul_free k
  have hlen : (cString k).length + 1 < 18446744073709551616 := by
    have := cString_length_le k
    omega
  unfold RS_DeserializeRecord
  rw [deserializeDepth]
  cases c with
  | none =>
    rw [encode, serialize_key_none_eq]
    simp only [List.append_assoc, List.append_nil]
    have := deserializeBody_key E (deserializeDepth E
      (longBytes (E.tag .KEY_RECORD) ++ (longBytes ((cString k ++ [0]).length : Int)
        ++ (cString k ++ ([0] ++ (longBytes 0 ++ rest))))).length) (cString k) rest hnul hlen 0
    simp only [List.append_assoc] at this
    rw [this]
    rfl
  | some r =>
    obtain ⟨hw, ht⟩ := hc r rfl
    obtain ⟨_, hrt⟩ := roundtrip_at_depth E r hw ht
    rw [encode, serialize_key_some_eq]
    simp only [List.append_assoc]
    have := deserializeBody_key E (deserializeDepth E
      (longBytes (E.tag .KEY_RECORD) ++ (longBytes ((cString k ++ [0]).length : Int)
        ++ (cString k ++ ([0] ++ (longBytes 1 ++ (encode E r ++ rest)))))).length)
      (cString k) (encode E r ++ rest) hnul hlen 1
    simp only [List.append_assoc] at this
    rw [this, hrt _ rest (by simp only [List.length_append, longBytes_length]; omega)]
    rfl

theorem withDerivedKeysOfList_eq (rs : List Record) :
    withDerivedKeysOfList rs = rs.map Record.withDerivedKeys := by
  induction rs with
  | nil => rfl
  | cons r rs ih => rw [withDerivedKeysOfList, ih, List.map_cons]

theorem cString_cString (k : List Byte) : cString (cString k) = cString k :=
  cString_of_nul_free _ (cString_nul_free k)

theorem serializeRecords_map_congr (E : Env) (g : Record → Record) (rs : List Record)
    (h : ∀ r ∈ rs, ∀ bw, RS_SerializeRecord E bw (g r) = RS_SerializeRecord E bw r) :
    ∀ bw, serializeRecords E bw (rs.map g) = serializeRecords E bw rs := by
  induction rs with
  | nil => intro bw; rfl
  | cons r rs ih =>
    intro bw
    simp only [List.map_cons, serializeRecords, h r (List.mem_cons_self _ _)]
    rcases RS_SerializeRecord E bw r with ⟨bw1, _ | f⟩
    · exact ih (fun x hx => h x (List.mem_cons_of_mem _ hx)) bw1
    · rfl

theorem withDerivedKeys_encodable (E : Env) (v : Record) :
    Record.Encodable E v →
      v.withDerivedKeys.wellTyped = true ∧ Record.Transmissible E v.withDerivedKeys
      ∧ ∀ bw, RS_SerializeRecord E bw v.withDerivedKeys = RS_SerializeRecord E bw v := by
  induction v using Record.induct with
  | hHandler h =>
    intro he
    exact absurd (he _ (Record.self_mem_subrecords _))
      (by simp [Record.isEncodableNode, Record.isTransmissibleNode])
  | hHash d _ =>
    intro he
    exact absurd (he _ (Record.self_mem_subrecords _))
      (by simp [Record.isEncodableNode, Record.isTransmissibleNode])
  | hLong n =>
    intro he
    have h0 := he _ (Record.self_mem_subrecords _)
    refine ⟨?_, ?_, fun _ => rfl⟩
    · rw [Record.wellTyped_iff]
      intro x hx
      simp only [Record.withDerivedKeys, Record.subrecords, List.mem_singleton] at hx
      rw [hx]
      exact h0.1
    · intro x hx
      simp only [Record.withDerivedKeys, Record.subrecords, List.mem_singleton] at hx
      rw [hx]
      exact h0.2
  | hDouble d =>
    intro he
    have h0 := he _ (Record.self_mem_subrecords _)
    refine ⟨?_, ?_, fun _ => rfl⟩
    · rw [Record.wellTyped_iff]
      intro x hx
      simp only [Record.withDerivedKeys, Record.subrecords, List.mem_singleton] at hx
      rw [hx]
      exact h0.1
    · intro x hx
      simp only [Record.withDerivedKeys, Record.subrecords, List.mem_singleton] at hx
      rw [hx]
      exact h0.2
  | hString s =>
    intro he
    have h0 := he _ (Record.self_mem_subrecords _)
    refine ⟨?_, ?_, fun _ => rfl⟩
    · rw [Record.wellTyped_iff]
      intro x hx
      simp only [Record.withDerivedKeys, Record.subrecords, List.mem_singleton] at hx
      rw [hx]
      exact h0.1
    · intro x hx
      simp only [Record.withDerivedKeys, Record.subrecords, List.mem_singleton] at hx
      rw [hx]
      exact h0.2
  | hPy o =>
    intro he
    have h0 := he _ (Record.self_mem_subrecords _)
    refine ⟨?_, ?_, fun _ => rfl⟩
    · rw [Record.wellTyped_iff]
      intro x hx
      simp only [Record.withDerivedKeys, Record.subrecords, List.mem_singleton] at hx
      rw [hx]
      exact h0.1
    · intro x hx
      simp only [Record.withDerivedKeys, Record.subrecords, List.mem_singleton] at hx
      rw [hx]
      exact h0.2
  | hList rs ih =>
    intro he
    have h0 := he _ (Record.self_mem_subrecords _)
    have hel : ∀ r ∈ rs, Record.Encodable E r :=
      fun r hr x hx => he x (Record.mem_subrecords_list hr hx)
    have hself : (Record.listRecord rs).withDerivedKeys
        = .listRecord (rs.map Record.withDerivedKeys) := by
      rw [Record.withDerivedKeys, withDerivedKeysOfList_eq]
    have hsub : ∀ x ∈ (Record.listRecord rs).withDerivedKeys.subrecords,
        x = .listRecord (rs.map Record.withDerivedKeys)
          ∨ ∃ r ∈ rs, x ∈ r.withDerivedKeys.subrecords := by
      intro x hx
      rw [hself, Record.subrecords, List.mem_cons, mem_subrecordsOfList_iff] at hx
      rcases hx with hx | ⟨r1, hr1, hx⟩
      · exact Or.inl hx
      · obtain ⟨r, hr, rfl⟩ := List.mem_map.mp hr1
        exact Or.inr ⟨r, hr, hx⟩
    refine ⟨?_, ?_, ?_⟩
    · rw [Record.wellTyped_iff]
      intro x hx
      rcases hsub x hx with rfl | ⟨r, hr, hx1⟩
      · have h1 : (Record.listRecord rs).fieldsInRange = true := h0.1
        simpa [Record.fieldsInRange] using h1
      · exact (Record.wellTyped_iff _).mp (ih r hr (hel r hr)).1 x hx1
    · intro x hx
      rcases hsub x hx with rfl | ⟨r, hr, hx1⟩
      · trivial
      · exact (ih r hr (hel r hr)).2.1 x hx1
    · intro bw
      rw [hself]
      simp only [RS_SerializeRecord, array_len, List.length_map]
      exact serializeRecords_map_congr E _ rs (fun r hr => (ih r hr (hel r hr)).2.2) _
  | hKeyNone key len =>
    intro he
    obtain ⟨k, rfl, hk⟩ := he _ (Record.self_mem_subrecords _)
    have hlen := cString_length_le k
    refine ⟨?_, ?_, ?_⟩
    · rw [Record.wellTyped_iff]
      intro x hx
      simp only [Record.withDerivedKeys, Option.map_some', Record.derivedLength,
        Record.subrecords, List.mem_singleton] at hx
      rw [hx]
      simp only [Record.fieldsInRange, strlen, Bool.and_eq_true, decide_eq_true_eq]
      omega
    · intro x hx
      simp only [Record.withDerivedKeys, Option.map_some', Record.derivedLength,
        Record.subrecords, List.mem_singleton] at hx
      rw [hx]
      exact ⟨cString k, rfl, cString_nul_free k, by rw [strlen, strlen, cString_cString]⟩
    · intro bw
      simp only [Record.withDerivedKeys, Option.map_some', RS_SerializeRecord,
        RediStar_BWWriteString, cString_cString]
  | hKeySome key len r ih =>
    intro he
    obtain ⟨k, rfl, hk⟩ := he _ (Record.self_mem_subrecords _)
    have hlen := cString_length_le k
    have her : Record.Encodable E r := fun x hx => he x (Record.mem_subrecords_key hx)
    obtain ⟨hw, ht, hs⟩ := ih her
    refine ⟨?_, ?_, ?_⟩
    · rw [Record.wellTyped_iff]
      intro x hx
      simp only [Record.withDerivedKeys, Option.map_some', Record.derivedLength,
        Record.subrecords, List.mem_cons] at hx
      rcases hx with hx | hx
      · rw [hx]
        simp only [Record.fieldsInRange, strlen, Bool.and_eq_true, decide_eq_true_eq]
        omega
      · exact (Record.wellTyped_iff _).mp hw x hx
    · intro x hx
      simp only [Record.withDerivedKeys, Option.map_some', Record.derivedLength,
        Record.subrecords, List.mem_cons] at hx
      rcases hx with hx | hx
      · rw [hx]
        exact ⟨cString k, rfl, cString_nul_free k, by rw [strlen, strlen, cString_cString]⟩
      · exact ht x hx
    · intro bw
      simp only [Record.withDerivedKeys, Option.map_some', RS_SerializeRecord,
        RediStar_BWWriteString, cString_cString, hs]

theorem deserialize_derives_keys (E : Env) (v : Record) (rest : List Byte)
    (he : Record.Encodable E v) :
    RS_DeserializeRecord E (encode E v ++ rest) = .ok (v.withDerivedKeys, rest) := by
  obtain ⟨hw, ht, hs⟩ := withDerivedKeys_encodable E v he
  have henc : encode E v = encode E v.withDerivedKeys := by
    unfold encode
    rw [hs]
  rw [henc]
  obtain ⟨_, h⟩ := roundtrip_at_depth E _ hw ht
  exact h _ rest (by simp only [List.length_append]; omega)

theorem nulKeyExample_encodable : Record.Encodable stdEnv nulKeyExample := by
  intro x hx
  simp only [nulKeyExample, Record.subrecords, subrecordsOfList, List.mem_cons,
    List.cons_append, List.nil_append, List.append_nil, List.mem_singleton,
    List.not_mem_nil, or_false] at hx
  rcases hx with rfl | rfl | rfl | rfl
  · exact ⟨_, rfl, by decide⟩
  · exact ⟨by decide, trivial⟩
  · exact ⟨by decide, trivial⟩
  · exact ⟨_, rfl, by decide⟩

/-- C18: in every record returned by `RS_DeserializeRecord`, every KeyedValue
(the record itself or one inside it) has a key that is set and a stored key
length equal to the string length of that key.  Whatever stored length a
serialized KeyedValue had, it does not come back: for every value that the
codec carries (KeyedValues with any key bytes and any stored length, with or
without a child, at any depth inside lists and keyed records), what is read
back from its encoding, before any `rest`, is the value with every key cut at
its first NUL byte and every stored key length equal to the number of bytes
before it, and nothing else changed.  So a KeyedValue whose key holds its
first NUL byte at position `p` (the length of `pre`), with any stored length
and any child, is read back with the `p` bytes before the NUL as key and `p`
as stored length. -/
theorem deserialized_key_length (E : Env) :
    (∀ br r br1, RS_DeserializeRecord E br = .ok (r, br1) →
      ∀ x ∈ r.subrecords, x.keyLengthDerived = true)
    ∧ (∀ v rest, Record.Encodable E v →
        RS_DeserializeRecord E (encode E v ++ rest) = .ok (v.withDerivedKeys, rest))
    ∧ ∀ (pre post : List Byte) (len : Nat) (c : Option Record) (rest : List Byte),
        (0 : Byte) ∉ pre → (pre ++ 0 :: post).length + 1 < 18446744073709551616 →
        (∀ r, c = some r → Record.Encodable E r) →
        RS_DeserializeRecord E (encode E (.keyRecord (some (pre ++ 0 :: post)) len c) ++ rest)
          = .ok (.keyRecord (some pre) pre.length (c.map Record.withDerivedKeys), rest) := by
  refine ⟨?_, ?_, ?_⟩
  · intro br r br1 h
    exact keyLengthDerived_depth E _ br r br1 h
  · intro v rest he
    exact deserialize_derives_keys E v rest he
  · intro pre post len c rest hpre hlen hc
    have he : Record.Encodable E (.keyRecord (some (pre ++ 0 :: post)) len c) := by
      intro x hx
      cases c with
      | none =>
        simp only [Record.subrecords, List.mem_singleton] at hx
        rw [hx]
        exact ⟨_, rfl, hlen⟩
      | some r =>
        simp only [Record.subrecords, List.mem_cons] at hx
        rcases hx with hx | hx
        · rw [hx]
          exact ⟨_, rfl, hlen⟩
        · exact hc r rfl x hx
    rw [deserialize_derives_keys E _ rest he]
    cases c <;>
      simp only [Record.withDerivedKeys, Option.map_some', Option.map_none',
        Record.derivedLength, strlen, cString_append_nul pre post hpre]

/-- C18 at a KeyedValue with the key "a", NUL, "b" and stored length 3 that
holds a list with the Integer 7 and a KeyedValue with the key NUL, "c" and
stored length 2: read back, the outer key is "a" with stored length 1 and the
inner key is empty with stored length 0. -/
theorem deserialized_key_length_witness :
    Record.Encodable stdEnv nulKeyExample
    ∧ RS_DeserializeRecord stdEnv (encode stdEnv nulKeyExample ++ [1, 2])
      = .ok (.keyRecord (some [97]) 1
          (some (.listRecord [.longRecord 7, .keyRecord (some []) 0 none])), [1, 2]) :=
  ⟨nulKeyExample_encodable,
    (deserialized_key_length stdEnv).2.1 nulKeyExample [1, 2] nulKeyExample_encodable⟩

/-! ## C19: the encoding is self-delimiting -/

theorem deserialize_encode_append (E : Env) (v : Record) (rest : List Byte)
    (hw : v.wellTyped = true) (ht : Record.Transmissible E v) :
    RS_DeserializeRecord E (encode E v ++ rest) = .ok (v, rest) := by
  obtain ⟨_, h⟩ := roundtrip_at_depth E v hw ht
  exact h _ rest (by simp only [List.length_append]; omega)

/-- C19, counterexample: the key "k" is set and has no NUL byte, but the
stored length is 5.  The value read back from the encoding, before any
`rest`, has stored length 1: it is not the value that was written. -/
theorem self_delimiting_counterexample :
    (0 : Byte) ∉ ([107] : List Byte)
    ∧ RS_DeserializeRecord stdEnv
        (encode stdEnv (.keyRecord (some [107]) 5 none) ++ [1, 2, 3])
      = .ok (.keyRecord (some [107]) 1 none, [1, 2, 3])
    ∧ Record.keyRecord (some [107]) 1 none ≠ .keyRecord (some [107]) 5 none :=
  ⟨by decide, rfl, by simp⟩

/-- C19, amended: for every value built from Integer, Bytes, List and
KeyedValue records with a set, NUL-free key whose stored length is the key's
string length (fields in the range of their C types), and every byte sequence
`rest`, `RS_DeserializeRecord` on the bytes written for the value followed by
`rest` returns the value itself and leaves the reader exactly at `rest`; so
the encodings of a sequence of such values, one after the other in one buffer,
are read back by as many calls as the same sequence of values. -/
theorem self_delimiting (E : Env) (vs : List Record) (rest : List Byte)
    (h : ∀ v ∈ vs, v.plain = true ∧ v.wellTyped = true) :
    (∀ v ∈ vs, ∀ rest1, RS_DeserializeRecord E (encode E v ++ rest1) = .ok (v, rest1))
    ∧ deserializeMany E vs.length ((vs.map (encode E)).flatten ++ rest) = .ok (vs, rest) := by
  have h1 : ∀ v ∈ vs, ∀ rest1, RS_DeserializeRecord E (encode E v ++ rest1) = .ok (v, rest1) :=
    fun v hv rest1 =>
      deserialize_encode_append E v rest1 (h v hv).2 (plain_transmissible E v (h v hv).1)
  refine ⟨h1, ?_⟩
  clear h
  induction vs with
  | nil => rfl
  | cons x xs ih =>
    simp only [List.map_cons, List.flatten_cons, List.append_assoc, List.length_cons,
      deserializeMany]
    rw [h1 x (List.mem_cons_self _ _)]
    simp only
    rw [ih (fun v hv => h1 v (List.mem_cons_of_mem _ hv))]

/-- The amended C19 at the nested example followed by the Integer 7 and three
more bytes. -/
theorem self_delimiting_witness :
    (∀ v ∈ [nestedExample, .longRecord 7], v.plain = true ∧ v.wellTyped = true)
    ∧ deserializeMany stdEnv 2
        (encode stdEnv nestedExample ++ (encode stdEnv (.longRecord 7) ++ [1, 2, 3]))
      = .ok ([nestedExample, .longRecord 7], [1, 2, 3]) := by
  have h : ∀ v ∈ [nestedExample, .longRecord 7], v.plain = true ∧ v.wellTyped = true := by
    intro v hv
    simp only [List.mem_cons, List.mem_singleton, List.not_mem_nil, or_false] at hv
    rcases hv with rfl | rfl <;> exact ⟨by decide, by decide⟩
  have := (self_delimiting stdEnv [nestedExample, .longRecord 7] [1, 2, 3] h).2
  simp only [List.map_cons, List.map_nil, List.flatten_cons, List.flatten_nil, List.append_nil,
    List.append_assoc, List.length_cons, List.length_nil] at this
  exact ⟨h, this⟩

/-! ## C13: the reference count of a ForeignObject -/

theorem deserializeChildrenTraced_eq
    (self : BufferReader → Except Fault (Record × BufferReader)) :
    ∀ (n : Nat) (acc : Record) (br : BufferReader),
      deserializeChildrenTraced (fun b => ([], self b)) n acc br
        = ([], deserializeChildren self n acc br) := by
  intro n
  induction n with
  | zero => intro acc br; rfl
  | succ n ih =>
    intro acc br
    rw [deserializeChildrenTraced, deserializeChildren]
    cases self br with
    | error f => rfl
    | ok p =>
      obtain ⟨element, br1⟩ := p
      simp only
      cases RS_ListRecordAdd acc element with
      | error f => rfl
      | ok r1 =>
        simp only
        rw [ih]
        rfl

theorem deserializeBodyTraced_eq (E : Env)
    (self : BufferReader → Except Fault (Record × BufferReader)) (br : BufferReader) :
    deserializeBodyTraced E (fun b => ([], self b)) br = ([], deserializeBody E self br) := by
  unfold deserializeBodyTraced deserializeBody
  cases RediStar_BRReadLong br with
  | error f => rfl
  | ok p =>
    obtain ⟨t, br1⟩ := p
    simp only
    split
    · cases RediStar_BRReadBuffer br1 with
      | error f => rfl
      | ok p => rfl
    split
    · cases RediStar_BRReadLong br1 with
      | error f => rfl
      | ok p => rfl
    split
    · cases RediStar_BRReadLong br1 with
      | error f => rfl
      | ok p => rfl
    split
    · cases RediStar_BRReadLong br1 with
      | error f => rfl
      | ok p => exact deserializeChildrenTraced_eq self _ _ _
    split
    · cases RediStar_BRReadString br1 with
      | error f => rfl
      | ok p =>
        obtain ⟨span, br2⟩ := p
        simp only
        cases RS_STRDUP span with
        | error f => rfl
        | ok key =>
          simp only [RS_KeyRecordSetKey, RS_KeyRecordCreate, RS_KeyRecordSetVal]
          cases RediStar_BRReadLong br2 with
          | error f => rfl
          | ok p =>
            obtain ⟨flag, br3⟩ := p
            simp only
            split
            · cases self br3 with
              | error f => rfl
              | ok p => rfl
            · rfl
    split
    · rfl
    split
    · cases E.pyDeserialize br1 with
      | error f => rfl
      | ok p => rfl
    · rfl

theorem deserializeDepthTraced_eq (E : Env) (n : Nat) :
    deserializeDepthTraced E n = fun br => ([], deserializeDepth E n br) := by
  induction n with
  | zero => rfl
  | succ n ih =>
    funext br
    rw [deserializeDepthTraced, deserializeDepth, ih, deserializeBodyTraced_eq]

/-- The function `RS_DeserializeRecord` performs no release and no
reference-count operation, whatever the stream. -/
theorem RS_DeserializeRecordTraced_eq (E : Env) (br : BufferReader) :
    RS_DeserializeRecordTraced E br = ([], RS_DeserializeRecord E br) := by
  unfold RS_DeserializeRecordTraced RS_DeserializeRecord
  rw [deserializeDepthTraced_eq]

/-- C13, counterexample: from the stream of a ForeignObject (type 9, then what
the hook takes) `RS_DeserializeRecord` returns the record holding the object 7
that the hook built and performs no operation at all on reference counts: a
count of 1 is still 1.  Wrapping the object with `RS_PyObjRecordSet` is what
would have incremented it, to 2. -/
theorem foreign_refcount_counterexample :
    RS_DeserializeRecordTraced stdEnv (longBytes 9 ++ longBytes 7)
      = ([], .ok (.pyRecord (some 7), []))
    ∧ countsAfter (fun _ => 1)
        (RS_DeserializeRecordTraced stdEnv (longBytes 9 ++ longBytes 7)).1 7 = 1
    ∧ RS_PyObjRecordSet RS_PyObjRecordCreate (some 7)
      = .ok (.pyRecord (some 7), [.pyIncref 7])
    ∧ countsAfter (fun _ => 1) [.pyIncref 7] 7 = 2 :=
  ⟨rfl, rfl, rfl, rfl⟩

/-- C13, amended: with the reference counts as explicit state (and Python
compiled in): `RS_PyObjRecordSet` increments the count of the attached object
by exactly one and no other count; `RS_FreeRecord` of a ForeignObject value
decrements the count of its object by exactly one and no other count;
`RS_DeserializeRecord` of a ForeignObject stores the object returned by the
hook as it is and performs no reference-count operation.  Hence what
`record.c` itself does over an attach, a deserialization and one destroy of
each of the two values is one increment and one decrement of the attached
object and one decrement of the object the hook returned: the counts are net
unchanged when that last decrement is matched by a reference handed over by
the hook, not by an increment in `RS_DeserializeRecord`. -/
theorem foreign_refcount (E : Env) (counts : PyObject → Int) (obj : PyObject)
    (hpy : E.withPython = true) :
    (∀ old, ∃ evs, RS_PyObjRecordSet (.pyRecord old) (some obj) = .ok (.pyRecord (some obj), evs)
      ∧ ∀ x, countsAfter counts evs x = counts x + (if x = obj then 1 else 0))
    ∧ (∃ evs, RS_FreeRecord E (.pyRecord (some obj)) = (evs, none)
      ∧ ∀ x, countsAfter counts evs x = counts x - (if x = obj then 1 else 0))
    ∧ (∀ br t br1 o used, RediStar_BRReadLong br = .ok (t, br1) →
        toEnum t = E.tag .PY_RECORD → E.pyDeserialize br1 = .ok (o, used) →
        RS_DeserializeRecordTraced E br = ([], .ok (.pyRecord o, br1.drop used)))
    ∧ ∀ br obj1 br1, RS_DeserializeRecord E br = .ok (.pyRecord (some obj1), br1) →
        ∀ x, countsAfter counts
            ([.pyIncref obj] ++ (RS_DeserializeRecordTraced E br).1
              ++ (RS_FreeRecord E (.pyRecord (some obj))).1
              ++ (RS_FreeRecord E (.pyRecord (some obj1))).1) x
          = counts x - (if x = obj1 then 1 else 0) := by
  refine ⟨?_, ?_, ?_, ?_⟩
  · intro old
    refine ⟨[.pyIncref obj], rfl, ?_⟩
    intro x
    by_cases h : obj = x
    · simp [countsAfter, Event.countChange, h]
    · have h1 : ¬ x = obj := fun h2 => h h2.symm
      simp [countsAfter, Event.countChange, h, h1]
  · refine ⟨[.pyDecref obj, .freeRecord (.pyRecord (some obj))], ?_, ?_⟩
    · simp [RS_FreeRecord, hpy]
    · intro x
      by_cases h : obj = x
      · simp [countsAfter, Event.countChange, h]
        omega
      · have h1 : ¬ x = obj := fun h2 => h h2.symm
        simp [countsAfter, Event.countChange, h, h1]
  · intro br t br1 o used ht hty hhook
    rw [RS_DeserializeRecordTraced_eq, RS_DeserializeRecord_eq]
    unfold deserializeBody
    rw [ht]
    simp only [hty, Env.tag_eq_iff, reduceCtorEq, if_false, hpy, and_self, if_true, hhook]
  · intro br obj1 br1 _ x
    rw [RS_DeserializeRecordTraced_eq]
    simp only [RS_FreeRecord, hpy, if_true, List.append_nil, countsAfter, List.map_append,
      List.map_cons, List.map_nil, List.sum_append, List.sum_cons, List.sum_nil,
      Event.countChange, List.nil_append]
    split_ifs <;>
      first
        | omega
        | exact absurd (Eq.symm (by assumption)) (by assumption)

/-- The amended C13 in the example environment, for the object 7 and a count
of 1: attached, the count is 2; after the destroy of that value it is 1
again; read from a stream, the object is stored without any operation on the
counts. -/
theorem foreign_refcount_witness :
    stdEnv.withPython = true
    ∧ (∃ evs, RS_PyObjRecordSet (.pyRecord none) (some 7) = .ok (.pyRecord (some 7), evs)
      ∧ ∀ x, countsAfter (fun _ => 1) evs x = 1 + (if x = 7 then 1 else 0))
    ∧ (∃ evs, RS_FreeRecord stdEnv (.pyRecord (some 7)) = (evs, none)
      ∧ ∀ x, countsAfter (fun _ => 2) evs x = 2 - (if x = 7 then 1 else 0))
    ∧ RS_DeserializeRecordTraced stdEnv (longBytes 9 ++ longBytes 7)
      = ([], .ok (.pyRecord (some 7), (longBytes 7).drop 8)) :=
  ⟨rfl, (foreign_refcount stdEnv (fun _ => 1) 7 rfl).1 none,
    (foreign_refcount stdEnv (fun _ => 2) 7 rfl).2.1,
    (foreign_refcount stdEnv (fun _ => 1) 7 rfl).2.2.1 (longBytes 9 ++ longBytes 7) 9
      (longBytes 7) (some 7) 8 rfl rfl rfl⟩

/-! ## C17: teardown -/

theorem mem_subrecordsOfDict {d : dict} {e : List Byte × Option Record} {r x : Record}
    (he : e ∈ d) (hr : e.2 = some r) (hx : x ∈ r.subrecords) : x ∈ subrecordsOfDict d := by
  induction d with
  | nil => cases he
  | cons y ys ih =>
    obtain ⟨k, o⟩ := y
    rcases List.mem_cons.mp he with h | h
    · subst h
      simp only at hr
      subst hr
      rw [subrecordsOfDict]
      exact List.mem_append_left _ hx
    · cases o with
      | none =>
        rw [subrecordsOfDict]
        exact ih h
      | some r1 =>
        rw [subrecordsOfDict]
        exact List.mem_append_right _ (ih h)

theorem Record.releasable_iff (E : Env) (r : Record) :
    r.releasable E = true ↔ ∀ x ∈ r.subrecords, x.isReleasableNode E = true := by
  simp [Record.releasable, List.all_eq_true]

theorem freeRecords_order (E : Env) (rs : List Record)
    (h : ∀ r ∈ rs, (RS_FreeRecord E r).2 = none
      ∧ (RS_FreeRecord E r).1.filter Event.isNodeRelease
        = (r.postorder.map Record.nodeReleases).flatten) :
    (freeRecords E rs).2 = none
    ∧ (freeRecords E rs).1.filter Event.isNodeRelease
      = ((postorderOfList rs).map Record.nodeReleases).flatten := by
  induction rs with
  | nil => exact ⟨rfl, rfl⟩
  | cons x xs ih =>
    obtain ⟨hx1, hx2⟩ := h x (List.mem_cons_self _ _)
    obtain ⟨ih1, ih2⟩ := ih (fun y hy => h y (List.mem_cons_of_mem _ hy))
    rw [freeRecords, postorderOfList]
    cases hfx : RS_FreeRecord E x with
    | mk evs f =>
      rw [hfx] at hx1 hx2
      simp only at hx1 hx2
      subst hx1
      simp only
      cases hfxs : freeRecords E xs with
      | mk evs1 f1 =>
        rw [hfxs] at ih1 ih2
        simp only at ih1 ih2
        subst ih1
        simp only [List.filter_append, hx2, ih2, List.map_append, List.flatten_append,
          and_self]

theorem freeEntries_order (E : Env) (d : dict)
    (hsome : ∀ e ∈ d, e.2 ≠ none)
    (h : ∀ e ∈ d, ∀ r, e.2 = some r → (RS_FreeRecord E r).2 = none
      ∧ (RS_FreeRecord E r).1.filter Event.isNodeRelease
        = (r.postorder.map Record.nodeReleases).flatten) :
    (freeEntries E d).2 = none
    ∧ (freeEntries E d).1.filter Event.isNodeRelease
      = ((postorderOfDict d).map Record.nodeReleases).flatten := by
  induction d with
  | nil => exact ⟨rfl, rfl⟩
  | cons x xs ih =>
    obtain ⟨k, o⟩ := x
    cases o with
    | none => exact absurd rfl (hsome _ (List.mem_cons_self _ _))
    | some r =>
      obtain ⟨hx1, hx2⟩ := h _ (List.mem_cons_self _ _) r rfl
      obtain ⟨ih1, ih2⟩ := ih (fun y hy => hsome y (List.mem_cons_of_mem _ hy))
        (fun y hy => h y (List.mem_cons_of_mem _ hy))
      rw [freeEntries, postorderOfDict]
      cases hfx : RS_FreeRecord E r with
      | mk evs f =>
        rw [hfx] at hx1 hx2
        simp only at hx1 hx2
        subst hx1
        simp only
        cases hfxs : freeEntries E xs with
        | mk evs1 f1 =>
          rw [hfxs] at ih1 ih2
          simp only at ih1 ih2
          subst ih1
          simp only [List.filter_append, hx2, ih2, List.map_append, List.flatten_append,
            and_self]

/-- On every tree in which each ForeignObject holds an object (Python being
compiled in) and no entry of a StringMap holds NULL, `RS_FreeRecord`
completes, and its closes of handles, releases of foreign objects and releases
of record storage are those of the records of the tree, each record after all
the records inside it, list children in index order. -/
theorem RS_FreeRecord_order (E : Env) (v : Record) :
    v.releasable E = true →
      (RS_FreeRecord E v).2 = none
      ∧ (RS_FreeRecord E v).1.filter Event.isNodeRelease
        = (v.postorder.map Record.nodeReleases).flatten := by
  induction v using Record.induct with
  | hHandler h => intro _; exact ⟨rfl, rfl⟩
  | hLong n => intro _; exact ⟨rfl, rfl⟩
  | hDouble x => intro _; exact ⟨rfl, rfl⟩
  | hString s => intro _; exact ⟨rfl, rfl⟩
  | hPy o =>
    intro h
    have hn := (Record.releasable_iff E _).mp h _ (Record.self_mem_subrecords _)
    simp only [Record.isReleasableNode, Bool.and_eq_true, Option.isSome_iff_exists] at hn
    obtain ⟨hpy, obj, rfl⟩ := hn
    simp [RS_FreeRecord, hpy, Record.postorder, Record.nodeReleases, Event.isNodeRelease]
  | hKeyNone key len =>
    intro _
    cases key <;>
      simp [RS_FreeRecord, Record.postorder, Record.nodeReleases, Event.isNodeRelease]
  | hKeySome key len r ih =>
    intro h
    obtain ⟨ih1, ih2⟩ := ih (by
      rw [Record.releasable_iff] at h ⊢
      exact fun x hx => h x (Record.mem_subrecords_key hx))
    cases hfr : RS_FreeRecord E r with
    | mk evs f =>
      rw [hfr] at ih1 ih2
      simp only at ih1 ih2
      subst ih1
      cases key <;>
        simp [RS_FreeRecord, hfr, Record.postorder, List.filter_append, ih2,
          Record.nodeReleases, Event.isNodeRelease]
  | hList rs ih =>
    intro h
    obtain ⟨h1, h2⟩ := freeRecords_order E rs (fun r hr => ih r hr (by
      rw [Record.releasable_iff] at h ⊢
      exact fun x hx => h x (Record.mem_subrecords_list hr hx)))
    rw [RS_FreeRecord, Record.postorder]
    cases hfr : freeRecords E rs with
    | mk evs f =>
      rw [hfr] at h1 h2
      simp only at h1 h2
      subst h1
      simp [List.filter_append, h2, Record.nodeReleases, Event.isNodeRelease]
  | hHash d ih =>
    intro h
    have hn := (Record.releasable_iff E _).mp h _ (Record.self_mem_subrecords _)
    simp only [Record.isReleasableNode, List.all_eq_true, Option.isSome_iff_exists] at hn
    have hsome : ∀ e ∈ d, e.2 ≠ none := by
      intro e he hnone
      obtain ⟨a, ha⟩ := hn e he
      rw [hnone] at ha
      cases ha
    obtain ⟨h1, h2⟩ := freeEntries_order E d hsome (fun e he r hr => ih e he r hr (by
      rw [Record.releasable_iff] at h ⊢
      intro x hx
      apply h
      rw [Record.subrecords]
      exact List.mem_cons_of_mem _ (mem_subrecordsOfDict he hr hx)))
    rw [RS_FreeRecord, Record.postorder]
    cases hfr : freeEntries E d with
    | mk evs f =>
      rw [hfr] at h1 h2
      simp only at h1 h2
      subst h1
      simp [List.filter_append, h2, Record.nodeReleases, Event.isNodeRelease]

theorem postorderOfList_perm (rs : List Record)
    (h : ∀ r ∈ rs, r.postorder.Perm r.subrecords) :
    (postorderOfList rs).Perm (subrecordsOfList rs) := by
  induction rs with
  | nil => exact List.Perm.refl _
  | cons x xs ih =>
    rw [postorderOfList, subrecordsOfList]
    exact List.Perm.append (h x (List.mem_cons_self _ _))
      (ih (fun y hy => h y (List.mem_cons_of_mem _ hy)))

theorem postorderOfDict_perm (d : dict)
    (h : ∀ e ∈ d, ∀ r, e.2 = some r → r.postorder.Perm r.subrecords) :
    (postorderOfDict d).Perm (subrecordsOfDict d) := by
  induction d with
  | nil => exact List.Perm.refl _
  | cons x xs ih =>
    obtain ⟨k, o⟩ := x
    have ih1 := ih (fun y hy => h y (List.mem_cons_of_mem _ hy))
    cases o with
    | none =>
      rw [postorderOfDict, subrecordsOfDict]
      exact ih1
    | some r =>
      rw [postorderOfDict, subrecordsOfDict]
      exact List.Perm.append (h _ (List.mem_cons_self _ _) r rfl) ih1

/-- The order of teardown lists every record of the tree exactly once. -/
theorem Record.postorder_perm (v : Record) : v.postorder.Perm v.subrecords := by
  induction v using Record.induct with
  | hHandler h => exact List.Perm.refl _
  | hLong n => exact List.Perm.refl _
  | hDouble x => exact List.Perm.refl _
  | hString s => exact List.Perm.refl _
  | hPy o => exact List.Perm.refl _
  | hKeyNone key len => exact List.Perm.refl _
  | hKeySome key len r ih =>
    rw [Record.postorder, Record.subrecords]
    exact (List.perm_append_singleton _ _).trans (List.Perm.cons _ ih)
  | hList rs ih =>
    rw [Record.postorder, Record.subrecords]
    exact (List.perm_append_singleton _ _).trans (List.Perm.cons _ (postorderOfList_perm rs ih))
  | hHash d ih =>
    rw [Record.postorder, Record.subrecords]
    exact (List.perm_append_singleton _ _).trans (List.Perm.cons _ (postorderOfDict_perm d ih))

theorem freeRecords_stops (E : Env) (x : Record) (f : Fault) (evx : List Event)
    (after : List Record) (hx : RS_FreeRecord E x = (evx, some f)) :
    ∀ before, (freeRecords E before).2 = none →
      freeRecords E (before ++ x :: after) = ((freeRecords E before).1 ++ evx, some f) := by
  intro before
  induction before with
  | nil =>
    intro _
    simp [freeRecords, hx]
  | cons b bs ih =>
    intro hb
    rw [freeRecords] at hb
    rw [List.cons_append, freeRecords, freeRecords]
    cases hfb : RS_FreeRecord E b with
    | mk evs fo =>
      rw [hfb] at hb
      cases fo with
      | some f1 => simp at hb
      | none =>
        simp only at hb ⊢
        rw [ih hb]
        simp

/-- C17, the failing input: the ForeignObject value that `RS_PyObjRecordCreate`
returns holds no object yet, and `RS_FreeRecord` of it stops in `Py_DECREF`
on the NULL object: nothing is released, not even the record's own storage.
The sibling case does what this one misses: the KeyedValue that
`RS_KeyRecordCreate` returns, with its key and its value NULL, is torn down
(both fields are tested before they are used).  A ForeignObject that holds an
object is torn down as the claim says, by one release of the object and then
the release of the record.  Inside a list, a ForeignObject without object
stops the teardown of the whole tree: the children before it are torn down,
and neither the children after it nor the list are released. -/
theorem freeRecord_fresh_foreignObject (E : Env) (h : E.withPython = true) :
    RS_FreeRecord E RS_PyObjRecordCreate = ([], some .undefinedBehaviour)
    ∧ RS_FreeRecord E RS_KeyRecordCreate = ([.freeRecord RS_KeyRecordCreate], none)
    ∧ (∀ obj : PyObject, RS_FreeRecord E (.pyRecord (some obj))
        = ([.pyDecref obj, .freeRecord (.pyRecord (some obj))], none))
    ∧ ∀ (before after : List Record), (freeRecords E before).2 = none →
        RS_FreeRecord E (.listRecord (before ++ RS_PyObjRecordCreate :: after))
          = ((freeRecords E before).1, some .undefinedBehaviour) := by
  have hfresh : RS_FreeRecord E RS_PyObjRecordCreate = ([], some .undefinedBehaviour) := by
    simp [RS_PyObjRecordCreate, RS_FreeRecord, h]
  refine ⟨hfresh, rfl, ?_, ?_⟩
  · intro obj
    simp [RS_FreeRecord, h]
  · intro before after hb
    rw [RS_FreeRecord, freeRecords_stops E _ _ _ after hfresh before hb]
    simp

/-- C17 with Python compiled in, at the list of the Integer 1, a ForeignObject
fresh from `RS_PyObjRecordCreate` and the Integer 2: only the Integer 1 is
released. -/
theorem freeRecord_fresh_foreignObject_witness :
    stdEnv.withPython = true
    ∧ RS_FreeRecord stdEnv RS_PyObjRecordCreate = ([], some .undefinedBehaviour)
    ∧ RS_FreeRecord stdEnv (.listRecord [.longRecord 1, RS_PyObjRecordCreate, .longRecord 2])
      = ([.freeRecord (.longRecord 1)], some .undefinedBehaviour) :=
  ⟨rfl, (freeRecord_fresh_foreignObject stdEnv rfl).1,
    (freeRecord_fresh_foreignObject stdEnv rfl).2.2.2 [.longRecord 1] [.longRecord 2] rfl⟩

/-! ## C14: truncated streams and counts that are too large -/

theorem RediStar_BRReadLong_short {s : List Byte} (h : s.length < 8) :
    RediStar_BRReadLong s = .error .undefinedBehaviour := by
  unfold RediStar_BRReadLong
  rw [if_neg (by omega)]

theorem RediStar_BRReadLong_take {s s1 : List Byte} {v : Int}
    (h : RediStar_BRReadLong s = .ok (v, s1)) (n : Nat) :
    RediStar_BRReadLong (s.take n)
      = if 8 ≤ n then .ok (v, s1.take (n - 8)) else .error .undefinedBehaviour := by
  unfold RediStar_BRReadLong at h
  split at h
  · rename_i hlen
    simp only [Except.ok.injEq, Prod.mk.injEq] at h
    by_cases h8 : 8 ≤ n
    · rw [if_pos h8]
      unfold RediStar_BRReadLong
      rw [if_pos (by rw [List.length_take]; omega), List.take_take, List.drop_take,
        Nat.min_eq_left h8, h.1, h.2]
    · rw [if_neg h8]
      exact RediStar_BRReadLong_short (by rw [List.length_take]; omega)
  · cases h

theorem RediStar_BRReadBuffer_take {s s2 : List Byte} {b : List Byte}
    (h : RediStar_BRReadBuffer s = .ok (b, s2)) (n : Nat) :
    s.length = 8 + b.length + s2.length
    ∧ RediStar_BRReadBuffer (s.take n)
      = if 8 + b.length ≤ n then .ok (b, s2.take (n - (8 + b.length)))
        else .error .undefinedBehaviour := by
  unfold RediStar_BRReadBuffer at h
  split at h
  · cases h
  · rename_i len s1 h1
    have hl := RediStar_BRReadLong_length h1
    split at h
    · rename_i hle
      simp only [Except.ok.injEq, Prod.mk.injEq] at h
      have hb : b.length = toSizeT len := by
        rw [← h.1, List.length_take]
        omega
      have hs2 : s2.length = s1.length - toSizeT len := by
        rw [← h.2, List.length_drop]
      refine ⟨by omega, ?_⟩
      unfold RediStar_BRReadBuffer
      rw [RediStar_BRReadLong_take h1 n]
      by_cases h8 : 8 ≤ n
      · rw [if_pos h8]
        simp only
        by_cases hn : 8 + b.length ≤ n
        · rw [if_pos hn, if_pos (by rw [List.length_take]; omega), List.take_take,
            List.drop_take, Nat.min_eq_left (by omega), h.1, h.2]
          congr 3
          omega
        · rw [if_neg hn, if_neg (by rw [List.length_take]; omega)]
      · rw [if_neg h8, if_neg (by omega)]
    · cases h

theorem deserializeChildren_contains
    (self : BufferReader → Except Fault (Record × BufferReader)) :
    ∀ (k : Nat) (acc : List Record) (s : BufferReader) (v : Record) (r : BufferReader),
      deserializeChildren self k (.listRecord acc) s = .ok (v, r) →
        ∀ a ∈ acc, ∀ x ∈ a.subrecords, x ∈ v.subrecords := by
  intro k
  induction k with
  | zero =>
    intro acc s v r h a ha x hx
    simp only [deserializeChildren, Except.ok.injEq, Prod.mk.injEq] at h
    rw [← h.1]
    exact Record.mem_subrecords_list ha hx
  | succ k ih =>
    intro acc s v r h a ha x hx
    rw [deserializeChildren] at h
    split at h
    · cases h
    · rename_i element s1 h1
      simp only [RS_ListRecordAdd, array_append] at h
      exact ih _ _ _ _ h a (List.mem_append_left _ ha) x hx

theorem hasForeignObject_of_subset {a v : Record}
    (h : ∀ x ∈ a.subrecords, x ∈ v.subrecords) (hv : v.hasForeignObject = false) :
    a.hasForeignObject = false := by
  simp only [Record.hasForeignObject, List.any_eq_false] at hv ⊢
  exact fun x hx => hv x (h x hx)

theorem deserializeChildren_take
    {self : BufferReader → Except Fault (Record × BufferReader)}
    (hself : ∀ s v r, self s = .ok (v, r) → v.hasForeignObject = false →
      ∃ c, s.length = c + r.length ∧ ∀ n, self (s.take n)
        = if c ≤ n then .ok (v, r.take (n - c)) else .error .undefinedBehaviour) :
    ∀ (k : Nat) (acc : List Record) (s : BufferReader) (v : Record) (r : BufferReader),
      deserializeChildren self k (.listRecord acc) s = .ok (v, r) →
      v.hasForeignObject = false →
      ∃ c, s.length = c + r.length ∧ ∀ n, deserializeChildren self k (.listRecord acc) (s.take n)
        = if c ≤ n then .ok (v, r.take (n - c)) else .error .undefinedBehaviour := by
  intro k
  induction k with
  | zero =>
    intro acc s v r h _
    simp only [deserializeChildren, Except.ok.injEq, Prod.mk.injEq] at h
    refine ⟨0, by rw [h.2]; omega, fun n => ?_⟩
    rw [deserializeChildren, if_pos (Nat.zero_le _), h.1, ← h.2]
    rfl
  | succ k ih =>
    intro acc s v r h hv
    have h0 := h
    rw [deserializeChildren] at h
    split at h
    · cases h
    · rename_i element s1 h1
      simp only [RS_ListRecordAdd, array_append] at h
      have he : element.hasForeignObject = false :=
        hasForeignObject_of_subset
          (deserializeChildren_contains self _ _ _ _ _ h element (by simp)) hv
      obtain ⟨c1, hl1, hn1⟩ := hself s element s1 h1 he
      obtain ⟨c2, hl2, hn2⟩ := ih _ _ _ _ h hv
      refine ⟨c1 + c2, by omega, fun n => ?_⟩
      rw [deserializeChildren, hn1 n]
      by_cases hc1 : c1 ≤ n
      · rw [if_pos hc1]
        simp only [RS_ListRecordAdd, array_append]
        rw [hn2 (n - c1)]
        by_cases hc : c1 + c2 ≤ n
        · rw [if_pos hc, if_pos (by omega), Nat.sub_sub]
        · rw [if_neg hc, if_neg (by omega)]
      · rw [if_neg hc1, if_neg (by omega)]

theorem deserializeBody_take (E : Env)
    {self : BufferReader → Except Fault (Record × BufferReader)}
    (hself : ∀ s v r, self s = .ok (v, r) → v.hasForeignObject = false →
      ∃ c, s.length = c + r.length ∧ ∀ n, self (s.take n)
        = if c ≤ n then .ok (v, r.take (n - c)) else .error .undefinedBehaviour)
    (s : BufferReader) (v : Record) (r : BufferReader)
    (h : deserializeBody E self s = .ok (v, r)) (hv : v.hasForeignObject = false) :
    ∃ c, s.length = c + r.length ∧ ∀ n, deserializeBody E self (s.take n)
      = if c ≤ n then .ok (v, r.take (n - c)) else .error .undefinedBehaviour := by
  unfold deserializeBody at h
  cases ht : RediStar_BRReadLong s with
  | error f =>
    rw [ht] at h
    cases h
  | ok p =>
    obtain ⟨t, s1⟩ := p
    rw [ht] at h
    simp only at h
    have hl := RediStar_BRReadLong_length ht
    have hread := RediStar_BRReadLong_take ht
    by_cases c1 : toEnum t = E.tag .STRING_RECORD
    · rw [if_pos c1] at h
      cases h2 : RediStar_BRReadBuffer s1 with
      | error f =>
        rw [h2] at h
        cases h
      | ok p =>
        obtain ⟨temp, s2⟩ := p
        rw [h2] at h
        simp only [Except.ok.injEq, Prod.mk.injEq] at h
        obtain ⟨hv1, hr1⟩ := h
        subst hv1 hr1
        refine ⟨8 + (8 + temp.length), by
          have := (RediStar_BRReadBuffer_take h2 0).1
          omega, fun n => ?_⟩
        unfold deserializeBody
        rw [hread n]
        by_cases h8 : 8 ≤ n
        · rw [if_pos h8]
          simp only [if_pos c1]
          rw [(RediStar_BRReadBuffer_take h2 (n - 8)).2]
          by_cases hn : 8 + (8 + temp.length) ≤ n
          · rw [if_pos hn, if_pos (by omega), Nat.sub_sub]
          · rw [if_neg hn, if_neg (by omega)]
        · rw [if_neg h8, if_neg (by omega)]
    rw [if_neg c1] at h
    by_cases c2 : toEnum t = E.tag .LONG_RECORD
    · rw [if_pos c2] at h
      cases h2 : RediStar_BRReadLong s1 with
      | error f =>
        rw [h2] at h
        cases h
      | ok p =>
        obtain ⟨num, s2⟩ := p
        rw [h2] at h
        simp only [Except.ok.injEq, Prod.mk.injEq] at h
        obtain ⟨hv1, hr1⟩ := h
        subst hv1 hr1
        have hl2 := RediStar_BRReadLong_length h2
        refine ⟨8 + 8, by omega, fun n => ?_⟩
        unfold deserializeBody
        rw [hread n]
        by_cases h8 : 8 ≤ n
        · rw [if_pos h8]
          simp only [if_neg c1, if_pos c2]
          rw [RediStar_BRReadLong_take h2 (n - 8)]
          by_cases hn : 8 + 8 ≤ n
          · rw [if_pos hn, if_pos (by omega), Nat.sub_sub]
          · rw [if_neg hn, if_neg (by omega)]
        · rw [if_neg h8, if_neg (by omega)]
    rw [if_neg c2] at h
    by_cases c3 : toEnum t = E.tag .DOUBLE_RECORD
    · rw [if_pos c3] at h
      cases h2 : RediStar_BRReadLong s1 with
      | error f =>
        rw [h2] at h
        cases h
      | ok p =>
        obtain ⟨num, s2⟩ := p
        rw [h2] at h
        simp only [Except.ok.injEq, Prod.mk.injEq] at h
        obtain ⟨hv1, hr1⟩ := h
        subst hv1 hr1
        have hl2 := RediStar_BRReadLong_length h2
        refine ⟨8 + 8, by omega, fun n => ?_⟩
        unfold deserializeBody
        rw [hread n]
        by_cases h8 : 8 ≤ n
        · rw [if_pos h8]
          simp only [if_neg c1, if_neg c2, if_pos c3]
          rw [RediStar_BRReadLong_take h2 (n - 8)]
          by_cases hn : 8 + 8 ≤ n
          · rw [if_pos hn, if_pos (by omega), Nat.sub_sub]
          · rw [if_neg hn, if_neg (by omega)]
        · rw [if_neg h8, if_neg (by omega)]
    rw [if_neg c3] at h
    by_cases c4 : toEnum t = E.tag .LIST_RECORD
    · rw [if_pos c4] at h
      cases h2 : RediStar_BRReadLong s1 with
      | error f =>
        rw [h2] at h
        cases h
      | ok p =>
        obtain ⟨cnt, s2⟩ := p
        rw [h2] at h
        simp only [RS_ListRecordCreate, array_new] at h
        have hl2 := RediStar_BRReadLong_length h2
        obtain ⟨c, hc, hn1⟩ := deserializeChildren_take hself _ _ _ _ _ h hv
        refine ⟨8 + 8 + c, by omega, fun n => ?_⟩
        unfold deserializeBody
        rw [hread n]
        by_cases h8 : 8 ≤ n
        · rw [if_pos h8]
          simp only [if_neg c1, if_neg c2, if_neg c3, if_pos c4]
          rw [RediStar_BRReadLong_take h2 (n - 8)]
          by_cases h16 : 8 ≤ n - 8
          · rw [if_pos h16]
            simp only [RS_ListRecordCreate, array_new]
            rw [hn1 (n - 8 - 8)]
            by_cases hn : 8 + 8 + c ≤ n
            · rw [if_pos hn, if_pos (by omega)]
              congr 3
              omega
            · rw [if_neg hn, if_neg (by omega)]
          · rw [if_neg h16, if_neg (by omega)]
        · rw [if_neg h8, if_neg (by omega)]
    rw [if_neg c4] at h
    by_cases c5 : toEnum t = E.tag .KEY_RECORD
    · rw [if_pos c5] at h
      unfold RediStar_BRReadString at h
      cases h2 : RediStar_BRReadBuffer s1 with
      | error f =>
        rw [h2] at h
        cases h
      | ok p =>
        obtain ⟨span, s2⟩ := p
        rw [h2] at h
        simp only at h
        have hl2 := (RediStar_BRReadBuffer_take h2 0).1
        cases hdup : RS_STRDUP span with
        | error f =>
          rw [hdup] at h
          cases h
        | ok key =>
          rw [hdup] at h
          simp only [RS_KeyRecordSetKey, RS_KeyRecordCreate] at h
          cases h4 : RediStar_BRReadLong s2 with
          | error f =>
            rw [h4] at h
            cases h
          | ok p =>
            obtain ⟨flag, s3⟩ := p
            rw [h4] at h
            simp only at h
            have hl4 := RediStar_BRReadLong_length h4
            by_cases hflag : toBool flag = true
            · rw [if_pos hflag] at h
              cases h6 : self s3 with
              | error f =>
                rw [h6] at h
                cases h
              | ok p =>
                obtain ⟨val, s4⟩ := p
                rw [h6] at h
                simp only [RS_KeyRecordSetVal, Except.ok.injEq, Prod.mk.injEq] at h
                obtain ⟨hv1, hr1⟩ := h
                subst hv1 hr1
                have hval : val.hasForeignObject = false :=
                  hasForeignObject_of_subset (fun x hx => Record.mem_subrecords_key hx) hv
                obtain ⟨c, hc, hn1⟩ := hself s3 val _ h6 hval
                refine ⟨8 + (8 + span.length) + 8 + c, by omega, fun n => ?_⟩
                unfold deserializeBody
                rw [hread n]
                by_cases h8 : 8 ≤ n
                · rw [if_pos h8]
                  simp only [if_neg c1, if_neg c2, if_neg c3, if_neg c4, if_pos c5,
                    RediStar_BRReadString]
                  rw [(RediStar_BRReadBuffer_take h2 (n - 8)).2]
                  by_cases hsp : 8 + span.length ≤ n - 8
                  · rw [if_pos hsp]
                    simp only [hdup, RS_KeyRecordSetKey, RS_KeyRecordCreate]
                    rw [RediStar_BRReadLong_take h4 (n - 8 - (8 + span.length))]
                    by_cases hfl : 8 ≤ n - 8 - (8 + span.length)
                    · rw [if_pos hfl]
                      simp only [if_pos hflag]
                      rw [hn1 (n - 8 - (8 + span.length) - 8)]
                      by_cases hn : 8 + (8 + span.length) + 8 + c ≤ n
                      · rw [if_pos hn, if_pos (by omega)]
                        simp only [RS_KeyRecordSetVal]
                        congr 3
                        omega
                      · rw [if_neg hn, if_neg (by omega)]
                    · rw [if_neg hfl, if_neg (by omega)]
                  · rw [if_neg hsp, if_neg (by omega)]
                · rw [if_neg h8, if_neg (by omega)]
            · rw [if_neg hflag] at h
              simp only [RS_KeyRecordSetVal, Except.ok.injEq, Prod.mk.injEq] at h
              obtain ⟨hv1, hr1⟩ := h
              subst hv1 hr1
              refine ⟨8 + (8 + span.length) + 8, by omega, fun n => ?_⟩
              unfold deserializeBody
              rw [hread n]
              by_cases h8 : 8 ≤ n
              · rw [if_pos h8]
                simp only [if_neg c1, if_neg c2, if_neg c3, if_neg c4, if_pos c5,
                  RediStar_BRReadString]
                rw [(RediStar_BRReadBuffer_take h2 (n - 8)).2]
                by_cases hsp : 8 + span.length ≤ n - 8
                · rw [if_pos hsp]
                  simp only [hdup, RS_KeyRecordSetKey, RS_KeyRecordCreate]
                  rw [RediStar_BRReadLong_take h4 (n - 8 - (8 + span.length))]
                  by_cases hn : 8 + (8 + span.length) + 8 ≤ n
                  · rw [if_pos (by omega), if_pos hn]
                    simp only [if_neg hflag, RS_KeyRecordSetVal]
                    congr 3
                    omega
                  · rw [if_neg (by omega), if_neg hn]
                · rw [if_neg hsp, if_neg (by omega)]
              · rw [if_neg h8, if_neg (by omega)]
    rw [if_neg c5] at h
    by_cases c6 : toEnum t = E.tag .KEY_HANDLER_RECORD
    · rw [if_pos c6] at h
      cases h
    rw [if_neg c6] at h
    by_cases c7 : E.withPython = true ∧ toEnum t = E.tag .PY_RECORD
    · rw [if_pos c7] at h
      cases h2 : E.pyDeserialize s1 with
      | error f =>
        rw [h2] at h
        cases h
      | ok p =>
        obtain ⟨obj, used⟩ := p
        rw [h2] at h
        simp only [Except.ok.injEq, Prod.mk.injEq] at h
        rw [← h.1] at hv
        simp [Record.hasForeignObject, Record.subrecords, Record.isOfType, RS_RecordGetType] at hv
    · rw [if_neg c7] at h
      cases h

theorem deserializeDepth_take (E : Env) :
    ∀ (d : Nat) (s : BufferReader) (v : Record) (r : BufferReader),
      deserializeDepth E d s = .ok (v, r) → v.hasForeignObject = false →
      ∃ c, s.length = c + r.length ∧ ∀ n, deserializeDepth E d (s.take n)
        = if c ≤ n then .ok (v, r.take (n - c)) else .error .undefinedBehaviour := by
  intro d
  induction d with
  | zero => intro s v r h; cases h
  | succ d ih =>
    intro s v r h hv
    rw [deserializeDepth] at h
    obtain ⟨c, hc, hlaw⟩ := deserializeBody_take E ih s v r h hv
    exact ⟨c, hc, fun n => by rw [deserializeDepth]; exact hlaw n⟩

theorem deserialize_truncated (E : Env) (s : BufferReader) (v : Record) (r : BufferReader)
    (n : Nat) (h : RS_DeserializeRecord E s = .ok (v, r)) (hv : v.hasForeignObject = false)
    (hn : n < s.length - r.length) :
    RS_DeserializeRecord E (s.take n) = .error .undefinedBehaviour := by
  unfold RS_DeserializeRecord at h
  obtain ⟨c, hc, hlaw⟩ := deserializeDepth_take E _ s v r h hv
  have h1 := hlaw n
  rw [if_neg (by omega)] at h1
  rw [← RS_DeserializeRecord_depth E (s.length + 1) (s.take n)
    (by rw [List.length_take]; omega)]
  exact h1

theorem toSizeT_toLong (v : Int) : toSizeT (toLong v) = toSizeT v := by
  unfold toSizeT toLong
  omega

theorem deserializeChildren_exhausted (E : Env) (cs : List Record)
    (hcs : ∀ c ∈ cs, c.wellTyped = true ∧ Record.Transmissible E c) :
    ∀ (k : Nat) (acc : List Record), cs.length < k →
      deserializeChildren (RS_DeserializeRecord E) k (.listRecord acc)
        ((cs.map (encode E)).flatten) = .error .undefinedBehaviour := by
  induction cs with
  | nil =>
    intro k acc hk
    obtain ⟨k1, rfl⟩ := Nat.exists_eq_succ_of_ne_zero (by omega : k ≠ 0)
    rfl
  | cons c cs ih =>
    intro k acc hk
    obtain ⟨k1, rfl⟩ := Nat.exists_eq_succ_of_ne_zero (by omega : k ≠ 0)
    obtain ⟨hw, ht⟩ := hcs c (List.mem_cons_self _ _)
    rw [List.map_cons, List.flatten_cons, deserializeChildren,
      deserialize_encode_append E c _ hw ht]
    simp only [RS_ListRecordAdd, array_append]
    exact ih (fun x hx => hcs x (List.mem_cons_of_mem _ hx)) k1 _
      (by simp only [List.length_cons] at hk; omega)

theorem deserialize_count_too_large (E : Env) (cnt : Int) (cs : List Record)
    (hcs : ∀ c ∈ cs, c.wellTyped = true ∧ Record.Transmissible E c)
    (hlt : cs.length < toSizeT cnt) :
    RS_DeserializeRecord E (longBytes (E.tag .LIST_RECORD)
      ++ (longBytes cnt ++ (cs.map (encode E)).flatten)) = .error .undefinedBehaviour := by
  rw [RS_DeserializeRecord_eq, deserializeBody_list, RediStar_BRReadLong_append]
  simp only [toSizeT_toLong, RS_ListRecordCreate, array_new]
  exact deserializeChildren_exhausted E cs hcs _ _ hlt

theorem Primitives.readLong_of_le (P : Primitives) {br : BufferReader} (h : 8 ≤ br.length) :
    P.readLong br = RediStar_BRReadLong br := by
  unfold Primitives.readLong RediStar_BRReadLong
  rw [if_pos h, if_pos h]

theorem Primitives.readLong_append (P : Primitives) (v : Int) (rest : List Byte) :
    P.readLong (longBytes v ++ rest) = .ok (toLong v, rest) := by
  rw [P.readLong_of_le (by simp [longBytes_length]), RediStar_BRReadLong_append]

theorem deserializeBodyWith_spec (E : Env)
    (self : BufferReader → List Event × Except Fault (Record × BufferReader))
    (br : BufferReader) :
    deserializeBodyWith specPrimitives E self br = deserializeBodyTraced E self br := rfl

theorem deserializeDepthWith_spec (E : Env) (depth : Nat) :
    deserializeDepthWith specPrimitives E depth = deserializeDepthTraced E depth := by
  induction depth with
  | zero => rfl
  | succ d ih =>
    funext br
    rw [deserializeDepthWith, deserializeDepthTraced, ih, deserializeBodyWith_spec]

theorem deserializeChildrenTraced_no_release
    {self : BufferReader → List Event × Except Fault (Record × BufferReader)}
    (hself : ∀ b, (self b).1 = []) :
    ∀ (n : Nat) (acc : Record) (br : BufferReader),
      (deserializeChildrenTraced self n acc br).1 = [] := by
  intro n
  induction n with
  | zero => intro acc br; rfl
  | succ n ih =>
    intro acc br
    rw [deserializeChildrenTraced]
    have h0 := hself br
    rcases hs : self br with ⟨evs, res⟩
    rw [hs] at h0
    simp only at h0
    subst h0
    cases res with
    | error g => rfl
    | ok p =>
      obtain ⟨element, br1⟩ := p
      simp only
      cases RS_ListRecordAdd acc element with
      | error g => rfl
      | ok r1 =>
        simp only
        have h1 := ih r1 br1
        rcases hc : deserializeChildrenTraced self n r1 br1 with ⟨evs1, res1⟩
        rw [hc] at h1
        simp only at h1
        subst h1
        rfl

theorem deserializeBodyWith_no_release (P : Primitives) (E : Env)
    {self : BufferReader → List Event × Except Fault (Record × BufferReader)}
    (hself : ∀ b, (self b).1 = []) (br : BufferReader) :
    (deserializeBodyWith P E self br).1 = [] := by
  unfold deserializeBodyWith
  cases P.readLong br with
  | error f => rfl
  | ok p =>
    obtain ⟨t, br1⟩ := p
    simp only
    split
    · cases P.readBuffer br1 with
      | error f => rfl
      | ok p => rfl
    split
    · cases P.readLong br1 with
      | error f => rfl
      | ok p => rfl
    split
    · cases P.readLong br1 with
      | error f => rfl
      | ok p => rfl
    split
    · cases P.readLong br1 with
      | error f => rfl
      | ok p =>
        obtain ⟨n, br2⟩ := p
        simp only
        cases P.arrayNew (toSizeT n) with
        | some f => rfl
        | none => exact deserializeChildrenTraced_no_release hself _ _ _
    split
    · cases P.readString br1 with
      | error f => rfl
      | ok p =>
        obtain ⟨span, br2⟩ := p
        simp only
        cases RS_STRDUP span with
        | error f => rfl
        | ok key =>
          simp only [RS_KeyRecordSetKey, RS_KeyRecordCreate, RS_KeyRecordSetVal]
          cases P.readLong br2 with
          | error f => rfl
          | ok p =>
            obtain ⟨flag, br3⟩ := p
            simp only
            split
            · have h0 := hself br3
              rcases hs : self br3 with ⟨evs, res⟩
              rw [hs] at h0
              simp only at h0
              subst h0
              cases res with
              | error f => rfl
              | ok p => rfl
            · rfl
    split
    · rfl
    split
    · cases E.pyDeserialize br1 with
      | error f => rfl
      | ok p => rfl
    · rfl

theorem deserializeDepthWith_no_release (P : Primitives) (E : Env) :
    ∀ (depth : Nat) (br : BufferReader), (deserializeDepthWith P E depth br).1 = [] := by
  intro depth
  induction depth with
  | zero => intro br; rfl
  | succ d ih =>
    intro br
    rw [deserializeDepthWith]
    exact deserializeBodyWith_no_release P E ih br

theorem faulting_readLong_ok (f : Fault) (a : Nat → Option Fault) {br : BufferReader}
    {y : Int × BufferReader} (h : (Primitives.faulting f a).readLong br = .ok y) :
    RediStar_BRReadLong br = .ok y := by
  unfold Primitives.readLong at h
  unfold RediStar_BRReadLong
  split at h
  · rename_i h8
    rw [if_pos h8]
    exact h
  · cases h

theorem faulting_readBuffer_ok (f : Fault) (a : Nat → Option Fault) {br : BufferReader}
    {y : List Byte × BufferReader} (h : (Primitives.faulting f a).readBuffer br = .ok y) :
    RediStar_BRReadBuffer br = .ok y := by
  unfold Primitives.readBuffer at h
  unfold RediStar_BRReadBuffer
  cases h1 : (Primitives.faulting f a).readLong br with
  | error g =>
    rw [h1] at h
    cases h
  | ok p =>
    obtain ⟨n, br1⟩ := p
    rw [h1] at h
    rw [faulting_readLong_ok f a h1]
    simp only at h ⊢
    split at h
    · rename_i hle
      rw [if_pos hle]
      exact h
    · cases h

theorem deserializeChildrenTraced_sound
    {selfG : BufferReader → List Event × Except Fault (Record × BufferReader)}
    {selfS : BufferReader → Except Fault (Record × BufferReader)}
    (hself : ∀ b x, (selfG b).2 = .ok x → selfS b = .ok x) :
    ∀ (n : Nat) (acc : Record) (br : BufferReader) (x : Record × BufferReader),
      (deserializeChildrenTraced selfG n acc br).2 = .ok x →
        deserializeChildren selfS n acc br = .ok x := by
  intro n
  induction n with
  | zero =>
    intro acc br x h
    exact h
  | succ n ih =>
    intro acc br x h
    rw [deserializeChildrenTraced] at h
    rw [deserializeChildren]
    rcases hs : selfG br with ⟨evs, res⟩
    rw [hs] at h
    cases res with
    | error g => cases h
    | ok p =>
      obtain ⟨element, br1⟩ := p
      rw [hself br (element, br1) (by rw [hs])]
      simp only at h ⊢
      cases ha : RS_ListRecordAdd acc element with
      | error g =>
        rw [ha] at h
        cases h
      | ok r1 =>
        rw [ha] at h
        simp only at h ⊢
        exact ih r1 br1 x h

theorem deserializeBodyWith_sound (f : Fault) (a : Nat → Option Fault) (E : Env)
    {selfG : BufferReader → List Event × Except Fault (Record × BufferReader)}
    {selfS : BufferReader → Except Fault (Record × BufferReader)}
    (hself : ∀ b x, (selfG b).2 = .ok x → selfS b = .ok x) (br : BufferReader)
    (x : Record × BufferReader)
    (h : (deserializeBodyWith (Primitives.faulting f a) E selfG br).2 = .ok x) :
    deserializeBody E selfS br = .ok x := by
  unfold deserializeBodyWith at h
  unfold deserializeBody
  cases h1 : (Primitives.faulting f a).readLong br with
  | error g =>
    rw [h1] at h
    cases h
  | ok p =>
    obtain ⟨t, br1⟩ := p
    rw [h1] at h
    rw [faulting_readLong_ok f a h1]
    simp only at h ⊢
    by_cases c1 : toEnum t = E.tag .STRING_RECORD
    · rw [if_pos c1] at h ⊢
      cases h2 : (Primitives.faulting f a).readBuffer br1 with
      | error g =>
        rw [h2] at h
        cases h
      | ok p =>
        rw [h2] at h
        rw [faulting_readBuffer_ok f a h2]
        exact h
    rw [if_neg c1] at h ⊢
    by_cases c2 : toEnum t = E.tag .LONG_RECORD
    · rw [if_pos c2] at h ⊢
      cases h2 : (Primitives.faulting f a).readLong br1 with
      | error g =>
        rw [h2] at h
        cases h
      | ok p =>
        rw [h2] at h
        rw [faulting_readLong_ok f a h2]
        exact h
    rw [if_neg c2] at h ⊢
    by_cases c3 : toEnum t = E.tag .DOUBLE_RECORD
    · rw [if_pos c3] at h ⊢
      cases h2 : (Primitives.faulting f a).readLong br1 with
      | error g =>
        rw [h2] at h
        cases h
      | ok p =>
        rw [h2] at h
        rw [faulting_readLong_ok f a h2]
        exact h
    rw [if_neg c3] at h ⊢
    by_cases c4 : toEnum t = E.tag .LIST_RECORD
    · rw [if_pos c4] at h ⊢
      cases h2 : (Primitives.faulting f a).readLong br1 with
      | error g =>
        rw [h2] at h
        cases h
      | ok p =>
        obtain ⟨n, br2⟩ := p
        rw [h2] at h
        rw [faulting_readLong_ok f a h2]
        simp only at h ⊢
        cases h3 : (Primitives.faulting f a).arrayNew (toSizeT n) with
        | some g =>
          rw [h3] at h
          cases h
        | none =>
          rw [h3] at h
          exact deserializeChildrenTraced_sound hself _ _ _ x h
    rw [if_neg c4] at h ⊢
    by_cases c5 : toEnum t = E.tag .KEY_RECORD
    · rw [if_pos c5] at h ⊢
      unfold Primitives.readString at h
      unfold RediStar_BRReadString
      cases h2 : (Primitives.faulting f a).readBuffer br1 with
      | error g =>
        rw [h2] at h
        cases h
      | ok p =>
        obtain ⟨span, br2⟩ := p
        rw [h2] at h
        rw [faulting_readBuffer_ok f a h2]
        simp only at h ⊢
        cases hd : RS_STRDUP span with
        | error g =>
          rw [hd] at h
          cases h
        | ok key =>
          rw [hd] at h
          simp only [RS_KeyRecordSetKey, RS_KeyRecordCreate] at h ⊢
          cases h4 : (Primitives.faulting f a).readLong br2 with
          | error g =>
            rw [h4] at h
            cases h
          | ok p =>
            obtain ⟨flag, br3⟩ := p
            rw [h4] at h
            rw [faulting_readLong_ok f a h4]
            simp only at h ⊢
            by_cases hflag : toBool flag = true
            · rw [if_pos hflag] at h ⊢
              rcases hs : selfG br3 with ⟨evs, res⟩
              rw [hs] at h
              cases res with
              | error g => cases h
              | ok p =>
                obtain ⟨val, br4⟩ := p
                rw [hself br3 (val, br4) (by rw [hs])]
                exact h
            · rw [if_neg hflag] at h ⊢
              exact h
    rw [if_neg c5] at h ⊢
    by_cases c6 : toEnum t = E.tag .KEY_HANDLER_RECORD
    · rw [if_pos c6] at h
      cases h
    rw [if_neg c6] at h ⊢
    by_cases c7 : E.withPython = true ∧ toEnum t = E.tag .PY_RECORD
    · rw [if_pos c7] at h ⊢
      cases h2 : E.pyDeserialize br1 with
      | error g =>
        rw [h2] at h
        cases h
      | ok p =>
        rw [h2] at h
        exact h
    · rw [if_neg c7] at h
      cases h

theorem deserializeDepthWith_sound (f : Fault) (a : Nat → Option Fault) (E : Env) :
    ∀ (depth : Nat) (br : BufferReader) (x : Record × BufferReader),
      (deserializeDepthWith (Primitives.faulting f a) E depth br).2 = .ok x →
        deserializeDepth E depth br = .ok x := by
  intro depth
  induction depth with
  | zero => intro br x h; cases h
  | succ d ih =>
    intro br x h
    rw [deserializeDepthWith] at h
    rw [deserializeDepth]
    exact deserializeBodyWith_sound f a E ih br x h

theorem deserializeChildrenTraced_congr
    {self1 self2 : BufferReader → List Event × Except Fault (Record × BufferReader)}
    {bound : Nat}
    (hself : ∀ b x, b.length ≤ bound → (self1 b).2 = .ok x → x.2.length ≤ b.length)
    (heq : ∀ b, b.length ≤ bound → self1 b = self2 b) :
    ∀ (n : Nat) (acc : Record) (br : BufferReader), br.length ≤ bound →
      deserializeChildrenTraced self1 n acc br = deserializeChildrenTraced self2 n acc br := by
  intro n
  induction n with
  | zero => intro acc br _; rfl
  | succ n ih =>
    intro acc br hb
    rw [deserializeChildrenTraced, deserializeChildrenTraced, ← heq br hb]
    rcases h1 : self1 br with ⟨evs, res⟩
    cases res with
    | error f => rfl
    | ok p =>
      obtain ⟨element, br2⟩ := p
      have h2 := hself br (element, br2) hb (by rw [h1])
      simp only at h2 ⊢
      cases RS_ListRecordAdd acc element with
      | error f => rfl
      | ok r1 =>
        simp only
        rw [ih r1 br2 (by omega)]

theorem deserializeBodyWith_congr (f : Fault) (a : Nat → Option Fault) (E : Env)
    {self1 self2 : BufferReader → List Event × Except Fault (Record × BufferReader)}
    {br : BufferReader}
    (hself : ∀ b x, b.length + 8 ≤ br.length → (self1 b).2 = .ok x → x.2.length ≤ b.length)
    (heq : ∀ b, b.length + 8 ≤ br.length → self1 b = self2 b) :
    deserializeBodyWith (Primitives.faulting f a) E self1 br
      = deserializeBodyWith (Primitives.faulting f a) E self2 br := by
  unfold deserializeBodyWith
  cases ht : (Primitives.faulting f a).readLong br with
  | error g => rfl
  | ok p =>
    obtain ⟨t, b1⟩ := p
    have hl := RediStar_BRReadLong_length (faulting_readLong_ok f a ht)
    simp only
    by_cases c1 : toEnum t = E.tag .STRING_RECORD
    · rw [if_pos c1, if_pos c1]
    rw [if_neg c1, if_neg c1]
    by_cases c2 : toEnum t = E.tag .LONG_RECORD
    · rw [if_pos c2, if_pos c2]
    rw [if_neg c2, if_neg c2]
    by_cases c3 : toEnum t = E.tag .DOUBLE_RECORD
    · rw [if_pos c3, if_pos c3]
    rw [if_neg c3, if_neg c3]
    by_cases c4 : toEnum t = E.tag .LIST_RECORD
    · rw [if_pos c4, if_pos c4]
      cases h2 : (Primitives.faulting f a).readLong b1 with
      | error g => rfl
      | ok p =>
        obtain ⟨n, b2⟩ := p
        have h3 := RediStar_BRReadLong_length (faulting_readLong_ok f a h2)
        simp only
        cases (Primitives.faulting f a).arrayNew (toSizeT n) with
        | some g => rfl
        | none =>
          exact @deserializeChildrenTraced_congr self1 self2 b2.length
            (fun b x hb => hself b x (by omega)) (fun b hb => heq b (by omega)) _ _ _
            (Nat.le_refl _)
    rw [if_neg c4, if_neg c4]
    by_cases c5 : toEnum t = E.tag .KEY_RECORD
    · rw [if_pos c5, if_pos c5]
      cases h2 : (Primitives.faulting f a).readString b1 with
      | error g => rfl
      | ok p =>
        obtain ⟨span, b2⟩ := p
        have h3 := RediStar_BRReadBuffer_length (faulting_readBuffer_ok f a h2)
        simp only
        cases RS_STRDUP span with
        | error g => rfl
        | ok key =>
          simp only
          cases RS_KeyRecordSetKey RS_KeyRecordCreate (some key) (strlen key) with
          | error g => rfl
          | ok r =>
            simp only
            cases h4 : (Primitives.faulting f a).readLong b2 with
            | error g => rfl
            | ok p =>
              obtain ⟨flag, b3⟩ := p
              have h5 := RediStar_BRReadLong_length (faulting_readLong_ok f a h4)
              simp only
              rw [heq b3 (by omega)]
    rw [if_neg c5, if_neg c5]

theorem deserializeDepthWith_length (f : Fault) (a : Nat → Option Fault) (E : Env) (n : Nat)
    (br : BufferReader) (x : Record × BufferReader)
    (h : (deserializeDepthWith (Primitives.faulting f a) E n br).2 = .ok x) :
    x.2.length + 8 ≤ br.length :=
  deserializeDepth_length E n br x.1 x.2 (deserializeDepthWith_sound f a E n br x h)

theorem deserializeDepthWith_enough (f : Fault) (a : Nat → Option Fault) (E : Env) :
    ∀ (n m : Nat) (br : BufferReader), br.length < n → br.length < m →
      deserializeDepthWith (Primitives.faulting f a) E n br
        = deserializeDepthWith (Primitives.faulting f a) E m br := by
  intro n
  induction n with
  | zero => intro m br h; omega
  | succ n ih =>
    intro m br hn hm
    obtain ⟨m1, rfl⟩ := Nat.exists_eq_succ_of_ne_zero (by omega : m ≠ 0)
    rw [deserializeDepthWith, deserializeDepthWith]
    exact deserializeBodyWith_congr f a E
      (fun b x _ hb => by have := deserializeDepthWith_length f a E n b x hb; omega)
      (fun b hb => ih m1 b (by omega) (by omega))

theorem deserializeDepthWith_array_alloc (P : Primitives) (E : Env) (depth : Nat) (cnt : Int)
    (rest : List Byte) (g : Fault) (h : P.arrayNew (toSizeT cnt) = some g) :
    deserializeDepthWith P E (depth + 1)
      (longBytes (E.tag .LIST_RECORD) ++ (longBytes cnt ++ rest)) = ([], .error g) := by
  rw [deserializeDepthWith]
  simp [deserializeBodyWith, Primitives.readLong_append, toEnum_toLong_tag, Env.tag_eq_iff,
    toSizeT_toLong, h]

theorem malformed_undefined_by_spec_reader (E : Env) (br : BufferReader) (h : Malformed E br) :
    RS_DeserializeRecord E br = .error .undefinedBehaviour := by
  cases h with
  | count cnt cs hcs hlt => exact deserialize_count_too_large E cnt cs hcs hlt
  | truncated s v r n hs hv hn => exact deserialize_truncated E s v r n hs hv hn

theorem malformed_fault_by_faulting_reader (f : Fault) (a : Nat → Option Fault) (E : Env)
    (br : BufferReader) (h : Malformed E br) :
    ∃ g, ∀ depth, br.length < depth →
      deserializeDepthWith (Primitives.faulting f a) E depth br = ([], .error g) := by
  have h0 := deserializeDepthWith_no_release (Primitives.faulting f a) E (br.length + 1) br
  have h1 := deserializeDepthWith_sound f a E (br.length + 1) br
  rw [RS_DeserializeRecord_depth E (br.length + 1) br (Nat.lt_succ_self _),
    malformed_undefined_by_spec_reader E br h] at h1
  rcases hr : deserializeDepthWith (Primitives.faulting f a) E (br.length + 1) br
    with ⟨evs, res⟩
  rw [hr] at h0 h1
  simp only at h0
  subst h0
  cases res with
  | error g =>
    refine ⟨g, fun depth hd => ?_⟩
    rw [deserializeDepthWith_enough f a E depth (br.length + 1) br hd (Nat.lt_succ_self _), hr]
  | ok x => exact absurd (h1 x rfl) (by simp)

theorem shortListExample_malformed : Malformed stdEnv shortListExample := by
  refine Malformed.count 2 [.longRecord 7] ?_ (by decide)
  intro c hc
  rw [List.mem_singleton.mp hc]
  exact ⟨by decide, fun x hx => by
    simp only [Record.subrecords, List.mem_singleton] at hx
    rw [hx]
    trivial⟩

/-- C14, counterexample: the stream announces a list of two children and ends
after the first, the Integer 7.  With a reader for which a read past the end
is undefined behaviour, and with one that stops on an assertion there,
`RS_DeserializeRecord` ends in that fault; it reports no failure and releases
nothing, although a list holding the Integer 7 has been built, whose teardown
would perform two releases of records.  With a reader that returns zero from a
read past the end, the encoding of a list of one Integer cut before the
payload of the Integer is not even noticed: the call returns a list holding
the Integer 0, as for a valid stream. -/
theorem malformed_counterexample :
    RS_DeserializeRecordTraced stdEnv shortListExample = ([], .error .undefinedBehaviour)
    ∧ deserializeDepthWith (Primitives.faulting .assertFailed (fun _ => none)) stdEnv 3
        shortListExample = ([], .error .assertFailed)
    ∧ RS_FreeRecord stdEnv (.listRecord [.longRecord 7])
      = ([.freeRecord (.longRecord 7), .arrayFree 1, .freeRecord (.listRecord [.longRecord 7])],
          none)
    ∧ cutIntegerExample = (encode stdEnv (.listRecord [.longRecord 7])).take 24
    ∧ deserializeDepthWith zeroFillPrimitives stdEnv 3 cutIntegerExample
      = ([], .ok (.listRecord [.longRecord 0], [])) :=
  ⟨rfl, rfl, rfl, rfl, rfl⟩

/-- C14, amended: `RS_DeserializeRecord` has no failure return and no
teardown, whatever the byte-buffer reader does on a read past the end and
whether or not `array_new` succeeds (`P`; `depth` bounds the nesting of the
recursive calls).  On every stream the call performs no release at all, up to
its return or to the fault that ends it, so that nothing of what it has built
is destroyed.  When `array_new` fails for the announced count of a list (a
negative count is, as a `size_t`, a very large one), the call ends in that
fault before any child is read.  When the reader ends the call on a read past
the end, with whatever fault, then on every malformed stream (a List type
followed by a count that is negative or larger than the number of child
encodings that follow, or a stream cut short before the end of what a
successful call consumes for a value without ForeignObject) the call does not
return to its caller, neither a value nor a failure: it ends in a fault, the
same for every bound on the nesting above the length of the stream.  With the
reader and the allocator chosen elsewhere in this development the function is
`RS_DeserializeRecordTraced`. -/
theorem deserialize_malformed (P : Primitives) (E : Env) :
    (∀ depth br, (deserializeDepthWith P E depth br).1 = [])
    ∧ (∀ depth cnt rest g, P.arrayNew (toSizeT cnt) = some g →
        deserializeDepthWith P E (depth + 1)
          (longBytes (E.tag .LIST_RECORD) ++ (longBytes cnt ++ rest)) = ([], .error g))
    ∧ (∀ f, (∀ b, P.shortLong b = .error f) → (∀ k b, P.shortSpan k b = .error f) →
        ∀ br, Malformed E br → ∃ g, ∀ depth, br.length < depth →
          deserializeDepthWith P E depth br = ([], .error g))
    ∧ (P = specPrimitives →
        ∀ br, deserializeDepthWith P E (br.length + 1) br = RS_DeserializeRecordTraced E br) := by
  refine ⟨deserializeDepthWith_no_release P E,
    fun depth cnt rest g h => deserializeDepthWith_array_alloc P E depth cnt rest g h, ?_, ?_⟩
  · intro f h1 h2 br hm
    have hP : P = Primitives.faulting f P.arrayNew := by
      cases P with
      | mk sl ss an =>
        simp only [Primitives.faulting, Primitives.mk.injEq, and_true]
        exact ⟨funext h1, funext fun k => funext fun b => h2 k b⟩
    rw [hP]
    exact malformed_fault_by_faulting_reader f P.arrayNew E br hm
  · intro hP br
    rw [hP, deserializeDepthWith_spec]
    rfl

/-- The amended C14 with a reader that stops on an assertion on a read past
the end and an allocator that fails for more than 1024 elements: the list
that announces two children and holds one ends in a fault and releases
nothing; the list that announces the count -1 ends in the failed
allocation. -/
theorem deserialize_malformed_witness :
    Malformed stdEnv shortListExample
    ∧ (deserializeDepthWith (Primitives.faulting .assertFailed
        (fun n => if n ≤ 1024 then none else some .undefinedBehaviour)) stdEnv 33
          shortListExample).1 = []
    ∧ (∃ g, ∀ depth, shortListExample.length < depth →
        deserializeDepthWith (Primitives.faulting .assertFailed
          (fun n => if n ≤ 1024 then none else some .undefinedBehaviour)) stdEnv depth
            shortListExample = ([], .error g))
    ∧ deserializeDepthWith (Primitives.faulting .assertFailed
        (fun n => if n ≤ 1024 then none else some .undefinedBehaviour)) stdEnv 1
          (longBytes (stdEnv.tag .LIST_RECORD) ++ (longBytes (-1) ++ longBytes 7))
        = ([], .error .undefinedBehaviour) :=
  ⟨shortListExample_malformed,
    (deserialize_malformed _ stdEnv).1 33 shortListExample,
    (deserialize_malformed _ stdEnv).2.2.1 .assertFailed (fun _ => rfl) (fun _ _ => rfl)
      shortListExample shortListExample_malformed,
    (deserialize_malformed _ stdEnv).2.1 0 (-1) (longBytes 7) .undefinedBehaviour (by decide)⟩

end RedisGears
